import Mathlib

/-!
# AliSimulatorHeterogeneity: a shallow embedding

Source: `src/alignment/alisimulatorheterogeneity.cpp`.

Conventions of the embedding.

* `double` values are rationals: every statement about sums is a statement in exact
  arithmetic.  The exception is memory that is read before it is written: a cell of the
  buffer `cache_sub_rates` (`new double[total_elements]`, source line 601) is a `Double`,
  indeterminate until it is written, and so are the values computed from such cells
  (`total_sub_rate`, `sub_rate_by_site`).
* `int` and `short int` values are integers; the state codes, component indices and
  category indices the program stores in `short int` cells are small.
* `vector<T>` and `T*` buffers are lists.  An access whose index is not inside the
  buffer aborts the run with `Fatal.outOfRange`; `ASSERT` and `outError` abort it with
  `Fatal.assertion` and `Fatal.outError`.
* The simulator's mutable members are the fields of `Sim`; everything the functions only
  read (model, rate heterogeneity, alignment, parameters, the random stream, the helpers
  of the base class) is a field of `Env`.
* The random generator is a stream: `Sim.rng` counts the deviates consumed so far and the
  next call of `random_double` / `random_int` returns entry `Sim.rng` of the stream.
* `Sim.sampled_sites` is a ghost field: the sites for which a state sampler
  (`estimateStateFromAccumulatedTransMatrices`, `estimateStateFromOriginalTransMatrix`)
  has been invoked, in call order.
* The code is read without `_OPENMP`: one thread, `thread_id = 0`.
* `rate_heterogeneity` (equal to `tree->getRate()`, set in the constructor) is
  dereferenced unconditionally throughout the file and is taken to be non-null.
-/

set_option linter.unusedVariables false

namespace AliSim

/-! ## Outcomes and buffers -/

/-- Ways in which a call aborts the run. -/
inductive Fatal where
  | outError (msg : String)
  | assertion (expr : String)
  | outOfRange (buffer : String)
  | nullPointer (name : String)
  | engine (msg : String)
  deriving DecidableEq

/-- Checked read `xs[i]`. -/
def readAt {α : Type} (buffer : String) (xs : List α) (i : Int) : Except Fatal α :=
  if i < 0 then .error (.outOfRange buffer)
  else match xs[i.toNat]? with
    | some x => .ok x
    | none => .error (.outOfRange buffer)

/-- Checked write `xs[i] = v`. -/
def writeAt {α : Type} (buffer : String) (xs : List α) (i : Int) (v : α) :
    Except Fatal (List α) :=
  if 0 ≤ i ∧ i.toNat < xs.length then .ok (xs.set i.toNat v)
  else .error (.outOfRange buffer)

/-- Resizing `std::vector::resize(n, fill)`: keeps the first `n` entries, pads with
`fill`. -/
def resize {α : Type} (xs : List α) (n : Nat) (fill : α) : List α :=
  xs.take n ++ List.replicate (n - xs.length) fill

/-- Range insertion `xs.insert(xs.begin() + position, ys.begin(), ys.end())`. -/
def insertRange {α : Type} (buffer : String) (xs : List α) (position : Int) (ys : List α) :
    Except Fatal (List α) :=
  if 0 ≤ position ∧ position ≤ (xs.length : Int) then
    .ok (xs.take position.toNat ++ ys ++ xs.drop position.toNat)
  else .error (.outOfRange buffer)

/-- The loop `for (i = 0; i < n; i++) body`, threading the loop state; it stops at the
first iteration that aborts. -/
def forLoop {σ : Type} (n : Nat) (body : Nat → σ → Except Fatal σ) (init : σ) :
    Except Fatal σ :=
  match n with
  | 0 => .ok init
  | k + 1 =>
    match forLoop k body init with
    | .ok s => body k s
    | .error e => .error e

/-- Running sums of a row: entry `k` of the result is the sum of entries `0..k`. -/
def accumulate (acc : ℚ) : List ℚ → List ℚ
  | [] => []
  | x :: xs => (acc + x) :: accumulate (acc + x) xs

/-- Modelled from the spec: `AliSimulator::convertProMatrixIntoAccumulatedProMatrix` is a
member of the base class, which is not among the sources.  Section 4.1 (`toAccumulated`):
in place, replaces each of the `rows` rows of `cols` entries with its running cumulative
sum; no normalisation. -/
def convertProMatrixIntoAccumulatedProMatrix (matrix : List ℚ) (rows cols : Nat) : List ℚ :=
  match rows with
  | 0 => matrix
  | r + 1 =>
    accumulate 0 (matrix.take cols) ++
      convertProMatrixIntoAccumulatedProMatrix (matrix.drop cols) r cols

/-- A `double` that may be indeterminate.  Memory obtained with `new double[n]` is not
initialised: until a cell is written its content is indeterminate (any bit pattern,
infinities and NaN included), and so is every value computed from it. -/
inductive Double where
  | value (q : ℚ)
  | indeterminate
  deriving DecidableEq

instance (n : Nat) : OfNat Double n := ⟨Double.value n⟩

/-- The sum of two doubles: indeterminate as soon as one operand is. -/
def Double.add : Double → Double → Double
  | .value x, .value y => .value (x + y)
  | _, _ => .indeterminate

instance : Add Double := ⟨Double.add⟩

/-- The product `count * x` of an `int` with a double: indeterminate when `x` is, also for
the count 0. -/
def Double.scale (count : Int) : Double → Double
  | .value x => .value ((count : ℚ) * x)
  | .indeterminate => .indeterminate

/-! ## The collaborators -/

/-- The values of `SiteFreqType`. -/
inductive SiteFreqType where
  | WSF_NONE
  | WSF_POSTERIOR_MEAN
  | WSF_POSTERIOR_MAX
  deriving DecidableEq

/-- What the code asks of a `ModelSubst`. -/
structure ModelSubst where
  isMixture : Bool
  isFused : Bool
  getNMixtures : Int
  getMixtureWeight : Int → ℚ
  /-- Entry `j` of the frequency vector `getStateFrequency(buffer, component)` fills. -/
  getStateFrequency : Int → Nat → ℚ
  /-- Entry `k` of the row-major matrix `computeTransMatrix(time, buffer, component)`
  fills. -/
  computeTransMatrix : ℚ → Int → Nat → ℚ
  /-- Entry `k` of the buffer after `computeTransMatrix(time, buffer, component,
  dad_state)`. -/
  computeTransMatrixFrom : ℚ → Int → Int → Nat → ℚ

/-- What the code asks of the rate-heterogeneity object. -/
structure RateHeterogeneity where
  getNRate : Int
  getNDiscreteRate : Int
  getRate : Int → ℚ
  getProp : Int → ℚ
  getPInvar : ℚ
  isHeterotachy : Bool
  getGammaShape : ℚ
  /-- The vector `computePatternRates` stores in `pattern_rates`. -/
  computePatternRates : List ℚ

/-- What the code asks of the alignment `tree->aln`. -/
structure Alignment where
  getNSite : Int
  getNPattern : Int
  getPatternID : Int → Int
  getMaxNumStates : Int

/-- The parameters the code reads (`print_site_state_freq`, which it also writes, is a
field of `Sim`). -/
structure Params where
  alisim_posterior_mean : Bool
  alisim_inference_mode : Bool
  alisim_mixture_at_sub_level : Bool
  alisim_insertion_ratio : ℚ
  alisim_branch_scale : ℚ
  alisim_max_rate_categories_for_applying_caching : Int
  /-- Whether `alisim_ancestral_sequence_aln_filepath` is a non-null pointer. -/
  alisim_ancestral_sequence_aln_filepath : Bool

/-- Everything a call reads and does not change. -/
structure Env where
  model : ModelSubst
  rate : RateHeterogeneity
  aln : Alignment
  params : Params
  getRateName : String
  is_continuous_gamma : Bool
  /-- The constants of the base-class header. -/
  RATE_ZERO_INDEX : Int
  RATE_ONE_INDEX : Int
  /-- Members of the base class. -/
  STATE_UNKNOWN : Int
  max_num_states : Int
  partition_rate : ℚ
  expected_num_sites : Nat
  sub_rates : List ℚ
  /-- The stream behind `random_double()`. -/
  random_double : Nat → ℚ
  /-- The stream behind `random_int(bound)`. -/
  random_int : Nat → Int → Int
  /-- The deviates of the continuous Gamma generator, by shape and stream position. -/
  gamma_deviate : ℚ → Nat → ℚ
  /-- Contents of freshly allocated `double` cells that have not been written. -/
  uninitialised : Nat → ℚ
  /-- `tree->computePatternStateFreq` under the given `print_site_state_freq`: the cells
  it fills, or the fatal error of the engine. -/
  computePatternStateFreq : SiteFreqType → Except Fatal (Nat → ℚ)
  /-- The cells behind `tree->getPatternLhCatPointer()`. -/
  getPatternLhCatPointer : Nat → ℚ
  /-- Base-class sampler: table, starting index, number of columns, position of the
  largest probability, and the deviate it draws. -/
  getRandomItemWithAccumulatedProbMatrixMaxProbFirst : List ℚ → Int → Int → Int → ℚ → Int
  /-- Base-class sampler: table, deviate, first, last, start. -/
  binarysearchItemWithAccumulatedProbabilityMatrix : List ℚ → ℚ → Int → Int → Int → Int
  /-- Base-class sampler: matrix, starting index, number of columns, and the deviate it
  draws. -/
  getRandomItemWithProbabilityMatrix : List ℚ → Int → Int → ℚ → Int
  /-- The parser `convert_double_vec_with_distributions(text, vec, separator)`. -/
  convert_double_vec_with_distributions : String → Char → Except Fatal (List ℚ)

/-- The mutable members of the simulator. -/
structure Sim where
  site_specific_model_index : List Int
  site_specific_rate_index : List Int
  site_specific_rates : List ℚ
  applyPosMeanRate : Bool
  mixture_accumulated_weight : Option (List ℚ)
  mixture_max_weight_pos : Int
  ptn_state_freq : Option (List ℚ)
  ptn_model_dis : Option (List ℚ)
  pattern_rates : List ℚ
  print_site_state_freq : SiteFreqType
  root_sequence : List Int
  rng : Nat
  sampled_sites : List Nat
  warnings : List String

/-- A buffer `new double[n]`. -/
def newDoubleArray (E : Env) (n : Int) : List ℚ :=
  (List.range n.toNat).map E.uninitialised

/-! ## Model-component assignment (source lines 29-117) -/

/-- `AliSimulatorHeterogeneity::extractPatternPosteriorFreqsAndModelProb`.  The state at
the end of the operation is returned in every case, next to the outcome. -/
def extractPatternPosteriorFreqsAndModelProb (E : Env) (input_sequence_length : Int)
    (s : Sim) : Sim × Except Fatal Unit :=
  let nptn := E.aln.getNPattern
  let nmixture := E.model.getNMixtures
  match s.ptn_state_freq with
  | some _ => (s, .ok ())
  | none =>
    let s1 := { s with ptn_state_freq := some (newDoubleArray E (nptn * E.max_num_states)) }
    let tmp_site_freq_type := s1.print_site_state_freq
    let s2 := { s1 with print_site_state_freq := SiteFreqType.WSF_POSTERIOR_MEAN }
    match E.computePatternStateFreq s2.print_site_state_freq with
    | .error e => (s2, .error e)
    | .ok cells =>
      let freq := (List.range (nptn * E.max_num_states).toNat).map cells
      let dis := (List.range (nptn * nmixture).toNat).map E.getPatternLhCatPointer
      let s3 := { s2 with print_site_state_freq := tmp_site_freq_type }
      ({ s3 with
          ptn_state_freq := some
            (convertProMatrixIntoAccumulatedProMatrix freq nptn.toNat E.max_num_states.toNat),
          ptn_model_dis := some
            (convertProMatrixIntoAccumulatedProMatrix dis nptn.toNat nmixture.toNat) },
        .ok ())

/-- Continue a run after `extractPatternPosteriorFreqsAndModelProb`. -/
def afterExtract (r : Sim × Except Fatal Unit) : Except Fatal Sim :=
  match r.2 with
  | .ok _ => .ok r.1
  | .error e => .error e

/-- The pattern a posterior-based sampler uses for site `i` (source lines 110-113,
208-211, 364-367): the site itself, or a random site when the call serves an insertion or
the site lies beyond the input alignment.  Returns the pattern id and the new position of
the random stream. -/
def sitePattern (E : Env) (insertion_event : Bool) (input_sequence_length : Int) (i : Nat)
    (rng : Nat) : Int × Nat :=
  if insertion_event || decide ((i : Int) ≥ input_sequence_length) then
    (E.aln.getPatternID (E.random_int rng input_sequence_length), rng + 1)
  else
    (E.aln.getPatternID (i : Int), rng)

/-- `AliSimulatorHeterogeneity::intSiteSpecificModelIndexPosteriorProb`. -/
def intSiteSpecificModelIndexPosteriorProb (E : Env) (sequence_length : Nat)
    (new_site_specific_model_index : List Int) (insertion_event : Bool) (s : Sim) :
    Except Fatal (List Int × Sim) := do
  let input_sequence_length := E.aln.getNSite
  let nmixture := E.model.getNMixtures
  let s ← afterExtract (extractPatternPosteriorFreqsAndModelProb E input_sequence_length s)
  forLoop sequence_length (fun i st => do
      let rand_num := E.random_double st.2.rng
      let (site_pattern_id, rng) :=
        sitePattern E insertion_event input_sequence_length i (st.2.rng + 1)
      let starting_index := site_pattern_id * nmixture
      match st.2.ptn_model_dis with
      | none => .error (.nullPointer "ptn_model_dis")
      | some table =>
        let item := E.binarysearchItemWithAccumulatedProbabilityMatrix table rand_num
          starting_index (starting_index + nmixture - 1) starting_index - starting_index
        let idx ← writeAt "new_site_specific_model_index" st.1 i item
        pure (idx, { st.2 with rng := rng }))
    (new_site_specific_model_index, s)

/-- The weights of the model components and the position of the largest one (source
lines 48-64). -/
def mixtureWeights (E : Env) : List ℚ × Int :=
  let num_models := E.model.getNMixtures
  let isFused := E.model.isFused
  (List.range num_models.toNat).foldl (fun (st : List ℚ × Int) (i : Nat) =>
      let w := if isFused then E.rate.getProp i / (1 - E.rate.getPInvar)
        else E.model.getMixtureWeight i
      let weights := st.1.set i w
      (weights,
        if weights.getD i 0 > weights.getD st.2.toNat 0 then (i : Int) else st.2))
    (newDoubleArray E num_models, 0)

/-- `AliSimulatorHeterogeneity::intializeSiteSpecificModelIndex`. -/
def intializeSiteSpecificModelIndex (E : Env) (sequence_length : Nat)
    (new_site_specific_model_index : List Int) (insertion_event : Bool) (s : Sim) :
    Except Fatal (List Int × Sim) :=
  let new_site_specific_model_index := resize new_site_specific_model_index sequence_length 0
  if E.model.isMixture then
    if E.params.alisim_posterior_mean then
      intSiteSpecificModelIndexPosteriorProb E sequence_length new_site_specific_model_index
        insertion_event s
    else do
      let num_models := E.model.getNMixtures
      let (weights, max_pos) := mixtureWeights E
      let s := { s with mixture_max_weight_pos := max_pos }
      let accumulated := convertProMatrixIntoAccumulatedProMatrix weights 1 num_models.toNat
      let s := { s with mixture_accumulated_weight := some accumulated }
      let (idx, rng) ← forLoop sequence_length (fun i (st : List Int × Nat) => do
          let item := E.getRandomItemWithAccumulatedProbMatrixMaxProbFirst accumulated 0
            num_models s.mixture_max_weight_pos (E.random_double st.2)
          let idx ← writeAt "new_site_specific_model_index" st.1 i item
          pure (idx, st.2 + 1))
        (new_site_specific_model_index, s.rng)
      let s := { s with rng := rng }
      if !E.params.alisim_mixture_at_sub_level then
        pure (idx, { s with mixture_accumulated_weight := none })
      else
        pure (idx, s)
  else do
    let idx ← forLoop sequence_length (fun i idx =>
        writeAt "new_site_specific_model_index" idx i 0)
      new_site_specific_model_index
    pure (idx, s)

/-! ## Regenerating a sequence (source lines 119-224) -/

/-- The accumulated base frequencies of all components (source lines 128-146). -/
def baseFreqsAllComponents (E : Env) : List ℚ :=
  let num_models := E.model.getNMixtures
  let num_states := E.aln.getMaxNumStates
  let raw := (List.range num_models.toNat).foldl (fun (all : List ℚ) (i : Nat) =>
      (List.range num_states.toNat).foldl (fun (all : List ℚ) (j : Nat) =>
          all.set (i * num_states.toNat + j) (E.model.getStateFrequency i j)) all)
    (newDoubleArray E (num_models * num_states))
  convertProMatrixIntoAccumulatedProMatrix raw num_models.toNat num_states.toNat

/-- `AliSimulatorHeterogeneity::regenerateSequenceMixtureModel`. -/
def regenerateSequenceMixtureModel (E : Env) (length : Nat)
    (new_site_specific_model_index : List Int) (s : Sim) : Except Fatal (List Int × Sim) := do
  let num_states := E.aln.getMaxNumStates
  let base_freqs_all_components := baseFreqsAllComponents E
  let new_sequence := List.replicate length num_states
  let (new_sequence, rng) ← forLoop length (fun i (st : List Int × Nat) => do
      let rand_num := E.random_double st.2
      let model_index ← readAt "new_site_specific_model_index" new_site_specific_model_index i
      let starting_index := model_index * num_states
      let item := E.binarysearchItemWithAccumulatedProbabilityMatrix base_freqs_all_components
        rand_num starting_index (starting_index + num_states - 1) starting_index
        - starting_index
      let seq ← writeAt "new_sequence" st.1 i item
      pure (seq, st.2 + 1))
    (new_sequence, s.rng)
  pure (new_sequence, { s with rng := rng })

/-- `AliSimulatorHeterogeneity::regenerateSequenceMixtureModelPosteriorMean`. -/
def regenerateSequenceMixtureModelPosteriorMean (E : Env) (length : Nat)
    (insertion_event : Bool) (s : Sim) : Except Fatal (List Int × Sim) := do
  if !E.params.alisim_posterior_mean then
    throw (.assertion "tree->params->alisim_posterior_mean")
  let input_sequence_length := E.aln.getNSite
  let s ← afterExtract (extractPatternPosteriorFreqsAndModelProb E input_sequence_length s)
  let new_sequence := List.replicate length E.max_num_states
  let (new_sequence, s) ← forLoop length (fun i (st : List Int × Sim) => do
      let rand_num := E.random_double st.2.rng
      let (site_pattern_id, rng) :=
        sitePattern E insertion_event input_sequence_length i (st.2.rng + 1)
      let starting_index := site_pattern_id * E.max_num_states
      match st.2.ptn_state_freq with
      | none => .error (.nullPointer "ptn_state_freq")
      | some table =>
        let item := E.binarysearchItemWithAccumulatedProbabilityMatrix table rand_num
          starting_index (starting_index + E.max_num_states - 1) starting_index
          - starting_index
        let seq ← writeAt "new_sequence" st.1 i item
        pure (seq, { st.2 with rng := rng }))
    (new_sequence, s)
  if E.params.alisim_insertion_ratio = 0 then
    pure (new_sequence, { s with ptn_state_freq := none })
  else
    pure (new_sequence, s)

/-! ## Transition matrices (source lines 226-285) -/

/-- `AliSimulatorHeterogeneity::intializeCachingAccumulatedTransMatrices`.  The scratch
buffer `trans_matrix` holds, after each `computeTransMatrix`, the cells the model gives. -/
def intializeCachingAccumulatedTransMatrices (E : Env) (cache_trans_matrix : List ℚ)
    (num_models num_rate_categories : Int) (branch_lengths : List ℚ) (model : ModelSubst) :
    Except Fatal (List ℚ) := do
  let fuse_mixture_model := model.isMixture && model.isFused
  let cache ← forLoop num_models.toNat (fun model_index cache =>
      forLoop num_rate_categories.toNat (fun category_index cache =>
          if fuse_mixture_model && model_index != category_index then pure cache
          else do
            let rate : ℚ := if E.rate.getNRate = 1 then 1 else E.rate.getRate category_index
            let branch_length_by_category ←
              if E.rate.isHeterotachy then readAt "branch_lengths" branch_lengths category_index
              else readAt "branch_lengths" branch_lengths 0
            let time := E.partition_rate * E.params.alisim_branch_scale
              * branch_length_by_category * rate
            forLoop (E.max_num_states * E.max_num_states).toNat (fun trans_index cache =>
                let cache_index : Int :=
                  model_index * num_rate_categories * E.max_num_states * E.max_num_states
                    + category_index * E.max_num_states * E.max_num_states + trans_index
                writeAt "cache_trans_matrix" cache cache_index
                  (model.computeTransMatrix time model_index trans_index))
              cache)
        cache)
    cache_trans_matrix
  pure (convertProMatrixIntoAccumulatedProMatrix cache
    (num_models * num_rate_categories * E.max_num_states).toNat E.max_num_states.toNat)

/-- `AliSimulatorHeterogeneity::estimateStateFromAccumulatedTransMatrices`. -/
def estimateStateFromAccumulatedTransMatrices (E : Env) (cache_trans_matrix : List ℚ)
    (site_specific_rate : ℚ) (site_index : Nat) (num_rate_categories : Int)
    (dad_state : Int) (s : Sim) : Except Fatal (Int × Sim) := do
  let s := { s with sampled_sites := s.sampled_sites ++ [site_index] }
  let model_index ← readAt "site_specific_model_index" s.site_specific_model_index site_index
  let category_index ← readAt "site_specific_rate_index" s.site_specific_rate_index site_index
  let starting_index :=
    model_index * num_rate_categories * E.max_num_states * E.max_num_states
      + category_index * E.max_num_states * E.max_num_states + E.max_num_states * dad_state
  if !decide (category_index > E.RATE_ZERO_INDEX) then
    throw (.assertion "category_index > RATE_ZERO_INDEX")
  let item := E.getRandomItemWithAccumulatedProbMatrixMaxProbFirst cache_trans_matrix
    starting_index E.max_num_states dad_state (E.random_double s.rng)
  pure (item, { s with rng := s.rng + 1 })

/-- `AliSimulatorHeterogeneity::estimateStateFromOriginalTransMatrix`; `site_index` is a
ghost argument, used for `Sim.sampled_sites` only. -/
def estimateStateFromOriginalTransMatrix (E : Env) (model : ModelSubst)
    (model_component_index : Int) (rate : ℚ) (branch_length : ℚ) (dad_state : Int)
    (site_index : Nat) (s : Sim) : Int × Sim :=
  let s := { s with sampled_sites := s.sampled_sites ++ [site_index] }
  let time := E.partition_rate * E.params.alisim_branch_scale * branch_length * rate
  let trans_matrix := (List.range (E.max_num_states * E.max_num_states).toNat).map
    (model.computeTransMatrixFrom time model_component_index dad_state)
  let starting_index := dad_state * E.max_num_states
  (E.getRandomItemWithProbabilityMatrix trans_matrix starting_index E.max_num_states
      (E.random_double s.rng),
    { s with rng := s.rng + 1 })

/-! ## Site-specific rates (source lines 287-436) -/

/-- Modelled from the spec: `RateContinuousGamma::getSiteSpecificRates` is not among the
sources.  Section 4.3: a rate generator that draws one continuous value per site directly
from the gamma density; it fills the `sequence_length` cells of the vector it is given. -/
def getSiteSpecificRatesContinuousGamma (E : Env) (site_specific_rates : List ℚ)
    (sequence_length : Nat) : Except Fatal (List ℚ) :=
  forLoop sequence_length (fun i rates =>
      writeAt "site_specific_rates" rates i (E.gamma_deviate E.rate.getGammaShape i))
    site_specific_rates

/-- The probabilities of the rate categories and the position of the largest one (source
lines 305-317). -/
def categoryProbabilities (E : Env) : List ℚ × Int :=
  let num_rate_categories := E.rate.getNDiscreteRate
  (List.range num_rate_categories.toNat).foldl (fun (st : List ℚ × Int) (i : Nat) =>
      let probs := st.1.set i (E.rate.getProp i)
      (probs, if probs.getD i 0 > probs.getD st.2.toNat 0 then (i : Int) else st.2))
    (newDoubleArray E num_rate_categories, 0)

/-- The category the sampler returns for the deviate at stream position `rng` (source
line 326). -/
def sampledRateCategory (E : Env) (rng : Nat) : Int :=
  E.getRandomItemWithAccumulatedProbMatrixMaxProbFirst
    (convertProMatrixIntoAccumulatedProMatrix (categoryProbabilities E).1 1
      E.rate.getNDiscreteRate.toNat)
    0 E.rate.getNDiscreteRate (categoryProbabilities E).2 (E.random_double rng)

/-- `AliSimulatorHeterogeneity::getSiteSpecificRatesDiscrete`. -/
def getSiteSpecificRatesDiscrete (E : Env) (new_site_specific_rate_index : List Int)
    (site_specific_rates : List ℚ) (sequence_length : Nat) (s : Sim) :
    Except Fatal (List Int × List ℚ × Sim) := do
  let (idx, rates, rng) ← forLoop sequence_length
    (fun i (st : List Int × List ℚ × Nat) => do
      let rate_category := sampledRateCategory E st.2.2
      if rate_category = -1 then do
        let rates ← writeAt "site_specific_rates" st.2.1 i 0
        let idx ← writeAt "new_site_specific_rate_index" st.1 i E.RATE_ZERO_INDEX
        pure (idx, rates, st.2.2 + 1)
      else do
        let rates ← writeAt "site_specific_rates" st.2.1 i (E.rate.getRate rate_category)
        let idx ← writeAt "new_site_specific_rate_index" st.1 i rate_category
        pure (idx, rates, st.2.2 + 1))
    (new_site_specific_rate_index, site_specific_rates, s.rng)
  pure (idx, rates, { s with rng := rng })

/-- `AliSimulatorHeterogeneity::getSiteSpecificPosteriorMeanRates`.  The second assertion
compares an `int` with a `size_t`: it holds exactly for ids inside `pattern_rates`. -/
def getSiteSpecificPosteriorMeanRates (E : Env) (site_specific_rates : List ℚ)
    (sequence_length : Nat) (insertion_event : Bool) (s : Sim) :
    Except Fatal (List ℚ × Sim) := do
  if !E.params.alisim_posterior_mean then
    throw (.assertion "tree->params->alisim_posterior_mean")
  let input_sequence_length := E.aln.getNSite
  let s := if s.pattern_rates.length = 0 then
      { s with pattern_rates := E.rate.computePatternRates } else s
  forLoop sequence_length (fun i (st : List ℚ × Sim) => do
      let (site_pattern_id, rng) :=
        sitePattern E insertion_event input_sequence_length i st.2.rng
      if !decide (0 ≤ site_pattern_id ∧ site_pattern_id < (st.2.pattern_rates.length : Int)) then
        throw (.assertion "site_pattern_id < pattern_rates.size()")
      let rate ← readAt "pattern_rates" st.2.pattern_rates site_pattern_id
      let rates ← writeAt "site_specific_rates" st.1 i rate
      pure (rates, { st.2 with rng := rng }))
    (site_specific_rates, s)

/-- The test `text.find(pattern) != std::string::npos`. -/
def containsSubstring (pattern : List Char) : List Char → Bool
  | [] => pattern.isEmpty
  | c :: cs => pattern.isPrefixOf (c :: cs) || containsSubstring pattern cs

/-- The test of source lines 423 and 707: the rate name contains `+G` and the model
factory has the continuous Gamma flag. -/
def isContinuousGamma (E : Env) : Bool :=
  containsSubstring "+G".toList E.getRateName.toList && E.is_continuous_gamma

/-- `AliSimulatorHeterogeneity::getSiteSpecificRates`. -/
def getSiteSpecificRates (E : Env) (new_site_specific_rate_index : List Int)
    (site_specific_rates : List ℚ) (new_site_specific_model_index : List Int)
    (sequence_length : Nat) (insertion_event : Bool) (s : Sim) :
    Except Fatal (List Int × List ℚ × Sim) := do
  let new_site_specific_rate_index := resize new_site_specific_rate_index sequence_length 0
  let site_specific_rates := resize site_specific_rates sequence_length 1
  if E.model.isMixture && E.model.isFused then
    let invariant_prop := E.rate.getPInvar
    let (idx, rates, rng) ← forLoop sequence_length
      (fun i (st : List Int × List ℚ × Nat) => do
        if E.random_double st.2.2 ≤ invariant_prop then do
          let idx ← writeAt "new_site_specific_rate_index" st.1 i E.RATE_ZERO_INDEX
          let rates ← writeAt "site_specific_rates" st.2.1 i 0
          pure (idx, rates, st.2.2 + 1)
        else do
          let model_index ←
            readAt "new_site_specific_model_index" new_site_specific_model_index i
          let idx ← writeAt "new_site_specific_rate_index" st.1 i model_index
          let rate_index ← readAt "new_site_specific_rate_index" idx i
          let rates ← writeAt "site_specific_rates" st.2.1 i (E.rate.getRate rate_index)
          pure (idx, rates, st.2.2 + 1))
      (new_site_specific_rate_index, site_specific_rates, s.rng)
    pure (idx, rates, { s with rng := rng })
  else if E.getRateName.isEmpty then do
    let (idx, rates) ← forLoop sequence_length (fun i (st : List Int × List ℚ) => do
        let rates ← writeAt "site_specific_rates" st.2 i 1
        let idx ← writeAt "new_site_specific_rate_index" st.1 i E.RATE_ONE_INDEX
        pure (idx, rates))
      (new_site_specific_rate_index, site_specific_rates)
    pure (idx, rates, s)
  else if isContinuousGamma E then do
    let rates ← getSiteSpecificRatesContinuousGamma E site_specific_rates sequence_length
    pure (new_site_specific_rate_index, rates, s)
  else if s.applyPosMeanRate then do
    let (rates, s) ← getSiteSpecificPosteriorMeanRates E site_specific_rates sequence_length
      insertion_event s
    pure (new_site_specific_rate_index, rates, s)
  else
    getSiteSpecificRatesDiscrete E new_site_specific_rate_index site_specific_rates
      sequence_length s

/-! ## Simulating along a branch (source lines 438-515) -/

/-- The branch `*it`: its length, its lengths by category, and the sequence of the node
it leads to. -/
structure Neighbor where
  length : ℚ
  getLength : Int → ℚ
  sequence : List Int

/-- The test of source lines 444-445: are the transition matrices cached? -/
def transMatrixCaching (E : Env) (s : Sim) : Bool :=
  E.getRateName.isEmpty
    || (!E.is_continuous_gamma && !s.applyPosMeanRate
        && decide (E.rate.getNDiscreteRate
            ≤ E.params.alisim_max_rate_categories_for_applying_caching))

/-- The branch lengths of the cached path (source lines 452-468). -/
def branchLengths (E : Env) (num_rate_categories : Int) (it : Neighbor) (lengths : String) :
    Except Fatal (List ℚ) :=
  if E.rate.isHeterotachy && decide (lengths.length > 0) then do
    let branch_lengths ← E.convert_double_vec_with_distributions lengths '/'
    if num_rate_categories ≠ (branch_lengths.length : Int) then
      throw (.outError ("The number of lengths (" ++ toString branch_lengths.length
        ++ ") is different from the number of caterogies (" ++ toString num_rate_categories
        ++ "). Please check and try again!"))
    pure branch_lengths
  else
    pure ((List.range num_rate_categories.toNat).map (fun (i : Nat) => it.getLength i))

/-- `AliSimulatorHeterogeneity::simulateASequenceFromBranchAfterInitVariables`;
`node_sequence` is `node->sequence`.  Returns the sequence of the node the branch leads
to. -/
def simulateASequenceFromBranchAfterInitVariables (E : Env) (model : ModelSubst)
    (sequence_length : Nat) (node_sequence : List Int) (it : Neighbor) (lengths : String)
    (s : Sim) : Except Fatal (List Int × Sim) :=
  if transMatrixCaching E s then do
    let num_models := if E.model.isMixture then E.model.getNMixtures else 1
    let num_rate_categories := if E.getRateName.isEmpty then 1 else E.rate.getNDiscreteRate
    let cache_trans_matrix := newDoubleArray E
      (num_models * num_rate_categories * E.max_num_states * E.max_num_states)
    let branch_lengths ← branchLengths E num_rate_categories it lengths
    let cache_trans_matrix ← intializeCachingAccumulatedTransMatrices E cache_trans_matrix
      num_models num_rate_categories branch_lengths model
    forLoop sequence_length (fun i (st : List Int × Sim) => do
        let dad_state ← readAt "node->sequence" node_sequence i
        if dad_state = E.STATE_UNKNOWN then do
          let child ← writeAt "(*it)->node->sequence" st.1 i E.STATE_UNKNOWN
          pure (child, st.2)
        else do
          let rate ← readAt "site_specific_rates" st.2.site_specific_rates i
          let (state, s) ← estimateStateFromAccumulatedTransMatrices E cache_trans_matrix
            rate i num_rate_categories dad_state st.2
          let child ← writeAt "(*it)->node->sequence" st.1 i state
          pure (child, s))
      (resize it.sequence sequence_length 0, s)
  else
    forLoop sequence_length (fun i (st : List Int × Sim) => do
        let dad_state ← readAt "node->sequence" node_sequence i
        if dad_state = E.STATE_UNKNOWN then do
          let child ← writeAt "(*it)->node->sequence" st.1 i E.STATE_UNKNOWN
          pure (child, st.2)
        else do
          let model_index ←
            readAt "site_specific_model_index" st.2.site_specific_model_index i
          let rate ← readAt "site_specific_rates" st.2.site_specific_rates i
          let (state, s) := estimateStateFromOriginalTransMatrix E model model_index rate
            it.length dad_state i st.2
          let child ← writeAt "(*it)->node->sequence" st.1 i state
          pure (child, s))
      (resize it.sequence sequence_length 0, s)

/-! ## Initialisation and insertions (source lines 517-582, 680-714) -/

/-- `AliSimulatorHeterogeneity::canApplyPosteriorMeanRate`: the answer and the warnings
it prints. -/
def canApplyPosteriorMeanRate (E : Env) : Bool × List String :=
  if !E.params.alisim_inference_mode then
    (false, ["Skipping Posterior Mean Rates as they can only be used if users supply an input alignment."])
  else if E.model.isMixture && E.model.isFused then
    (false, ["Skipping Posterior Mean Rates as they cannot be used with Fused mixture models."])
  else if E.getRateName.isEmpty then
    (false, ["Skipping Posterior Mean Rates as they can be used with only rate heterogeneity based on a discrete Gamma/Free-rate distribution."])
  else if isContinuousGamma E then
    (false, ["Skipping Posterior Mean Rates as they cannot be used with rate heterogeneity based on a continuous Gamma distribution."])
  else
    (true, [])

/-- The regeneration of the root sequence in `initVariables` (source lines 529-538). -/
def regenerateRootSequence (E : Env) (regenerate_root_sequence : Bool) (s : Sim) :
    Except Fatal Sim :=
  if regenerate_root_sequence && E.model.isMixture
      && !E.params.alisim_ancestral_sequence_aln_filepath then
    if E.params.alisim_posterior_mean && E.model.isMixture then do
      let (sequence, s) ← regenerateSequenceMixtureModelPosteriorMean E
        E.expected_num_sites false s
      pure { s with root_sequence := sequence }
    else do
      let (sequence, s) ← regenerateSequenceMixtureModel E E.expected_num_sites
        s.site_specific_model_index s
      pure { s with root_sequence := sequence }
  else pure s

/-- `AliSimulatorHeterogeneity::initVariables`. -/
def initVariables (E : Env) (sequence_length : Nat) (regenerate_root_sequence : Bool)
    (s : Sim) : Except Fatal Sim := do
  let s := if E.params.alisim_posterior_mean then
      { s with applyPosMeanRate := (canApplyPosteriorMeanRate E).1,
               warnings := s.warnings ++ (canApplyPosteriorMeanRate E).2 }
    else s
  let (model_index, s) ← intializeSiteSpecificModelIndex E sequence_length
    s.site_specific_model_index false s
  let s := { s with site_specific_model_index := model_index }
  let s ← regenerateRootSequence E regenerate_root_sequence s
  let (rate_index, rates, s) ← getSiteSpecificRates E s.site_specific_rate_index
    s.site_specific_rates s.site_specific_model_index sequence_length false s
  pure { s with site_specific_rate_index := rate_index, site_specific_rates := rates }

/-- Modelled from the spec: `AliSimulator::insertNewSequenceForInsertionEvent` of the
base class is not among the sources.  Section 4.7: the states of the new segment are
inserted into the sequence at `position`, preserving the order on both sides. -/
def AliSimulator.insertNewSequenceForInsertionEvent (indel_sequence : List Int)
    (position : Int) (new_sequence : List Int) : Except Fatal (List Int) :=
  insertRange "indel_sequence" indel_sequence position new_sequence

/-- The regeneration of the new segment in `insertNewSequenceForInsertionEvent` (source
lines 569-578). -/
def regenerateNewSequence (E : Env) (new_sequence : List Int) (s : Sim) :
    Except Fatal (List Int × Sim) :=
  if E.model.isMixture then
    if E.params.alisim_posterior_mean && E.model.isMixture then
      regenerateSequenceMixtureModelPosteriorMean E new_sequence.length true s
    else
      regenerateSequenceMixtureModel E new_sequence.length s.site_specific_model_index s
  else pure (new_sequence, s)

/-- `AliSimulatorHeterogeneity::insertNewSequenceForInsertionEvent`.  Returns
`indel_sequence`, `new_sequence` and the simulator after the call. -/
def insertNewSequenceForInsertionEvent (E : Env) (indel_sequence : List Int)
    (position : Int) (new_sequence : List Int) (s : Sim) :
    Except Fatal (List Int × List Int × Sim) := do
  let (new_site_specific_model_index, s) ←
    intializeSiteSpecificModelIndex E new_sequence.length [] true s
  let model_index ← insertRange "site_specific_model_index" s.site_specific_model_index
    position new_site_specific_model_index
  let s := { s with site_specific_model_index := model_index }
  let (new_site_specific_rate_index, new_site_specific_rates, s) ←
    getSiteSpecificRates E [] [] new_site_specific_model_index new_sequence.length true s
  let rates ← insertRange "site_specific_rates" s.site_specific_rates position
    new_site_specific_rates
  let s := { s with site_specific_rates := rates }
  let rate_index ← insertRange "site_specific_rate_index" s.site_specific_rate_index
    position new_site_specific_rate_index
  let s := { s with site_specific_rate_index := rate_index }
  let (new_sequence, s) ← regenerateNewSequence E new_sequence s
  let indel_sequence ←
    AliSimulator.insertNewSequenceForInsertionEvent indel_sequence position new_sequence
  pure (indel_sequence, new_sequence, s)

/-! ## Substitution rates for the rate-matrix approach (source lines 584-678) -/

/-- The test of source line 596: are the substitution rates cached? -/
def subRateCaching (E : Env) (s : Sim) : Bool :=
  !E.is_continuous_gamma && !s.applyPosMeanRate

/-- The table `cache_sub_rates` (source lines 601-619).  The buffer is
`new double[total_elements]`: every cell is indeterminate until the loops write it, and
for a fused mixture the cells with `model_index != rate_category_index` are skipped. -/
def cacheSubRates (E : Env) (num_models num_rate_categories : Int) :
    Except Fatal (List Double) :=
  let total_elements := num_models * num_rate_categories * E.max_num_states
  let fuse_mixture_model := E.model.isMixture && E.model.isFused
  forLoop num_models.toNat (fun model_index cache =>
      forLoop num_rate_categories.toNat (fun rate_category_index cache =>
          if fuse_mixture_model && model_index != rate_category_index then pure cache
          else
            let rate : ℚ :=
              if E.rate.getNRate = 1 then 1 else E.rate.getRate rate_category_index
            forLoop E.max_num_states.toNat (fun state cache => do
                let sub_rate ← readAt "sub_rates" E.sub_rates
                  (model_index * E.max_num_states + state)
                writeAt "cache_sub_rates" cache
                  (model_index * num_rate_categories * E.max_num_states
                    + rate_category_index * E.max_num_states + state)
                  (Double.value (sub_rate * rate)))
              cache)
        cache)
    (List.replicate total_elements.toNat Double.indeterminate)

/-- Is site `i` one whose substitution rate is computed (source lines 625 and 658)?  The
rate of a gap is not read. -/
def siteIsActive (E : Env) (sequence : List Int) (s : Sim) (i : Nat) : Except Fatal Bool := do
  let state ← readAt "sequence" sequence i
  if state ≠ E.STATE_UNKNOWN then do
    let rate ← readAt "site_specific_rates" s.site_specific_rates i
    pure (decide (rate ≠ 0))
  else pure false

/-- One iteration of the loop of source lines 622-643; the loop state is
`sub_rate_count`, `sub_rate_by_site`, `num_gaps`. -/
def cachedSiteStep (E : Env) (cache_sub_rates : List Double) (num_rate_categories : Int)
    (sequence : List Int) (s : Sim) (i : Nat) (st : List Int × List Double × Int) :
    Except Fatal (List Int × List Double × Int) := do
  if (← siteIsActive E sequence s i) then do
    let model_index ← readAt "site_specific_model_index" s.site_specific_model_index i
    let rate_index ← readAt "site_specific_rate_index" s.site_specific_rate_index i
    let state ← readAt "sequence" sequence i
    let index := model_index * num_rate_categories * E.max_num_states
      + rate_index * E.max_num_states + state
    let count ← readAt "sub_rate_count" st.1 index
    let sub_rate_count ← writeAt "sub_rate_count" st.1 index (count + 1)
    let cached ← readAt "cache_sub_rates" cache_sub_rates index
    let sub_rate_by_site ← writeAt "sub_rate_by_site" st.2.1 i cached
    pure (sub_rate_count, sub_rate_by_site, st.2.2)
  else do
    let sub_rate_by_site ← writeAt "sub_rate_by_site" st.2.1 i 0
    let state ← readAt "sequence" sequence i
    pure (st.1, sub_rate_by_site, if state = E.STATE_UNKNOWN then st.2.2 + 1 else st.2.2)

/-- One iteration of the loop of source lines 655-676; the loop state is
`total_sub_rate`, `sub_rate_by_site`, `num_gaps`. -/
def uncachedSiteStep (E : Env) (sequence : List Int) (s : Sim) (i : Nat)
    (st : Double × List Double × Int) : Except Fatal (Double × List Double × Int) := do
  if (← siteIsActive E sequence s i) then do
    let model_index ← readAt "site_specific_model_index" s.site_specific_model_index i
    let state ← readAt "sequence" sequence i
    let sub_rate ← readAt "sub_rates" E.sub_rates (model_index * E.max_num_states + state)
    let rate ← readAt "site_specific_rates" s.site_specific_rates i
    let sub_rate_by_site ← writeAt "sub_rate_by_site" st.2.1 i
      (Double.value (sub_rate * rate))
    let value ← readAt "sub_rate_by_site" sub_rate_by_site i
    pure (st.1 + value, sub_rate_by_site, st.2.2)
  else do
    let sub_rate_by_site ← writeAt "sub_rate_by_site" st.2.1 i 0
    let state ← readAt "sequence" sequence i
    let value ← readAt "sub_rate_by_site" sub_rate_by_site i
    pure (st.1 + value, sub_rate_by_site,
      if state = E.STATE_UNKNOWN then st.2.2 + 1 else st.2.2)

/-- The sum of source lines 646-647, added to `total_sub_rate`. -/
def sumCountedRates (total_elements : Nat) (sub_rate_count : List Int)
    (cache_sub_rates : List Double) (total_sub_rate : Double) : Except Fatal Double :=
  forLoop total_elements (fun i total => do
      let count ← readAt "sub_rate_count" sub_rate_count i
      let cached ← readAt "cache_sub_rates" cache_sub_rates i
      pure (total + Double.scale count cached))
    total_sub_rate

/-- `AliSimulatorHeterogeneity::initVariables4RateMatrix`.  The first three arguments are
the values the reference parameters hold before the call; the result is
`total_sub_rate`, `num_gaps`, `sub_rate_by_site` after it, which may be indeterminate
where they come from cells of `cache_sub_rates` that were never written. -/
def initVariables4RateMatrix (E : Env) (total_sub_rate : ℚ) (num_gaps : Int)
    (sub_rate_by_site : List ℚ) (sequence : List Int) (s : Sim) :
    Except Fatal (Double × Int × List Double) := do
  let sequence_length := sequence.length
  let total_sub_rate : Double := 0
  let num_gaps : Int := 0
  let sub_rate_by_site : List Double :=
    (resize sub_rate_by_site sequence_length 0).map Double.value
  if subRateCaching E s then do
    let num_models := if E.model.isMixture then E.model.getNMixtures else 1
    let num_rate_categories := if E.getRateName.isEmpty then 1 else E.rate.getNDiscreteRate
    let total_elements := num_models * num_rate_categories * E.max_num_states
    let cache_sub_rates ← cacheSubRates E num_models num_rate_categories
    let sub_rate_count := List.replicate total_elements.toNat (0 : Int)
    let (sub_rate_count, sub_rate_by_site, num_gaps) ← forLoop sequence_length
      (cachedSiteStep E cache_sub_rates num_rate_categories sequence s)
      (sub_rate_count, sub_rate_by_site, num_gaps)
    let total_sub_rate ← sumCountedRates total_elements.toNat sub_rate_count cache_sub_rates
      total_sub_rate
    pure (total_sub_rate, num_gaps, sub_rate_by_site)
  else do
    let (total_sub_rate, sub_rate_by_site, num_gaps) ← forLoop sequence_length
      (uncachedSiteStep E sequence s) (total_sub_rate, sub_rate_by_site, num_gaps)
    pure (total_sub_rate, num_gaps, sub_rate_by_site)

/-! ## Predicates of the statements -/

/-- The three site arrays are the same in both states. -/
def SameSiteArrays (s t : Sim) : Prop :=
  t.site_specific_model_index = s.site_specific_model_index
    ∧ t.site_specific_rate_index = s.site_specific_rate_index
    ∧ t.site_specific_rates = s.site_specific_rates

/-- The invariant of both site loops of
`simulateASequenceFromBranchAfterInitVariables` after `k` iterations. -/
def GapInvariant (E : Env) (n : Nat) (node_sequence : List Int) (s : Sim) (k : Nat)
    (st : List Int × Sim) : Prop :=
  st.1.length = n
    ∧ (∀ j, j < k → node_sequence[j]? = some E.STATE_UNKNOWN →
        st.1[j]? = some E.STATE_UNKNOWN)
    ∧ ∃ sampled, st.2.sampled_sites = s.sampled_sites ++ sampled
        ∧ ∀ j, j ∈ sampled → node_sequence[j]? ≠ some E.STATE_UNKNOWN

/-- The dot product of the occurrence counts with the cached rates. -/
def dotProduct (sub_rate_count : List Int) (cache_sub_rates : List ℚ) : ℚ :=
  (List.zipWith (fun (count : Int) (rate : ℚ) => (count : ℚ) * rate) sub_rate_count
    cache_sub_rates).sum

/-- What the loops of `initVariables4RateMatrix` have established for the first `k` sites:
the gap counter is the number of gaps among them, and the substitution rate of every gap
and of every site of rate 0 is 0. -/
def GapCountInvariant (E : Env) (sequence : List Int) (s : Sim) (k : Nat)
    (sub_rate_by_site : List Double) (num_gaps : Int) : Prop :=
  sub_rate_by_site.length = sequence.length
    ∧ num_gaps = ((sequence.take k).count E.STATE_UNKNOWN : Int)
    ∧ ∀ j, j < k →
        (sequence[j]? = some E.STATE_UNKNOWN ∨ s.site_specific_rates[j]? = some 0) →
        sub_rate_by_site[j]? = some 0

/-- The number of model components (source lines 447 and 598). -/
def numModels (E : Env) : Int :=
  if E.model.isMixture then E.model.getNMixtures else 1

/-- The number of rate categories of the cached tables (source lines 448 and 599). -/
def numRateCategories (E : Env) : Int :=
  if E.getRateName.isEmpty then 1 else E.rate.getNDiscreteRate

/-- The inputs of `initVariables4RateMatrix` are inside the arrays and tables: the three
site arrays cover the sequence, `sub_rates` has `max_num_states` cells for each model
component, and every site that is neither a gap nor of rate 0 has its state and model
index inside the table and, when the rates are cached, its rate index too. -/
structure RateInputsInRange (E : Env) (sequence : List Int) (s : Sim) : Prop where
  rates_cover : sequence.length ≤ s.site_specific_rates.length
  models_cover : sequence.length ≤ s.site_specific_model_index.length
  categories_cover : sequence.length ≤ s.site_specific_rate_index.length
  sub_rates_cover : numModels E * E.max_num_states ≤ (E.sub_rates.length : Int)
  site : ∀ (i : Nat) (state model_index rate_index : Int) (rate : ℚ),
    sequence[i]? = some state → state ≠ E.STATE_UNKNOWN →
    s.site_specific_rates[i]? = some rate → rate ≠ 0 →
    s.site_specific_model_index[i]? = some model_index →
    s.site_specific_rate_index[i]? = some rate_index →
    0 ≤ state ∧ state < E.max_num_states ∧ 0 ≤ model_index ∧ model_index < numModels E
      ∧ (subRateCaching E s = true → 0 ≤ rate_index ∧ rate_index < numRateCategories E)

/-- The sum of the site rates, site after site. -/
def siteRateSum (sub_rate_by_site : List Double) : Double :=
  sub_rate_by_site.foldl (fun total rate => total + rate) 0

/-- The number of values `d` of the draw `random_int(input_sequence_length)` (source lines
111, 209 and 365) for which `sitePattern` gives `pattern` as the pattern of site `i`. -/
def drawsSelectingPattern (E : Env) (insertion_event : Bool) (i : Nat) (pattern : Int) : Nat :=
  ((List.range E.aln.getNSite.toNat).filter (fun (d : Nat) =>
      decide ((sitePattern { E with random_int := fun _ _ => (d : Int) } insertion_event
        E.aln.getNSite i 0).1 = pattern))).length

/-- The number of sites of the input alignment whose pattern is `pattern`. -/
def sitesOfPattern (E : Env) (pattern : Int) : Nat :=
  ((List.range E.aln.getNSite.toNat).filter (fun (d : Nat) =>
      decide (E.aln.getPatternID (d : Int) = pattern))).length

/-- The state `regenerateSequenceMixtureModel` draws for a site of the given mixture
component with the deviate at stream position `rng` (source lines 150-157): a search in
the row of that component in the accumulated base frequencies. -/
def sampledState (E : Env) (component : Int) (rng : Nat) : Int :=
  let num_states := E.aln.getMaxNumStates
  let starting_index := component * num_states
  E.binarysearchItemWithAccumulatedProbabilityMatrix (baseFreqsAllComponents E)
    (E.random_double rng) starting_index (starting_index + num_states - 1) starting_index
    - starting_index

/-- The configuration `E` with posterior-mean mode switched off. -/
def withoutPosteriorMean (E : Env) : Env :=
  { E with params := { E.params with alisim_posterior_mean := false } }

/-- The rate multiplier of category `c` in the cached tables (source lines 241 and 607):
1 when there is a single rate, `getRate(c)` otherwise. -/
def categoryMultiplier (E : Env) (c : Int) : ℚ :=
  if E.rate.getNRate = 1 then 1 else E.rate.getRate c

/-- Every site that is neither a gap nor of rate 0 has a `(model, category)` cell that
`cacheSubRates` fills (for a fused mixture: its model index is its rate index), and its
rate is the multiplier of its category (`categoryMultiplier`). -/
def SitesInFilledCells (E : Env) (sequence : List Int) (s : Sim) : Prop :=
  ∀ (i : Nat) (state model_index rate_index : Int) (rate : ℚ),
    sequence[i]? = some state → state ≠ E.STATE_UNKNOWN →
    s.site_specific_rates[i]? = some rate → rate ≠ 0 →
    s.site_specific_model_index[i]? = some model_index →
    s.site_specific_rate_index[i]? = some rate_index →
    ((E.model.isMixture && E.model.isFused) = true → model_index = rate_index)
      ∧ rate = categoryMultiplier E rate_index

/-- The branch length of category `c` in `intializeCachingAccumulatedTransMatrices`
(source line 244): `branch_lengths[c]` under heterotachy, `branch_lengths[0]` otherwise. -/
def categoryBranchLength (E : Env) (branch_lengths : List ℚ) (c : Nat) : ℚ :=
  if E.rate.isHeterotachy then branch_lengths.getD c 0 else branch_lengths.getD 0 0

/-- The time for which the transition matrix of category `c` is computed (source line
247). -/
def categoryTime (E : Env) (branch_lengths : List ℚ) (c : Nat) : ℚ :=
  E.partition_rate * E.params.alisim_branch_scale * categoryBranchLength E branch_lengths c
    * categoryMultiplier E c

/-- The substitution rate of site `i` (source lines 625-638 and 658-671):
`sub_rates[model * max_num_states + state]` times the rate of the site, and 0 for a gap
and for a site of rate 0. -/
def siteSubRate (E : Env) (sequence : List Int) (s : Sim) (i : Nat) : ℚ :=
  let state := sequence.getD i 0
  let rate := s.site_specific_rates.getD i 0
  let model_index := s.site_specific_model_index.getD i 0
  if state ≠ E.STATE_UNKNOWN ∧ rate ≠ 0 then
    E.sub_rates.getD (model_index * E.max_num_states + state).toNat 0 * rate
  else 0

/-! ## Example configurations -/

namespace Example

/-- A single substitution model over four states. -/
def model : ModelSubst where
  isMixture := false
  isFused := false
  getNMixtures := 1
  getMixtureWeight := fun _ => 1
  getStateFrequency := fun _ _ => 1
  computeTransMatrix := fun _ _ _ => 1
  computeTransMatrixFrom := fun _ _ _ _ => 1

/-- A mixture of two components fused with the rate categories. -/
def fusedMixture : ModelSubst :=
  { model with isMixture := true, isFused := true, getNMixtures := 2 }

/-- Two discrete rate categories with rates 1 and 3. -/
def rate : RateHeterogeneity where
  getNRate := 2
  getNDiscreteRate := 2
  getRate := fun c => if c = 0 then 1 else 3
  getProp := fun _ => 1
  getPInvar := 0
  isHeterotachy := false
  getGammaShape := 1
  computePatternRates := [1]

/-- An alignment of five sites sharing one pattern. -/
def aln : Alignment where
  getNSite := 5
  getNPattern := 1
  getPatternID := fun _ => 0
  getMaxNumStates := 4

def params : Params where
  alisim_posterior_mean := false
  alisim_inference_mode := false
  alisim_mixture_at_sub_level := false
  alisim_insertion_ratio := 0
  alisim_branch_scale := 1
  alisim_max_rate_categories_for_applying_caching := 100
  alisim_ancestral_sequence_aln_filepath := false

/-- Reads a decimal numeral such as `0.25`. -/
def parseDecimal (cs : List Char) : ℚ :=
  let whole := cs.takeWhile (fun c => c != '.')
  let frac := (cs.dropWhile (fun c => c != '.')).drop 1
  let digits := fun (ds : List Char) =>
    ds.foldl (fun (acc : Nat) c => acc * 10 + (c.toNat - '0'.toNat)) 0
  (digits whole : ℚ) + (digits frac : ℚ) / (10 : ℚ) ^ frac.length

/-- A parser for lists of lengths: the fields between the separators. -/
def parseLengths (text : String) (separator : Char) : Except Fatal (List ℚ) :=
  .ok ((text.toList.splitOn separator).map parseDecimal)

/-- No mixture and no rate heterogeneity: four states, gap code 18. -/
def env : Env where
  model := model
  rate := rate
  aln := aln
  params := params
  getRateName := ""
  is_continuous_gamma := false
  RATE_ZERO_INDEX := -1
  RATE_ONE_INDEX := 0
  STATE_UNKNOWN := 18
  max_num_states := 4
  partition_rate := 1
  expected_num_sites := 5
  sub_rates := [1, 2, 3, 4]
  random_double := fun k => k
  random_int := fun _ _ => 0
  gamma_deviate := fun _ _ => 1
  uninitialised := fun _ => 0
  computePatternStateFreq := fun _ => .ok (fun _ => 1)
  getPatternLhCatPointer := fun _ => 1
  getRandomItemWithAccumulatedProbMatrixMaxProbFirst := fun _ _ _ max_prob_position _ =>
    max_prob_position
  binarysearchItemWithAccumulatedProbabilityMatrix := fun _ _ first _ _ => first
  getRandomItemWithProbabilityMatrix := fun _ _ _ _ => 0
  convert_double_vec_with_distributions := parseLengths

/-- A fused mixture with discrete rates `+R2`. -/
def fusedEnv : Env :=
  { env with model := fusedMixture, getRateName := "+R2" }

/-- Discrete rate heterogeneity `+G2` without a mixture. -/
def discreteEnv : Env :=
  { env with getRateName := "+G2" }

/-- A simulator over five sites, all of component 0 and rate 1. -/
def sim : Sim where
  site_specific_model_index := [0, 0, 0, 0, 0]
  site_specific_rate_index := [0, 0, 0, 0, 0]
  site_specific_rates := [1, 1, 1, 1, 1]
  applyPosMeanRate := false
  mixture_accumulated_weight := none
  mixture_max_weight_pos := 0
  ptn_state_freq := none
  ptn_model_dis := none
  pattern_rates := []
  print_site_state_freq := SiteFreqType.WSF_NONE
  root_sequence := []
  rng := 0
  sampled_sites := []
  warnings := []

/-- Two heterotachy categories `+H2`; with the caching threshold of 100 categories the
transition matrices are cached. -/
def heterotachyEnv : Env :=
  { env with rate := { rate with isHeterotachy := true }, getRateName := "+H2" }

/-- The same with a caching threshold of one category: the transition matrices are not
cached. -/
def heterotachyUncachedEnv : Env :=
  { heterotachyEnv with
    params := { params with alisim_max_rate_categories_for_applying_caching := 1 } }

/-- A branch of length 1 to a node without a sequence yet. -/
def branch : Neighbor where
  length := 1
  getLength := fun _ => 1
  sequence := []

/-- Five sites with rates of both categories. -/
def discreteSim : Sim :=
  { sim with
    site_specific_rate_index := [0, 1, 0, 1, 1],
    site_specific_rates := [1, 3, 1, 3, 3] }

/-- The simulator `discreteSim` after the insertion of three sites at position 2. -/
def splicedSim : Sim :=
  { discreteSim with
    site_specific_model_index := [0, 0, 0, 0, 0, 0, 0, 0],
    site_specific_rate_index := [0, 1, 0, 0, 0, 0, 1, 1],
    site_specific_rates := [1, 3, 1, 1, 1, 1, 3, 3],
    rng := 3 }

/-- The simulator `sim` after a branch on which the sites 0, 1, 3 and 4 were sampled. -/
def simulatedSim : Sim :=
  { sim with rng := 4, sampled_sites := [0, 1, 3, 4] }

/-- An engine without an empirical alignment: the computation of the pattern posteriors
fails. -/
def failingEngineEnv : Env :=
  { env with computePatternStateFreq := fun _ => .error (.engine "no alignment") }

/-- No rate heterogeneity, with the continuous Gamma flag of the model factory set. -/
def continuousFlagEnv : Env :=
  { env with is_continuous_gamma := true }

/-- An alignment of three sites: sites 0 and 1 share pattern 0, site 2 has pattern 1. -/
def unevenAln : Alignment where
  getNSite := 3
  getNPattern := 2
  getPatternID := fun i => if i = 2 then 1 else 0
  getMaxNumStates := 4

def unevenEnv : Env :=
  { env with aln := unevenAln }

/-- Discrete rates `+I+G2` whose category sampler reports an invariant site (`-1`) for the
deviate 0. -/
def invariantEnv : Env :=
  { env with
    getRateName := "+I+G2",
    getRandomItemWithAccumulatedProbMatrixMaxProbFirst := fun _ _ _ max_prob_position u =>
      if u = 0 then -1 else max_prob_position }

/-- The simulator `sim` after `initVariables` under `invariantEnv`: site 0 is invariant. -/
def invariantSim : Sim :=
  { sim with
    site_specific_rate_index := [-1, 0, 0, 0, 0],
    site_specific_rates := [0, 1, 1, 1, 1],
    rng := 5 }

/-- A mixture of two components: the first puts all its frequency on state 0, the second
on state 3; the second has the larger weight. -/
def mixture : ModelSubst :=
  { model with
    isMixture := true,
    getNMixtures := 2,
    getMixtureWeight := fun i => if i = 0 then 1 else 2,
    getStateFrequency := fun i j =>
      if i = 0 then (if j = 0 then 1 else 0) else (if j = 3 then 1 else 0) }

/-- A search that scans the cells `first..last` of an accumulated table for the first one
that reaches the deviate. -/
def scanRow (table : List ℚ) (rand_num : ℚ) (first last start : Int) : Int :=
  match (List.range (last - first + 1).toNat).find?
      (fun k => decide (rand_num ≤ table.getD (first.toNat + k) 0)) with
  | some k => first + k
  | none => last

/-- The mixture without rate heterogeneity; every deviate is 1 and the component sampler
returns the component of largest weight. -/
def mixtureEnv : Env :=
  { env with
    model := mixture,
    random_double := fun _ => 1,
    binarysearchItemWithAccumulatedProbabilityMatrix := scanRow }

/-- The simulator `sim` after the insertion of two sites at position 2 under
`mixtureEnv`. -/
def mixtureSplicedSim : Sim :=
  { sim with
    site_specific_model_index := [0, 0, 1, 1, 0, 0, 0],
    site_specific_rate_index := [0, 0, 0, 0, 0, 0, 0],
    site_specific_rates := [1, 1, 1, 1, 1, 1, 1],
    mixture_max_weight_pos := 1,
    rng := 4 }

/-- The mixture with posterior-mean mode requested, no input alignment, and an engine that
fails for the lack of one. -/
def mixtureNoAlignmentEnv : Env :=
  { mixtureEnv with
    params := { params with alisim_posterior_mean := true },
    computePatternStateFreq := fun _ => .error (.engine "no alignment") }

/-- The fused mixture with posterior-mean mode requested and an input alignment. -/
def fusedPosteriorEnv : Env :=
  { fusedEnv with
    params := { params with alisim_posterior_mean := true, alisim_inference_mode := true } }

/-- The simulator `sim` after `initVariables` under `fusedPosteriorEnv`. -/
def fusedPosteriorSim : Sim :=
  { sim with
    ptn_state_freq := some [1, 2, 3, 4],
    ptn_model_dis := some [1, 2],
    rng := 10,
    warnings := ["Skipping Posterior Mean Rates as they cannot be used with Fused mixture models."] }

/-- No mixture, discrete rates, posterior-mean mode requested without an input alignment,
and an engine that fails for the lack of one. -/
def discreteNoAlignmentEnv : Env :=
  { discreteEnv with
    params := { params with alisim_posterior_mean := true },
    computePatternStateFreq := fun _ => .error (.engine "no alignment") }

/-- A model whose transition matrix for time `t` has the entry `t * (k + 1)` in cell
`k`. -/
def timedModel : ModelSubst :=
  { model with computeTransMatrix := fun t _ k => t * (k + 1) }

/-- The fused mixture with the substitution rates of both components: 1 to 4 for
component 0 and 5 to 8 for component 1. -/
def fusedRatesEnv : Env :=
  { fusedEnv with sub_rates := [1, 2, 3, 4, 5, 6, 7, 8] }

/-- Five sites of the fused mixture: the component of a site is its rate category. -/
def fusedSim : Sim :=
  { sim with
    site_specific_model_index := [0, 1, 0, 1, 1],
    site_specific_rate_index := [0, 1, 0, 1, 1],
    site_specific_rates := [1, 3, 1, 3, 3] }

end Example

-- Outcomes of runs can be compared by evaluation.
deriving instance DecidableEq for Except

-- States of the simulator can be compared by evaluation.
deriving instance DecidableEq for Sim

/-! ## Buffers and loops: basic facts -/

theorem bind_ok_iff {α β : Type} (x : Except Fatal α) (f : α → Except Fatal β) (b : β) :
    (x >>= f) = .ok b ↔ ∃ a, x = .ok a ∧ f a = .ok b := by
  cases x with
  | error e => simp [bind, Except.bind]
  | ok a => simp [bind, Except.bind]

theorem readAt_ok_iff {α : Type} (buffer : String) (xs : List α) (i : Int) (v : α) :
    readAt buffer xs i = .ok v ↔ 0 ≤ i ∧ xs[i.toNat]? = some v := by
  unfold readAt
  by_cases hi : i < 0
  · simp [hi]
  · simp only [hi, if_false]
    have h0 : 0 ≤ i := by omega
    cases hx : xs[i.toNat]? with
    | none => simp [h0]
    | some x => simp [h0]

theorem readAt_nat {α : Type} (buffer : String) (xs : List α) (i : Nat) (h : i < xs.length) :
    readAt buffer xs (i : Int) = .ok (xs.get ⟨i, h⟩) := by
  rw [readAt_ok_iff]
  simp [List.getElem?_eq_getElem h]

theorem writeAt_ok_iff {α : Type} (buffer : String) (xs ys : List α) (i : Int) (v : α) :
    writeAt buffer xs i v = .ok ys ↔ 0 ≤ i ∧ i.toNat < xs.length ∧ ys = xs.set i.toNat v := by
  unfold writeAt
  by_cases h : 0 ≤ i ∧ i.toNat < xs.length
  · simp only [h, and_self, if_true, Except.ok.injEq, true_and]
    exact eq_comm
  · simp only [h, if_false]
    constructor
    · intro h'
      cases h'
    · rintro ⟨h1, h2, _⟩
      exact absurd ⟨h1, h2⟩ h

theorem writeAt_nat {α : Type} (buffer : String) (xs : List α) (i : Nat) (v : α)
    (h : i < xs.length) : writeAt buffer xs (i : Int) v = .ok (xs.set i v) := by
  rw [writeAt_ok_iff]
  simp [h]

theorem resize_length {α : Type} (xs : List α) (n : Nat) (fill : α) :
    (resize xs n fill).length = n := by
  simp [resize]
  omega

theorem forLoop_succ {σ : Type} (n : Nat) (body : Nat → σ → Except Fatal σ) (init : σ) :
    forLoop (n + 1) body init = (forLoop n body init >>= body n) := by
  show (match forLoop n body init with
    | .ok s => body n s
    | .error e => .error e) = _
  cases forLoop n body init <;> rfl

/-- Invariant rule for loops: an invariant indexed by the number of completed iterations
holds after the loop, when the loop returns. -/
theorem forLoop_invariant {σ : Type} (P : Nat → σ → Prop) (n : Nat)
    (body : Nat → σ → Except Fatal σ) (init : σ) (h0 : P 0 init)
    (hstep : ∀ i, i < n → ∀ a b, P i a → body i a = .ok b → P (i + 1) b) :
    ∀ out, forLoop n body init = .ok out → P n out := by
  induction n with
  | zero =>
    intro out h
    simp only [forLoop, Except.ok.injEq] at h
    exact h ▸ h0
  | succ k ih =>
    intro out h
    rw [forLoop_succ, bind_ok_iff] at h
    obtain ⟨a, ha, hb⟩ := h
    exact hstep k (Nat.lt_succ_self k) a out
      (ih (fun i hi => hstep i (Nat.lt_succ_of_lt hi)) a ha) hb

/-- Totality rule for loops: if every iteration returns from a state satisfying the
invariant and re-establishes it, the loop returns. -/
theorem forLoop_total {σ : Type} (P : Nat → σ → Prop) (n : Nat)
    (body : Nat → σ → Except Fatal σ) (init : σ) (h0 : P 0 init)
    (hstep : ∀ i, i < n → ∀ a, P i a → ∃ b, body i a = .ok b ∧ P (i + 1) b) :
    ∃ out, forLoop n body init = .ok out ∧ P n out := by
  induction n with
  | zero => exact ⟨init, rfl, h0⟩
  | succ k ih =>
    obtain ⟨a, ha, hPa⟩ := ih (fun i hi => hstep i (Nat.lt_succ_of_lt hi))
    obtain ⟨b, hb, hPb⟩ := hstep k (Nat.lt_succ_self k) a hPa
    exact ⟨b, by rw [forLoop_succ, ha]; exact hb, hPb⟩

theorem set_at_length {α : Type} (l r : List α) (x v : α) (k : Nat) (hk : l.length = k) :
    (l ++ x :: r).set k v = l ++ v :: r := by
  subst hk
  induction l with
  | nil => rfl
  | cons a l ih => simp [ih]

theorem range_map_drop_set {α : Type} (f : Nat → α) (xs : List α) (k : Nat)
    (h : k < xs.length) :
    ((List.range k).map f ++ xs.drop k).set k (f k)
      = (List.range (k + 1)).map f ++ xs.drop (k + 1) := by
  have hd : xs.drop k = xs.get ⟨k, h⟩ :: xs.drop (k + 1) := by
    simp
  rw [hd, set_at_length _ _ _ _ k (by simp), List.range_succ]
  simp

/-- A loop that stores `f i` in cell `i` of a buffer with at least `k` cells. -/
theorem forLoop_fill {α : Type} (buffer : String) (f : Nat → α) (xs : List α) (k : Nat)
    (h : k ≤ xs.length) :
    forLoop k (fun i ys => writeAt buffer ys i (f i)) xs
      = .ok ((List.range k).map f ++ xs.drop k) := by
  induction k with
  | zero => simp [forLoop]
  | succ k ih =>
    rw [forLoop_succ, ih (by omega)]
    show writeAt buffer _ (k : Int) (f k) = _
    rw [writeAt_nat _ _ _ _ (by simp; omega), range_map_drop_set f xs k (by omega)]

theorem forLoop_fill_two {α β : Type} (b1 b2 : String) (f : Nat → α) (g : Nat → β)
    (xs : List α) (ys : List β) (k : Nat) (hx : k ≤ xs.length) (hy : k ≤ ys.length) :
    forLoop k (fun i (st : List α × List β) => do
        let ys ← writeAt b2 st.2 i (g i)
        let xs ← writeAt b1 st.1 i (f i)
        pure (xs, ys)) (xs, ys)
      = .ok ((List.range k).map f ++ xs.drop k, (List.range k).map g ++ ys.drop k) := by
  induction k with
  | zero => simp [forLoop]
  | succ k ih =>
    rw [forLoop_succ, ih (by omega) (by omega)]
    show (do
        let ys ← writeAt b2 _ (k : Int) (g k)
        let xs ← writeAt b1 _ (k : Int) (f k)
        pure (xs, ys)) = _
    rw [writeAt_nat _ _ _ _ (by simp; omega), writeAt_nat _ _ _ _ (by simp; omega),
      range_map_drop_set f xs k (by omega), range_map_drop_set g ys k (by omega)]
    rfl

theorem range_map_const {α : Type} (v : α) (n : Nat) :
    (List.range n).map (fun _ => v) = List.replicate n v := by
  induction n with
  | zero => rfl
  | succ k ih => rw [List.range_succ, List.map_append, ih, List.replicate_succ']; rfl

/-! ## Rate assignment: exact results -/

/-- A loop over `(index buffer, rate buffer, stream position)` whose iteration `i` stores
one value in cell `i` of each buffer and consumes one deviate. -/
theorem forLoop_fill_stream {α β : Type} (fI : Nat → Nat → α) (fR : Nat → Nat → β)
    (body : Nat → List α × List β × Nat → Except Fatal (List α × List β × Nat)) (n : Nat)
    (hbody : ∀ i, i < n → ∀ (xs : List α) (ys : List β) (r : Nat), i < xs.length →
      i < ys.length → body i (xs, ys, r) = .ok (xs.set i (fI i r), ys.set i (fR i r), r + 1))
    (xs : List α) (ys : List β) (r0 : Nat) (hx : n ≤ xs.length) (hy : n ≤ ys.length) :
    forLoop n body (xs, ys, r0)
      = .ok ((List.range n).map (fun i => fI i (r0 + i)) ++ xs.drop n,
          (List.range n).map (fun i => fR i (r0 + i)) ++ ys.drop n, r0 + n) := by
  induction n with
  | zero => simp [forLoop]
  | succ k ih =>
    rw [forLoop_succ, ih (fun i hi => hbody i (Nat.lt_succ_of_lt hi)) (by omega) (by omega)]
    show body k _ = _
    rw [hbody k (Nat.lt_succ_self k) _ _ _ (by simp; omega) (by simp; omega),
      range_map_drop_set (fun i => fI i (r0 + i)) xs k (by omega),
      range_map_drop_set (fun i => fR i (r0 + i)) ys k (by omega)]
    rfl

theorem getSiteSpecificRatesDiscrete_eq (E : Env) (rate_index0 : List Int) (rates0 : List ℚ)
    (n : Nat) (s : Sim) (hi : n ≤ rate_index0.length) (hr : n ≤ rates0.length) :
    getSiteSpecificRatesDiscrete E rate_index0 rates0 n s
      = .ok ((List.range n).map (fun i =>
              if sampledRateCategory E (s.rng + i) = -1 then E.RATE_ZERO_INDEX
              else sampledRateCategory E (s.rng + i)) ++ rate_index0.drop n,
          (List.range n).map (fun i =>
              if sampledRateCategory E (s.rng + i) = -1 then 0
              else E.rate.getRate (sampledRateCategory E (s.rng + i))) ++ rates0.drop n,
          { s with rng := s.rng + n }) := by
  unfold getSiteSpecificRatesDiscrete
  rw [forLoop_fill_stream
    (fun _ r => if sampledRateCategory E r = -1 then E.RATE_ZERO_INDEX
      else sampledRateCategory E r)
    (fun _ r => if sampledRateCategory E r = -1 then (0 : ℚ)
      else E.rate.getRate (sampledRateCategory E r)) _ n _ rate_index0 rates0 s.rng hi hr]
  · rfl
  · intro i _ xs ys r hx hy
    by_cases hc : sampledRateCategory E r = -1
    · simp only [hc, if_true]
      rw [writeAt_nat _ _ _ _ hy, writeAt_nat _ _ _ _ hx]
      rfl
    · simp only [hc, if_false]
      rw [writeAt_nat _ _ _ _ hy, writeAt_nat _ _ _ _ hx]
      rfl

theorem getElem?_range_map_append {α : Type} (f : Nat → α) (rest : List α) (n i : Nat)
    (h : i < n) : ((List.range n).map f ++ rest)[i]? = some (f i) := by
  rw [List.getElem?_append_left (by simpa using h)]
  simp [h]

theorem getSiteSpecificRates_fused_eq (E : Env) (hmix : E.model.isMixture = true)
    (hfused : E.model.isFused = true) (rate_index0 : List Int) (rates0 : List ℚ)
    (model_index : List Int) (n : Nat) (insertion_event : Bool) (s : Sim)
    (hlen : n ≤ model_index.length) :
    getSiteSpecificRates E rate_index0 rates0 model_index n insertion_event s
      = .ok ((List.range n).map (fun i =>
              if E.random_double (s.rng + i) ≤ E.rate.getPInvar then E.RATE_ZERO_INDEX
              else model_index.getD i 0),
          (List.range n).map (fun i =>
              if E.random_double (s.rng + i) ≤ E.rate.getPInvar then 0
              else E.rate.getRate (model_index.getD i 0)),
          { s with rng := s.rng + n }) := by
  simp only [getSiteSpecificRates, hmix, hfused, Bool.and_self, if_true]
  rw [forLoop_fill_stream
    (fun i r => if E.random_double r ≤ E.rate.getPInvar then E.RATE_ZERO_INDEX
      else model_index.getD i 0)
    (fun i r => if E.random_double r ≤ E.rate.getPInvar then (0 : ℚ)
      else E.rate.getRate (model_index.getD i 0)) _ n _ _ _ s.rng
    (by rw [resize_length]) (by rw [resize_length])]
  · simp [resize_length, List.drop_eq_nil_of_le, pure, Except.pure, bind, Except.bind]
  · intro i hin xs ys r hx hy
    by_cases hc : E.random_double r ≤ E.rate.getPInvar
    · simp only [hc, if_true]
      rw [writeAt_nat _ _ _ _ hx, writeAt_nat _ _ _ _ hy]
      rfl
    · simp only [hc, if_false]
      have him : i < model_index.length := by omega
      rw [readAt_nat _ _ _ him]
      simp only [bind, Except.bind]
      rw [writeAt_nat _ _ _ _ hx]
      simp only []
      rw [readAt_nat _ _ _ (by simpa using hx)]
      simp only []
      rw [writeAt_nat _ _ _ _ hy]
      simp [List.getD_eq_getElem?_getD, List.getElem?_eq_getElem him, pure, Except.pure]

/-! ## The posterior-mean gate -/

theorem containsSubstring_iff (pattern text : List Char) :
    containsSubstring pattern text = true ↔ pattern <:+: text := by
  induction text with
  | nil => simp [containsSubstring, List.isEmpty_iff]
  | cons c cs ih =>
    simp only [containsSubstring, Bool.or_eq_true, ih, List.infix_cons_iff,
      List.isPrefixOf_iff_prefix]

theorem isContinuousGamma_iff (E : Env) :
    isContinuousGamma E = true
      ↔ "+G".toList <:+: E.getRateName.toList ∧ E.is_continuous_gamma = true := by
  simp only [isContinuousGamma, Bool.and_eq_true, containsSubstring_iff]

/-! ## Lengths and frames of the assignment functions -/

theorem SameSiteArrays.refl (s : Sim) : SameSiteArrays s s := ⟨rfl, rfl, rfl⟩

theorem SameSiteArrays.trans {s t u : Sim} (h1 : SameSiteArrays s t) (h2 : SameSiteArrays t u) :
    SameSiteArrays s u :=
  ⟨h2.1.trans h1.1, h2.2.1.trans h1.2.1, h2.2.2.trans h1.2.2⟩

theorem pure_ok_iff {α : Type} (a b : α) : (pure a : Except Fatal α) = .ok b ↔ a = b := by
  simp [pure, Except.pure]

theorem throw_ne_ok {α : Type} (e : Fatal) (b : α) : (throw e : Except Fatal α) ≠ .ok b := by
  simp [throw, throwThe, MonadExceptOf.throw]

theorem writeAt_length {α : Type} {buffer : String} {xs ys : List α} {i : Int} {v : α}
    (h : writeAt buffer xs i v = .ok ys) : ys.length = xs.length := by
  rw [writeAt_ok_iff] at h
  rw [h.2.2, List.length_set]

/-- A property kept by every iteration holds after the loop. -/
theorem forLoop_preserves {σ : Type} (P : σ → Prop) (n : Nat)
    (body : Nat → σ → Except Fatal σ) (init : σ) (h0 : P init)
    (hstep : ∀ i, i < n → ∀ a b, P a → body i a = .ok b → P b) :
    ∀ out, forLoop n body init = .ok out → P out :=
  forLoop_invariant (fun _ => P) n body init h0 hstep

theorem afterExtract_same (E : Env) (len : Int) (s t : Sim)
    (h : afterExtract (extractPatternPosteriorFreqsAndModelProb E len s) = .ok t) :
    SameSiteArrays s t := by
  unfold afterExtract extractPatternPosteriorFreqsAndModelProb at h
  cases hp : s.ptn_state_freq with
  | some f =>
    simp only [hp] at h
    cases h
    exact SameSiteArrays.refl s
  | none =>
    simp only [hp] at h
    cases hc : E.computePatternStateFreq SiteFreqType.WSF_POSTERIOR_MEAN with
    | error e => simp only [hc] at h; cases h
    | ok cells =>
      simp only [hc] at h
      cases h
      exact ⟨rfl, rfl, rfl⟩

theorem intSiteSpecificModelIndexPosteriorProb_spec (E : Env) (n : Nat) (idx0 : List Int)
    (insertion_event : Bool) (s : Sim) (idx : List Int) (t : Sim)
    (h : intSiteSpecificModelIndexPosteriorProb E n idx0 insertion_event s = .ok (idx, t)) :
    idx.length = idx0.length ∧ SameSiteArrays s t := by
  unfold intSiteSpecificModelIndexPosteriorProb at h
  rw [bind_ok_iff] at h
  obtain ⟨s1, hs1, h⟩ := h
  have hsame := afterExtract_same E _ s s1 hs1
  refine forLoop_preserves (fun (st : List Int × Sim) =>
    st.1.length = idx0.length ∧ SameSiteArrays s st.2) n _ _ ⟨rfl, hsame⟩ ?_ _ h
  intro i _ a b ha hb
  cases hm : a.2.ptn_model_dis with
  | none => simp [hm] at hb
  | some table =>
    simp only [hm, bind_ok_iff, pure_ok_iff] at hb
    obtain ⟨ys, hw, rfl⟩ := hb
    exact ⟨(writeAt_length hw).trans ha.1, ha.2.1, ha.2.2.1, ha.2.2.2⟩


theorem intializeSiteSpecificModelIndex_spec (E : Env) (n : Nat) (idx0 : List Int)
    (insertion_event : Bool) (s : Sim) (idx : List Int) (t : Sim)
    (h : intializeSiteSpecificModelIndex E n idx0 insertion_event s = .ok (idx, t)) :
    idx.length = n ∧ SameSiteArrays s t := by
  unfold intializeSiteSpecificModelIndex at h
  cases hmix : E.model.isMixture with
  | false =>
    simp only [hmix, Bool.false_eq_true, if_false, bind_ok_iff, pure_ok_iff] at h
    obtain ⟨ys, hloop, heq⟩ := h
    cases heq
    refine ⟨?_, SameSiteArrays.refl s⟩
    exact forLoop_preserves (fun (xs : List Int) => xs.length = n) n _ _
      (resize_length idx0 n 0) (fun i _ a b ha hb => (writeAt_length hb).trans ha) _ hloop
  | true =>
    cases hpm : E.params.alisim_posterior_mean with
    | true =>
      simp only [hmix, hpm, if_true] at h
      have := intSiteSpecificModelIndexPosteriorProb_spec E n _ insertion_event s idx t h
      exact ⟨this.1.trans (resize_length idx0 n 0), this.2⟩
    | false =>
      simp only [hmix, hpm, if_true, Bool.false_eq_true, if_false, bind_ok_iff] at h
      obtain ⟨⟨ys, rng⟩, hloop, h⟩ := h
      have hlen : ys.length = n :=
        forLoop_preserves (fun (st : List Int × Nat) => st.1.length = n) n _ _
          (resize_length idx0 n 0)
          (fun i _ a b ha hb => by
            simp only [bind_ok_iff, pure_ok_iff] at hb
            obtain ⟨zs, hw, rfl⟩ := hb
            exact (writeAt_length hw).trans ha) _ hloop
      cases hsub : E.params.alisim_mixture_at_sub_level with
      | true =>
        simp only [hsub, Bool.not_true, Bool.false_eq_true, if_false, pure_ok_iff,
          Prod.mk.injEq] at h
        obtain ⟨rfl, rfl⟩ := h
        exact ⟨hlen, rfl, rfl, rfl⟩
      | false =>
        simp only [hsub, Bool.not_false, if_true, pure_ok_iff, Prod.mk.injEq] at h
        obtain ⟨rfl, rfl⟩ := h
        exact ⟨hlen, rfl, rfl, rfl⟩

theorem getSiteSpecificRatesDiscrete_spec (E : Env) (idx0 : List Int) (rates0 : List ℚ)
    (n : Nat) (s : Sim) (idx : List Int) (rates : List ℚ) (t : Sim)
    (h : getSiteSpecificRatesDiscrete E idx0 rates0 n s = .ok (idx, rates, t)) :
    idx.length = idx0.length ∧ rates.length = rates0.length ∧ SameSiteArrays s t := by
  unfold getSiteSpecificRatesDiscrete at h
  simp only [bind_ok_iff, pure_ok_iff] at h
  obtain ⟨⟨ys, rs, rng⟩, hloop, h⟩ := h
  simp only [Prod.mk.injEq] at h
  obtain ⟨rfl, rfl, rfl⟩ := h
  have := forLoop_preserves (fun (st : List Int × List ℚ × Nat) =>
      st.1.length = idx0.length ∧ st.2.1.length = rates0.length) n _ _ ⟨rfl, rfl⟩
    (fun i _ a b ha hb => by
      by_cases hc : sampledRateCategory E a.2.2 = -1
      · simp only [hc, if_true, bind_ok_iff, pure_ok_iff] at hb
        obtain ⟨r1, hw1, i1, hw2, rfl⟩ := hb
        exact ⟨(writeAt_length hw2).trans ha.1, (writeAt_length hw1).trans ha.2⟩
      · simp only [hc, if_false, bind_ok_iff, pure_ok_iff] at hb
        obtain ⟨r1, hw1, i1, hw2, rfl⟩ := hb
        exact ⟨(writeAt_length hw2).trans ha.1, (writeAt_length hw1).trans ha.2⟩) _ hloop
  exact ⟨this.1, this.2, rfl, rfl, rfl⟩

theorem getSiteSpecificPosteriorMeanRates_spec (E : Env) (rates0 : List ℚ) (n : Nat)
    (insertion_event : Bool) (s : Sim) (rates : List ℚ) (t : Sim)
    (h : getSiteSpecificPosteriorMeanRates E rates0 n insertion_event s = .ok (rates, t)) :
    rates.length = rates0.length ∧ SameSiteArrays s t := by
  unfold getSiteSpecificPosteriorMeanRates at h
  cases hpm : E.params.alisim_posterior_mean with
  | false =>
    simp only [hpm, Bool.not_false, if_true, bind_ok_iff] at h
    obtain ⟨_, habs, _⟩ := h
    exact absurd habs (throw_ne_ok _ _)
  | true =>
    simp only [hpm, Bool.not_true, Bool.false_eq_true, if_false, bind_ok_iff, pure_ok_iff] at h
    obtain ⟨_, _, h⟩ := h
    refine forLoop_preserves (fun (st : List ℚ × Sim) =>
        st.1.length = rates0.length ∧ SameSiteArrays s st.2) n _ _ ⟨rfl, ?_⟩ ?_ _ h
    · by_cases hz : s.pattern_rates.length = 0
      · simp only [hz, if_true]; exact ⟨rfl, rfl, rfl⟩
      · simp only [hz, if_false]; exact SameSiteArrays.refl s
    · intro i _ a b ha hb
      split at hb
      · simp only [bind_ok_iff] at hb
        obtain ⟨_, habs, _⟩ := hb
        exact absurd habs (throw_ne_ok _ _)
      · simp only [bind_ok_iff, pure_ok_iff] at hb
        obtain ⟨_, _, r, hr, ys, hw, rfl⟩ := hb
        exact ⟨(writeAt_length hw).trans ha.1, ha.2.1, ha.2.2.1, ha.2.2.2⟩

theorem getSiteSpecificRates_spec (E : Env) (idx0 : List Int) (rates0 : List ℚ)
    (model_index : List Int) (n : Nat) (insertion_event : Bool) (s : Sim) (idx : List Int)
    (rates : List ℚ) (t : Sim)
    (h : getSiteSpecificRates E idx0 rates0 model_index n insertion_event s
      = .ok (idx, rates, t)) :
    idx.length = n ∧ rates.length = n ∧ SameSiteArrays s t := by
  unfold getSiteSpecificRates at h
  have hI := resize_length idx0 n 0
  have hR := resize_length rates0 n 1
  split at h
  · -- fused mixture
    simp only [bind_ok_iff, pure_ok_iff] at h
    obtain ⟨⟨ys, rs, rng⟩, hloop, h⟩ := h
    simp only [Prod.mk.injEq] at h
    obtain ⟨rfl, rfl, rfl⟩ := h
    have := forLoop_preserves (fun (st : List Int × List ℚ × Nat) =>
        st.1.length = n ∧ st.2.1.length = n) n _ _ ⟨hI, hR⟩
      (fun i _ a b ha hb => by
        split at hb
        · simp only [bind_ok_iff, pure_ok_iff] at hb
          obtain ⟨i1, hw1, r1, hw2, rfl⟩ := hb
          exact ⟨(writeAt_length hw1).trans ha.1, (writeAt_length hw2).trans ha.2⟩
        · simp only [bind_ok_iff, pure_ok_iff] at hb
          obtain ⟨m, _, i1, hw1, _, _, r1, hw2, rfl⟩ := hb
          exact ⟨(writeAt_length hw1).trans ha.1, (writeAt_length hw2).trans ha.2⟩) _ hloop
    exact ⟨this.1, this.2, rfl, rfl, rfl⟩
  · split at h
    · -- no rate heterogeneity
      simp only [bind_ok_iff, pure_ok_iff] at h
      obtain ⟨⟨ys, rs⟩, hloop, h⟩ := h
      simp only [Prod.mk.injEq] at h
      obtain ⟨rfl, rfl, rfl⟩ := h
      have := forLoop_preserves (fun (st : List Int × List ℚ) =>
          st.1.length = n ∧ st.2.length = n) n _ _ ⟨hI, hR⟩
        (fun i _ a b ha hb => by
          simp only [bind_ok_iff, pure_ok_iff] at hb
          obtain ⟨r1, hw1, i1, hw2, rfl⟩ := hb
          exact ⟨(writeAt_length hw2).trans ha.1, (writeAt_length hw1).trans ha.2⟩) _ hloop
      exact ⟨this.1, this.2, SameSiteArrays.refl s⟩
    · split at h
      · -- continuous Gamma
        simp only [bind_ok_iff, pure_ok_iff] at h
        obtain ⟨rs, hloop, h⟩ := h
        simp only [Prod.mk.injEq] at h
        obtain ⟨rfl, rfl, rfl⟩ := h
        refine ⟨hI, ?_, SameSiteArrays.refl s⟩
        exact forLoop_preserves (fun (xs : List ℚ) => xs.length = n) n _ _ hR
          (fun i _ a b ha hb => (writeAt_length hb).trans ha) _ hloop
      · split at h
        · -- posterior mean rates
          simp only [bind_ok_iff, pure_ok_iff] at h
          obtain ⟨⟨rs, u⟩, hpm, h⟩ := h
          simp only [Prod.mk.injEq] at h
          obtain ⟨rfl, rfl, rfl⟩ := h
          have := getSiteSpecificPosteriorMeanRates_spec E _ n insertion_event s rs u hpm
          exact ⟨hI, this.1.trans hR, this.2⟩
        · -- discrete rates
          have := getSiteSpecificRatesDiscrete_spec E _ _ n s idx rates t h
          exact ⟨this.1.trans hI, this.2.1.trans hR, this.2.2⟩

theorem regenerateSequenceMixtureModel_spec (E : Env) (n : Nat) (model_index : List Int)
    (s : Sim) (sequence : List Int) (t : Sim)
    (h : regenerateSequenceMixtureModel E n model_index s = .ok (sequence, t)) :
    sequence.length = n ∧ SameSiteArrays s t := by
  unfold regenerateSequenceMixtureModel at h
  simp only [bind_ok_iff, pure_ok_iff] at h
  obtain ⟨⟨ys, rng⟩, hloop, h⟩ := h
  simp only [Prod.mk.injEq] at h
  obtain ⟨rfl, rfl⟩ := h
  refine ⟨?_, rfl, rfl, rfl⟩
  exact forLoop_preserves (fun (st : List Int × Nat) => st.1.length = n) n _ _
    (List.length_replicate n _)
    (fun i _ a b ha hb => by
      simp only [bind_ok_iff, pure_ok_iff] at hb
      obtain ⟨m, _, zs, hw, rfl⟩ := hb
      exact (writeAt_length hw).trans ha) _ hloop

theorem regenerateSequenceMixtureModelPosteriorMean_spec (E : Env) (n : Nat)
    (insertion_event : Bool) (s : Sim) (sequence : List Int) (t : Sim)
    (h : regenerateSequenceMixtureModelPosteriorMean E n insertion_event s
      = .ok (sequence, t)) :
    sequence.length = n ∧ SameSiteArrays s t := by
  unfold regenerateSequenceMixtureModelPosteriorMean at h
  cases hpm : E.params.alisim_posterior_mean with
  | false =>
    simp only [hpm, Bool.not_false, if_true, bind_ok_iff] at h
    obtain ⟨_, habs, _⟩ := h
    exact absurd habs (throw_ne_ok _ _)
  | true =>
    simp only [hpm, Bool.not_true, Bool.false_eq_true, if_false, bind_ok_iff, pure_ok_iff] at h
    obtain ⟨_, _, s1, hs1, ⟨ys, u⟩, hloop, h⟩ := h
    have hsame := afterExtract_same E _ s s1 hs1
    have hinv := forLoop_preserves (fun (st : List Int × Sim) =>
        st.1.length = n ∧ SameSiteArrays s st.2) n _ _
      ⟨List.length_replicate n _, hsame⟩
      (fun i _ a b ha hb => by
        cases hm : a.2.ptn_state_freq with
        | none => simp [hm] at hb
        | some table =>
          simp only [hm, bind_ok_iff, pure_ok_iff] at hb
          obtain ⟨zs, hw, rfl⟩ := hb
          exact ⟨(writeAt_length hw).trans ha.1, ha.2.1, ha.2.2.1, ha.2.2.2⟩) _ hloop
    split at h
    · simp only [pure_ok_iff, Prod.mk.injEq] at h
      obtain ⟨rfl, rfl⟩ := h
      exact ⟨hinv.1, hinv.2.1, hinv.2.2.1, hinv.2.2.2⟩
    · simp only [pure_ok_iff, Prod.mk.injEq] at h
      obtain ⟨rfl, rfl⟩ := h
      exact hinv

theorem insertRange_ok_iff {α : Type} (buffer : String) (xs ys zs : List α) (p : Int) :
    insertRange buffer xs p ys = .ok zs
      ↔ 0 ≤ p ∧ p ≤ (xs.length : Int) ∧ zs = xs.take p.toNat ++ ys ++ xs.drop p.toNat := by
  unfold insertRange
  by_cases h : 0 ≤ p ∧ p ≤ (xs.length : Int)
  · simp only [h, and_self, if_true, Except.ok.injEq, true_and]
    exact eq_comm
  · simp only [h, if_false]
    constructor
    · intro h'
      cases h'
    · rintro ⟨h1, h2, _⟩
      exact absurd ⟨h1, h2⟩ h

/-- What a returning call of `insertNewSequenceForInsertionEvent` has done: the fresh
model indices, rate indices and rates (one per state of the new segment) are spliced into
the three site arrays at `position`, and the regenerated segment into the sequence. -/
theorem insertNewSequenceForInsertionEvent_spec (E : Env) (indel_sequence : List Int)
    (position : Int) (new_sequence : List Int) (s : Sim) (indel new_seq : List Int) (t : Sim)
    (h : insertNewSequenceForInsertionEvent E indel_sequence position new_sequence s
      = .ok (indel, new_seq, t)) :
    ∃ (fresh_model fresh_rate_index : List Int) (fresh_rates : List ℚ) (s1 s2 : Sim),
      intializeSiteSpecificModelIndex E new_sequence.length [] true s = .ok (fresh_model, s1)
      ∧ getSiteSpecificRates E [] [] fresh_model new_sequence.length true
          { s1 with site_specific_model_index :=
              s.site_specific_model_index.take position.toNat ++ fresh_model
                ++ s.site_specific_model_index.drop position.toNat }
          = .ok (fresh_rate_index, fresh_rates, s2)
      ∧ fresh_model.length = new_sequence.length
      ∧ fresh_rate_index.length = new_sequence.length
      ∧ fresh_rates.length = new_sequence.length
      ∧ new_seq.length = new_sequence.length
      ∧ t.site_specific_model_index
          = s.site_specific_model_index.take position.toNat ++ fresh_model
            ++ s.site_specific_model_index.drop position.toNat
      ∧ t.site_specific_rate_index
          = s.site_specific_rate_index.take position.toNat ++ fresh_rate_index
            ++ s.site_specific_rate_index.drop position.toNat
      ∧ t.site_specific_rates
          = s.site_specific_rates.take position.toNat ++ fresh_rates
            ++ s.site_specific_rates.drop position.toNat
      ∧ indel = indel_sequence.take position.toNat ++ new_seq
            ++ indel_sequence.drop position.toNat
      ∧ 0 ≤ position
      ∧ position ≤ (s.site_specific_model_index.length : Int)
      ∧ position ≤ (s.site_specific_rate_index.length : Int)
      ∧ position ≤ (s.site_specific_rates.length : Int)
      ∧ position ≤ (indel_sequence.length : Int) := by
  unfold insertNewSequenceForInsertionEvent at h
  simp only [bind_ok_iff, pure_ok_iff] at h
  obtain ⟨⟨fm, s1⟩, hfm, mi, hmi, ⟨fi, fr, s2⟩, hrates, rs, hrs, ri, hri, ⟨ns, s3⟩, hregen,
    ind, hind, h⟩ := h
  simp only [Prod.mk.injEq] at h
  obtain ⟨rfl, rfl, rfl⟩ := h
  have h1 := intializeSiteSpecificModelIndex_spec E _ _ _ s fm s1 hfm
  rw [insertRange_ok_iff] at hmi hrs hri
  obtain ⟨hp0, hpm, rfl⟩ := hmi
  obtain ⟨_, hpr, rfl⟩ := hrs
  obtain ⟨_, hpi, rfl⟩ := hri
  simp only [] at hrates hpm hpr hpi
  rw [h1.2.1] at hrates
  have h2 := getSiteSpecificRates_spec E _ _ _ _ _ _ fi fr s2 hrates
  simp only [AliSimulator.insertNewSequenceForInsertionEvent, insertRange_ok_iff] at hind
  obtain ⟨_, hps, rfl⟩ := hind
  have h3 : ns.length = new_sequence.length ∧ s3.site_specific_model_index
      = s.site_specific_model_index.take position.toNat ++ fm
            ++ s.site_specific_model_index.drop position.toNat
      ∧ s3.site_specific_rate_index = s.site_specific_rate_index.take position.toNat ++ fi
            ++ s.site_specific_rate_index.drop position.toNat
      ∧ s3.site_specific_rates = s.site_specific_rates.take position.toNat ++ fr
            ++ s.site_specific_rates.drop position.toNat := by
    have e1 : s2.site_specific_rate_index = s.site_specific_rate_index :=
      h2.2.2.2.1.trans h1.2.2.1
    have e2 : s2.site_specific_rates = s.site_specific_rates := h2.2.2.2.2.trans h1.2.2.2
    have e3 : s2.site_specific_model_index = _ := h2.2.2.1
    simp only [] at e3
    unfold regenerateNewSequence at hregen
    split at hregen
    · split at hregen
      · have := regenerateSequenceMixtureModelPosteriorMean_spec E _ _ _ ns s3 hregen
        obtain ⟨hl, hm, hi, hr⟩ := this
        simp only [] at hm hi hr
        exact ⟨hl, by rw [hm, e3], by rw [hi, e1], by rw [hr, e2]⟩
      · have := regenerateSequenceMixtureModel_spec E _ _ _ ns s3 hregen
        obtain ⟨hl, hm, hi, hr⟩ := this
        simp only [] at hm hi hr
        exact ⟨hl, by rw [hm, e3], by rw [hi, e1], by rw [hr, e2]⟩
    · simp only [pure_ok_iff, Prod.mk.injEq] at hregen
      obtain ⟨rfl, rfl⟩ := hregen
      exact ⟨rfl, e3, by simp only [e1], by simp only [e2]⟩
  have e1 : s2.site_specific_rate_index = s.site_specific_rate_index :=
    h2.2.2.2.1.trans h1.2.2.1
  have e2 : s2.site_specific_rates = s.site_specific_rates := h2.2.2.2.2.trans h1.2.2.2
  rw [e2] at hpr
  rw [e1] at hpi
  rw [h1.2.1] at hpm
  exact ⟨fm, fi, fr, s1, s2, hfm, hrates, h1.1, h2.1, h2.2.1, h3.1, h3.2.1, h3.2.2.1,
    h3.2.2.2, rfl, hp0, hpm, hpi, hpr, hps⟩

/-! ## Gap propagation along a branch -/

theorem estimateStateFromAccumulatedTransMatrices_sampled (E : Env) (cache : List ℚ)
    (rate : ℚ) (i : Nat) (c : Int) (dad : Int) (s t : Sim) (state : Int)
    (h : estimateStateFromAccumulatedTransMatrices E cache rate i c dad s = .ok (state, t)) :
    t.sampled_sites = s.sampled_sites ++ [i] := by
  unfold estimateStateFromAccumulatedTransMatrices at h
  simp only [bind_ok_iff] at h
  obtain ⟨m, _, k, _, h⟩ := h
  split at h
  · simp only [bind_ok_iff] at h
    obtain ⟨_, habs, _⟩ := h
    exact absurd habs (throw_ne_ok _ _)
  · simp only [bind_ok_iff, pure_ok_iff, Prod.mk.injEq] at h
    obtain ⟨_, _, _, rfl⟩ := h
    rfl

theorem GapInvariant.gap_step {E : Env} {n : Nat} {node_sequence : List Int} {s : Sim}
    {k : Nat} {child : List Int} {st : Sim} (h : GapInvariant E n node_sequence s k (child, st))
    (hk : k < n) : GapInvariant E n node_sequence s (k + 1) (child.set k E.STATE_UNKNOWN, st) := by
  obtain ⟨hlen, hgap, hsam⟩ := h
  refine ⟨by simpa using hlen, ?_, hsam⟩
  intro j hj hnode
  by_cases hjk : j = k
  · subst hjk
    simp [List.getElem?_set_self, hlen, hk]
  · simp only [] at hgap ⊢
    rw [List.getElem?_set_ne (Ne.symm hjk)]
    exact hgap j (by omega) hnode

theorem GapInvariant.sample_step {E : Env} {n : Nat} {node_sequence : List Int} {s : Sim}
    {k : Nat} {child : List Int} {st st2 : Sim} {dad state : Int}
    (h : GapInvariant E n node_sequence s k (child, st))
    (hdad : node_sequence[k]? = some dad) (hne : dad ≠ E.STATE_UNKNOWN)
    (hs : st2.sampled_sites = st.sampled_sites ++ [k]) :
    GapInvariant E n node_sequence s (k + 1) (child.set k state, st2) := by
  obtain ⟨hlen, hgap, sampled, hsam, hall⟩ := h
  refine ⟨by simpa using hlen, ?_, sampled ++ [k], ?_, ?_⟩
  · intro j hj hnode
    by_cases hjk : j = k
    · subst hjk
      rw [hdad] at hnode
      exact absurd (Option.some.inj hnode) hne
    · simp only [] at hgap ⊢
      rw [List.getElem?_set_ne (Ne.symm hjk)]
      exact hgap j (by omega) hnode
  · simp only [] at hsam ⊢
    rw [hs, hsam, List.append_assoc]
  · intro j hj
    rcases List.mem_append.mp hj with hj | hj
    · exact hall j hj
    · rw [List.mem_singleton] at hj
      subst hj
      rw [hdad]
      intro habs
      exact hne (Option.some.inj habs)

theorem simulate_gap_invariant (E : Env) (model : ModelSubst) (n : Nat)
    (node_sequence : List Int) (it : Neighbor) (lengths : String) (s : Sim)
    (child : List Int) (t : Sim)
    (h : simulateASequenceFromBranchAfterInitVariables E model n node_sequence it lengths s
      = .ok (child, t)) :
    GapInvariant E n node_sequence s n (child, t) := by
  unfold simulateASequenceFromBranchAfterInitVariables at h
  have h0 : GapInvariant E n node_sequence s 0 (resize it.sequence n 0, s) :=
    ⟨resize_length _ _ _, fun j hj => absurd hj (Nat.not_lt_zero j), [], by simp, by simp⟩
  split at h
  · simp only [bind_ok_iff] at h
    obtain ⟨bl, _, cache, _, h⟩ := h
    refine forLoop_invariant (GapInvariant E n node_sequence s) n _ _ h0 ?_ _ h
    rintro i hi ⟨c, st⟩ b ha hb
    simp only [bind_ok_iff] at hb
    obtain ⟨dad, hdad, hb⟩ := hb
    rw [readAt_ok_iff] at hdad
    simp only [Int.toNat_ofNat] at hdad
    split at hb
    · simp only [bind_ok_iff, pure_ok_iff] at hb
      obtain ⟨c2, hw, rfl⟩ := hb
      rw [writeAt_ok_iff] at hw
      obtain ⟨_, _, rfl⟩ := hw
      exact ha.gap_step hi
    · rename_i hne
      simp only [bind_ok_iff, pure_ok_iff] at hb
      obtain ⟨r, _, ⟨state, st2⟩, hest, c2, hw, rfl⟩ := hb
      rw [writeAt_ok_iff] at hw
      obtain ⟨_, _, rfl⟩ := hw
      exact ha.sample_step hdad.2 hne
        (estimateStateFromAccumulatedTransMatrices_sampled E _ _ _ _ _ _ _ _ hest)
  · refine forLoop_invariant (GapInvariant E n node_sequence s) n _ _ h0 ?_ _ h
    rintro i hi ⟨c, st⟩ b ha hb
    simp only [bind_ok_iff] at hb
    obtain ⟨dad, hdad, hb⟩ := hb
    rw [readAt_ok_iff] at hdad
    simp only [Int.toNat_ofNat] at hdad
    split at hb
    · simp only [bind_ok_iff, pure_ok_iff] at hb
      obtain ⟨c2, hw, rfl⟩ := hb
      rw [writeAt_ok_iff] at hw
      obtain ⟨_, _, rfl⟩ := hw
      exact ha.gap_step hi
    · rename_i hne
      simp only [bind_ok_iff, pure_ok_iff] at hb
      obtain ⟨m, _, r, _, c2, hw, rfl⟩ := hb
      rw [writeAt_ok_iff] at hw
      obtain ⟨_, _, rfl⟩ := hw
      exact ha.sample_step hdad.2 hne rfl

/-! ## Substitution-rate bookkeeping -/

theorem Double.zero_eq : (0 : Double) = Double.value 0 := by
  show Double.value ((0 : Nat) : ℚ) = Double.value 0
  rw [Nat.cast_zero]

theorem Double.value_add (x y : ℚ) :
    Double.value x + Double.value y = Double.value (x + y) := rfl

theorem Double.add_indeterminate (x : Double) :
    x + Double.indeterminate = Double.indeterminate := by
  cases x <;> rfl

theorem Double.indeterminate_add (x : Double) :
    Double.indeterminate + x = Double.indeterminate := by
  cases x <;> rfl

theorem dotProduct_set (count : List Int) (cache : List ℚ) (k : Nat) (c : Int) (r : ℚ)
    (hc : count[k]? = some c) (hr : cache[k]? = some r) :
    dotProduct (count.set k (c + 1)) cache = dotProduct count cache + r := by
  induction count generalizing cache k with
  | nil => simp at hc
  | cons x xs ih =>
    cases cache with
    | nil => simp at hr
    | cons y ys =>
      cases k with
      | zero =>
        simp only [List.getElem?_cons_zero, Option.some.injEq] at hc hr
        subst hc hr
        simp only [dotProduct, List.set_cons_zero, List.zipWith_cons_cons, List.sum_cons]
        push_cast
        ring
      | succ k =>
        simp only [List.getElem?_cons_succ] at hc hr
        have := ih ys k hc hr
        simp only [dotProduct, List.set_cons_succ, List.zipWith_cons_cons, List.sum_cons] at this ⊢
        rw [this]
        ring

theorem dotProduct_replicate_zero (n : Nat) (cache : List ℚ) :
    dotProduct (List.replicate n 0) cache = 0 := by
  induction n generalizing cache with
  | zero => simp [dotProduct]
  | succ n ih =>
    cases cache with
    | nil => simp [dotProduct]
    | cons y ys =>
      have := ih ys
      simp only [dotProduct, List.replicate_succ, List.zipWith_cons_cons, List.sum_cons] at this ⊢
      rw [this]
      simp

theorem take_succ_set {α : Type} (xs : List α) (k : Nat) (v : α) (h : k < xs.length) :
    (xs.set k v).take (k + 1) = xs.take k ++ [v] := by
  induction xs generalizing k with
  | nil => simp at h
  | cons x xs ih =>
    cases k with
    | zero => simp
    | succ k =>
      simp only [List.length_cons, Nat.add_lt_add_iff_right] at h
      simp [ih k h]

/-- The sum of source lines 646-647 is the dot product, when every cell of the table has
been written. -/
theorem sumCountedRates_eq (count : List Int) (cells : List ℚ) (total0 : ℚ)
    (h : count.length = cells.length) :
    sumCountedRates count.length count (cells.map Double.value) (Double.value total0)
      = .ok (Double.value (total0 + dotProduct count cells)) := by
  unfold sumCountedRates
  have key : ∀ k, k ≤ count.length →
      forLoop k (fun i total => do
          let c ← readAt "sub_rate_count" count i
          let r ← readAt "cache_sub_rates" (cells.map Double.value) i
          pure (total + Double.scale c r)) (Double.value total0)
        = .ok (Double.value (total0 + dotProduct (count.take k) (cells.take k))) := by
    intro k
    induction k with
    | zero => intro _; simp [forLoop, dotProduct]
    | succ k ih =>
      intro hk
      rw [forLoop_succ, ih (by omega)]
      have hk1 : k < count.length := by omega
      have hk2 : k < cells.length := by omega
      have hk3 : k < (cells.map Double.value).length := by simpa using hk2
      show (do
          let c ← readAt "sub_rate_count" count (k : Int)
          let r ← readAt "cache_sub_rates" (cells.map Double.value) (k : Int)
          pure (Double.value (total0 + dotProduct (count.take k) (cells.take k))
            + Double.scale c r)) = _
      rw [readAt_nat _ _ _ hk1, readAt_nat _ _ _ hk3]
      simp only [bind, Except.bind, pure, Except.pure, Except.ok.injEq, List.get_eq_getElem,
        List.getElem_map, Double.scale, Double.value_add]
      rw [List.take_succ, List.take_succ]
      simp only [dotProduct, List.getElem?_eq_getElem hk1, List.getElem?_eq_getElem hk2,
        Option.toList_some]
      rw [List.zipWith_append _ _ _ _ _ (by simp; omega)]
      simp [add_assoc]
  have := key count.length (le_refl _)
  rw [this, List.take_length, h, List.take_length]

/-- The sum of source lines 646-647 returns when the counts and the table have a cell for
every index. -/
theorem sumCountedRates_total (n : Nat) (count : List Int) (cache : List Double)
    (total0 : Double) (h1 : n ≤ count.length) (h2 : n ≤ cache.length) :
    ∃ total, sumCountedRates n count cache total0 = .ok total := by
  unfold sumCountedRates
  refine (forLoop_total (fun _ (_ : Double) => True) n _ total0 trivial ?_).imp
    (fun _ h => h.1)
  intro i hi a _
  rw [readAt_nat _ _ _ (by omega : i < count.length),
    readAt_nat _ _ _ (by omega : i < cache.length)]
  exact ⟨_, rfl, trivial⟩

/-- The sum of source lines 646-647 is indeterminate as soon as one cell of the table has
never been written, whatever the counts are. -/
theorem sumCountedRates_indeterminate (n : Nat) (count : List Int) (cache : List Double)
    (total0 : Double) (h1 : n ≤ count.length) (h2 : n ≤ cache.length) (i : Nat) (hi : i < n)
    (hcell : cache[i]? = some Double.indeterminate) :
    sumCountedRates n count cache total0 = .ok Double.indeterminate := by
  unfold sumCountedRates
  obtain ⟨out, hout, hP⟩ := forLoop_total
    (fun k (total : Double) => i < k → total = Double.indeterminate) n
    (fun i total => do
      let count ← readAt "sub_rate_count" count i
      let cached ← readAt "cache_sub_rates" cache i
      pure (total + Double.scale count cached)) total0
    (fun h => absurd h (Nat.not_lt_zero i))
    (by
      intro k hk a ha
      have hk2 : k < cache.length := by omega
      simp only []
      rw [readAt_nat _ _ _ (by omega : k < count.length), readAt_nat _ _ _ hk2]
      refine ⟨_, rfl, ?_⟩
      intro hik
      by_cases hki : k = i
      · subst hki
        rw [List.getElem?_eq_getElem hk2] at hcell
        simp only [List.get_eq_getElem, Option.some.inj hcell, Double.scale,
          Double.add_indeterminate]
      · rw [ha (by omega), Double.indeterminate_add])
  rw [hout, hP hi]

theorem siteIsActive_true_iff (E : Env) (sequence : List Int) (s : Sim) (i : Nat) :
    siteIsActive E sequence s i = .ok true
      ↔ ∃ state rate, sequence[i]? = some state ∧ state ≠ E.STATE_UNKNOWN
          ∧ s.site_specific_rates[i]? = some rate ∧ rate ≠ 0 := by
  unfold siteIsActive
  simp only [bind_ok_iff, readAt_ok_iff, Int.toNat_ofNat]
  constructor
  · rintro ⟨state, ⟨_, hst⟩, h⟩
    split at h
    · simp only [bind_ok_iff, readAt_ok_iff, Int.toNat_ofNat, pure_ok_iff,
        decide_eq_true_eq] at h
      obtain ⟨rate, ⟨_, hr⟩, hne⟩ := h
      exact ⟨state, rate, hst, by assumption, hr, hne⟩
    · simp [pure_ok_iff] at h
  · rintro ⟨state, rate, hst, hne, hr, hr0⟩
    refine ⟨state, ⟨Int.natCast_nonneg i, hst⟩, ?_⟩
    simp only [hne, ne_eq, not_false_eq_true, if_true, bind_ok_iff, readAt_ok_iff,
      Int.toNat_ofNat, pure_ok_iff, decide_eq_true_eq]
    exact ⟨rate, ⟨Int.natCast_nonneg i, hr⟩, hr0⟩

theorem siteIsActive_false_iff (E : Env) (sequence : List Int) (s : Sim) (i : Nat) :
    siteIsActive E sequence s i = .ok false
      ↔ sequence[i]? = some E.STATE_UNKNOWN
        ∨ ∃ state, sequence[i]? = some state ∧ state ≠ E.STATE_UNKNOWN
            ∧ s.site_specific_rates[i]? = some 0 := by
  unfold siteIsActive
  simp only [bind_ok_iff, readAt_ok_iff, Int.toNat_ofNat]
  constructor
  · rintro ⟨state, ⟨_, hst⟩, h⟩
    split at h
    · simp only [bind_ok_iff, readAt_ok_iff, Int.toNat_ofNat, pure_ok_iff,
        decide_eq_false_iff_not, ne_eq, not_not] at h
      obtain ⟨rate, ⟨_, hr⟩, h0⟩ := h
      subst h0
      exact Or.inr ⟨state, hst, by assumption, hr⟩
    · rename_i hs
      simp only [ne_eq, not_not] at hs
      subst hs
      exact Or.inl hst
  · rintro (hst | ⟨state, hst, hne, hr⟩)
    · exact ⟨E.STATE_UNKNOWN, ⟨Int.natCast_nonneg i, hst⟩, by simp [pure_ok_iff]⟩
    · refine ⟨state, ⟨Int.natCast_nonneg i, hst⟩, ?_⟩
      simp only [hne, ne_eq, not_false_eq_true, if_true, bind_ok_iff, readAt_ok_iff,
        Int.toNat_ofNat, pure_ok_iff, decide_eq_false_iff_not, not_not]
      exact ⟨0, ⟨Int.natCast_nonneg i, hr⟩, rfl⟩

theorem GapCountInvariant.inactive_step {E : Env} {sequence : List Int} {s : Sim} {k : Nat}
    {by_site : List Double} {gaps : Int} {state : Int}
    (h : GapCountInvariant E sequence s k by_site gaps) (hst : sequence[k]? = some state) :
    GapCountInvariant E sequence s (k + 1) (by_site.set k 0)
      (if state = E.STATE_UNKNOWN then gaps + 1 else gaps) := by
  obtain ⟨hlen, hg, hz⟩ := h
  have hk : k < sequence.length := by
    by_contra hcon
    rw [List.getElem?_eq_none (by omega)] at hst
    cases hst
  refine ⟨by simpa using hlen, ?_, ?_⟩
  · rw [List.take_succ, hst, List.count_append, hg]
    by_cases hs : state = E.STATE_UNKNOWN
    · simp [hs]
    · simp [hs, List.count_singleton]
  · intro j hj hcond
    by_cases hjk : j = k
    · subst hjk
      simp [List.getElem?_set_self, hlen, hk]
    · rw [List.getElem?_set_ne (Ne.symm hjk)]
      exact hz j (by omega) hcond

theorem GapCountInvariant.active_step {E : Env} {sequence : List Int} {s : Sim} {k : Nat}
    {by_site : List Double} {gaps : Int} (v : Double)
    (h : GapCountInvariant E sequence s k by_site gaps)
    (hact : siteIsActive E sequence s k = .ok true) :
    GapCountInvariant E sequence s (k + 1) (by_site.set k v) gaps := by
  obtain ⟨hlen, hg, hz⟩ := h
  rw [siteIsActive_true_iff] at hact
  obtain ⟨state, rate, hst, hne, hr, hr0⟩ := hact
  refine ⟨by simpa using hlen, ?_, ?_⟩
  · rw [List.take_succ, hst, List.count_append, hg]
    simp [hne, List.count_singleton]
  · intro j hj hcond
    by_cases hjk : j = k
    · subst hjk
      rcases hcond with hc | hc
      · rw [hst] at hc
        exact absurd (Option.some.inj hc) hne
      · rw [hr] at hc
        exact absurd (Option.some.inj hc) hr0
    · rw [List.getElem?_set_ne (Ne.symm hjk)]
      exact hz j (by omega) hcond

theorem cachedSiteStep_ok (E : Env) (cache : List Double) (C : Int) (sequence : List Int)
    (s : Sim) (k : Nat) (count count2 : List Int) (by_site by_site2 : List Double)
    (gaps gaps2 : Int)
    (h : cachedSiteStep E cache C sequence s k (count, by_site, gaps)
      = .ok (count2, by_site2, gaps2)) :
    k < by_site.length ∧
    ((siteIsActive E sequence s k = .ok true
        ∧ ∃ (idx : Nat) (c : Int) (r : Double), count[idx]? = some c ∧ cache[idx]? = some r
          ∧ count2 = count.set idx (c + 1) ∧ by_site2 = by_site.set k r ∧ gaps2 = gaps)
      ∨ (siteIsActive E sequence s k = .ok false
        ∧ ∃ state, sequence[k]? = some state ∧ count2 = count ∧ by_site2 = by_site.set k 0
          ∧ gaps2 = if state = E.STATE_UNKNOWN then gaps + 1 else gaps)) := by
  unfold cachedSiteStep at h
  rw [bind_ok_iff] at h
  obtain ⟨active, hact, h⟩ := h
  cases active with
  | true =>
    simp only [if_true, bind_ok_iff, readAt_ok_iff, writeAt_ok_iff, pure_ok_iff,
      Prod.mk.injEq, Int.toNat_ofNat] at h
    obtain ⟨m, _, ri, _, state, _, c, ⟨_, hc⟩, count3, ⟨_, _, rfl⟩, r, ⟨_, hr⟩, bs, ⟨_, hk, rfl⟩,
      rfl, rfl, rfl⟩ := h
    exact ⟨hk, Or.inl ⟨hact, _, c, r, hc, hr, rfl, rfl, rfl⟩⟩
  | false =>
    simp only [Bool.false_eq_true, if_false, bind_ok_iff, readAt_ok_iff, writeAt_ok_iff,
      pure_ok_iff, Prod.mk.injEq, Int.toNat_ofNat] at h
    obtain ⟨bs, ⟨_, hk, rfl⟩, state, ⟨_, hst⟩, rfl, rfl, rfl⟩ := h
    exact ⟨hk, Or.inr ⟨hact, state, hst, rfl, rfl, rfl⟩⟩

theorem uncachedSiteStep_ok (E : Env) (sequence : List Int) (s : Sim)
    (k : Nat) (total total2 : Double) (by_site by_site2 : List Double) (gaps gaps2 : Int)
    (h : uncachedSiteStep E sequence s k (total, by_site, gaps)
      = .ok (total2, by_site2, gaps2)) :
    k < by_site.length ∧
    ((siteIsActive E sequence s k = .ok true
        ∧ ∃ (r : ℚ), total2 = total + Double.value r ∧ by_site2 = by_site.set k (Double.value r)
          ∧ gaps2 = gaps)
      ∨ (siteIsActive E sequence s k = .ok false
        ∧ ∃ state, sequence[k]? = some state ∧ total2 = total + 0
          ∧ by_site2 = by_site.set k 0
          ∧ gaps2 = if state = E.STATE_UNKNOWN then gaps + 1 else gaps)) := by
  unfold uncachedSiteStep at h
  rw [bind_ok_iff] at h
  obtain ⟨active, hact, h⟩ := h
  cases active with
  | true =>
    simp only [if_true, bind_ok_iff, readAt_ok_iff, writeAt_ok_iff, pure_ok_iff,
      Prod.mk.injEq, Int.toNat_ofNat] at h
    obtain ⟨m, _, state, _, sr, _, rate, _, bs, ⟨_, hk, rfl⟩, v, ⟨_, hv⟩, rfl, rfl, rfl⟩ := h
    rw [List.getElem?_set_self hk] at hv
    cases hv
    exact ⟨hk, Or.inl ⟨hact, _, rfl, rfl, rfl⟩⟩
  | false =>
    simp only [Bool.false_eq_true, if_false, bind_ok_iff, readAt_ok_iff, writeAt_ok_iff,
      pure_ok_iff, Prod.mk.injEq, Int.toNat_ofNat] at h
    obtain ⟨bs, ⟨_, hk, rfl⟩, state, ⟨_, hst⟩, v, ⟨_, hv⟩, rfl, rfl, rfl⟩ := h
    rw [List.getElem?_set_self hk] at hv
    cases hv
    exact ⟨hk, Or.inr ⟨hact, state, hst, rfl, rfl, rfl⟩⟩

theorem siteIsActive_false_state (E : Env) (sequence : List Int) (s : Sim) (k : Nat)
    (h : siteIsActive E sequence s k = .ok false) :
    sequence[k]? = some E.STATE_UNKNOWN ∨ s.site_specific_rates[k]? = some 0 := by
  rw [siteIsActive_false_iff] at h
  rcases h with h | ⟨_, _, _, h⟩
  · exact Or.inl h
  · exact Or.inr h

/-- The loop of source lines 622-643: when it returns, the gap counter counts the gaps and
the rates of gaps and of sites of rate 0 are 0. -/
theorem cachedLoop_ok (E : Env) (cache : List Double) (C : Int) (sequence : List Int)
    (s : Sim) (T : Nat) (by_site0 : List Double) (hlen : by_site0.length = sequence.length)
    (count : List Int) (by_site : List Double) (gaps : Int)
    (h : forLoop sequence.length (cachedSiteStep E cache C sequence s)
      (List.replicate T 0, by_site0, 0) = .ok (count, by_site, gaps)) :
    count.length = T ∧ GapCountInvariant E sequence s sequence.length by_site gaps := by
  have := forLoop_invariant (fun k (st : List Int × List Double × Int) =>
      st.1.length = T ∧ GapCountInvariant E sequence s k st.2.1 st.2.2) sequence.length _ _
    ⟨List.length_replicate T 0, hlen, by simp, fun j hj => absurd hj (Nat.not_lt_zero j)⟩
    (by
      rintro k hk ⟨c, b, g⟩ ⟨c2, b2, g2⟩ ⟨hT, hinv⟩ hstep
      obtain ⟨hkb, hcase⟩ := cachedSiteStep_ok E cache C sequence s k c c2 b b2 g g2 hstep
      rcases hcase with ⟨hact, idx, cv, r, hc, hr, rfl, rfl, rfl⟩ |
        ⟨hact, state, hst, rfl, rfl, rfl⟩
      · exact ⟨by simpa using hT, hinv.active_step r hact⟩
      · exact ⟨hT, hinv.inactive_step hst⟩) _ h
  exact this

/-- The loop of source lines 622-643 over a table all of whose cells have been written:
when it returns, every site rate is a value and the dot product of the counts with the
table is the sum of the site rates. -/
theorem cachedLoop_sum (E : Env) (cells : List ℚ) (C : Int) (sequence : List Int) (s : Sim)
    (T : Nat) (by_site0 : List Double) (hlen : by_site0.length = sequence.length)
    (count : List Int) (by_site : List Double) (gaps : Int)
    (h : forLoop sequence.length (cachedSiteStep E (cells.map Double.value) C sequence s)
      (List.replicate T 0, by_site0, 0) = .ok (count, by_site, gaps)) :
    ∃ rates : List ℚ, by_site = rates.map Double.value
      ∧ dotProduct count cells = rates.sum := by
  have := forLoop_invariant (fun k (st : List Int × List Double × Int) =>
      st.2.1.length = sequence.length
        ∧ ∃ rates : List ℚ, st.2.1.take k = rates.map Double.value
          ∧ dotProduct st.1 cells = rates.sum) sequence.length _ _
    ⟨hlen, [], by simp, by simp [dotProduct_replicate_zero]⟩
    (by
      rintro k hk ⟨c, b, g⟩ ⟨c2, b2, g2⟩ ⟨hl, rates, htake, hdot⟩ hstep
      obtain ⟨hkb, hcase⟩ := cachedSiteStep_ok E _ C sequence s k c c2 b b2 g g2 hstep
      rcases hcase with ⟨hact, idx, cv, r, hc, hr, rfl, rfl, rfl⟩ |
        ⟨hact, state, hst, rfl, rfl, rfl⟩
      · rw [List.getElem?_map] at hr
        cases hq : cells[idx]? with
        | none => rw [hq] at hr; cases hr
        | some q =>
          rw [hq] at hr
          simp only [Option.map_some', Option.some.injEq] at hr
          subst hr
          refine ⟨by simpa using hl, rates ++ [q], ?_, ?_⟩
          · simp only [] at htake ⊢
            rw [take_succ_set b k _ hkb, htake]
            simp
          · simp only [] at hdot ⊢
            rw [dotProduct_set c cells idx cv q hc hq, hdot]
            simp
      · refine ⟨by simpa using hl, rates ++ [0], ?_, ?_⟩
        · simp only [] at htake ⊢
          rw [take_succ_set b k _ hkb, htake, Double.zero_eq]
          simp
        · simp only [] at hdot ⊢
          rw [hdot]
          simp) _ h
  obtain ⟨hl, rates, htake, hdot⟩ := this
  simp only [] at hl htake hdot
  rw [← hl, List.take_length] at htake
  exact ⟨rates, htake, hdot⟩

/-- The loop of source lines 655-676: when it returns, every site rate is a value, the
running total is their sum, and the gap counter counts the gaps. -/
theorem uncachedLoop_ok (E : Env) (sequence : List Int) (s : Sim)
    (by_site0 : List Double) (hlen : by_site0.length = sequence.length)
    (total : Double) (by_site : List Double) (gaps : Int)
    (h : forLoop sequence.length (uncachedSiteStep E sequence s) (0, by_site0, 0)
      = .ok (total, by_site, gaps)) :
    (∃ rates : List ℚ, by_site = rates.map Double.value ∧ total = Double.value rates.sum)
      ∧ GapCountInvariant E sequence s sequence.length by_site gaps := by
  have := forLoop_invariant (fun k (st : Double × List Double × Int) =>
      (∃ rates : List ℚ, st.2.1.take k = rates.map Double.value
          ∧ st.1 = Double.value rates.sum)
        ∧ GapCountInvariant E sequence s k st.2.1 st.2.2)
    sequence.length _ _
    ⟨⟨[], by simp, by simp [Double.zero_eq]⟩, hlen, by simp,
      fun j hj => absurd hj (Nat.not_lt_zero j)⟩
    (by
      rintro k hk ⟨t, b, g⟩ ⟨t2, b2, g2⟩ ⟨⟨rates, htake, htot⟩, hinv⟩ hstep
      obtain ⟨hkb, hcase⟩ := uncachedSiteStep_ok E sequence s k t t2 b b2 g g2 hstep
      rcases hcase with ⟨hact, r, rfl, rfl, rfl⟩ | ⟨hact, state, hst, rfl, rfl, rfl⟩
      · refine ⟨⟨rates ++ [r], ?_, ?_⟩, hinv.active_step _ hact⟩
        · simp only [] at htake ⊢
          rw [take_succ_set b k _ hkb, htake]
          simp
        · simp only [] at htot ⊢
          rw [htot, Double.value_add]
          simp
      · refine ⟨⟨rates ++ [0], ?_, ?_⟩, hinv.inactive_step hst⟩
        · simp only [] at htake ⊢
          rw [take_succ_set b k _ hkb, htake, Double.zero_eq]
          simp
        · simp only [] at htot ⊢
          rw [htot, Double.zero_eq, Double.value_add]
          simp) _ h
  obtain ⟨⟨rates, htake, htot⟩, hinv⟩ := this
  simp only [] at htake htot hinv
  rw [← hinv.1, List.take_length] at htake
  exact ⟨⟨rates, htake, htot⟩, hinv⟩

theorem newDoubleArray_length (E : Env) (n : Int) : (newDoubleArray E n).length = n.toNat := by
  simp [newDoubleArray]

theorem cacheSubRates_length (E : Env) (M C : Int) (cache : List Double)
    (h : cacheSubRates E M C = .ok cache) :
    cache.length = (M * C * E.max_num_states).toNat := by
  unfold cacheSubRates at h
  refine forLoop_preserves
    (fun (xs : List Double) => xs.length = (M * C * E.max_num_states).toNat)
    _ _ _ (List.length_replicate _ _) ?_ _ h
  intro m _ a b ha hb
  refine forLoop_preserves
    (fun (xs : List Double) => xs.length = (M * C * E.max_num_states).toNat)
    _ _ _ ha ?_ _ hb
  intro c _ a b ha hb
  split at hb
  · rw [pure_ok_iff] at hb
    exact hb ▸ ha
  · refine forLoop_preserves
      (fun (xs : List Double) => xs.length = (M * C * E.max_num_states).toNat) _ _ _ ha ?_ _ hb
    intro st _ a b ha hb
    simp only [bind_ok_iff] at hb
    obtain ⟨_, _, hw⟩ := hb
    exact (writeAt_length hw).trans ha

theorem resize_map_length (by_site0 : List ℚ) (n : Nat) :
    ((resize by_site0 n 0).map Double.value).length = n := by
  rw [List.length_map, resize_length]

/-- What a returning call of `initVariables4RateMatrix` has computed for the gaps and the
sites of rate 0. -/
theorem initVariables4RateMatrix_ok (E : Env) (total0 : ℚ) (gaps0 : Int) (by_site0 : List ℚ)
    (sequence : List Int) (s : Sim) (total : Double) (gaps : Int) (by_site : List Double)
    (h : initVariables4RateMatrix E total0 gaps0 by_site0 sequence s
      = .ok (total, gaps, by_site)) :
    GapCountInvariant E sequence s sequence.length by_site gaps := by
  unfold initVariables4RateMatrix at h
  split at h
  · simp only [bind_ok_iff, pure_ok_iff, Prod.mk.injEq] at h
    obtain ⟨cache, hcache, ⟨count, bs, g⟩, hloop, t, hsum, rfl, rfl, rfl⟩ := h
    exact (cachedLoop_ok E cache _ sequence s _ _
      (resize_map_length by_site0 sequence.length) count bs g hloop).2
  · simp only [bind_ok_iff, pure_ok_iff, Prod.mk.injEq] at h
    obtain ⟨⟨t, bs, g⟩, hloop, rfl, rfl, rfl⟩ := h
    exact (uncachedLoop_ok E sequence s _ (resize_map_length by_site0 sequence.length)
      t bs g hloop).2

/-- On the uncached path, and on the cached path when every cell of the table has been
written, a returning call of `initVariables4RateMatrix` gives site rates that are values
and their sum as the total. -/
theorem initVariables4RateMatrix_sum (E : Env) (total0 : ℚ) (gaps0 : Int) (by_site0 : List ℚ)
    (sequence : List Int) (s : Sim) (total : Double) (gaps : Int) (by_site : List Double)
    (hwritten : ∀ cache, subRateCaching E s = true →
      cacheSubRates E (numModels E) (numRateCategories E) = .ok cache →
      ∃ cells : List ℚ, cache = cells.map Double.value)
    (h : initVariables4RateMatrix E total0 gaps0 by_site0 sequence s
      = .ok (total, gaps, by_site)) :
    ∃ rates : List ℚ, by_site = rates.map Double.value ∧ total = Double.value rates.sum := by
  unfold initVariables4RateMatrix at h
  split at h
  · rename_i hcaching
    simp only [bind_ok_iff, pure_ok_iff, Prod.mk.injEq] at h
    obtain ⟨cache, hcache, ⟨count, bs, g⟩, hloop, t, hsum, rfl, rfl, rfl⟩ := h
    obtain ⟨cells, rfl⟩ := hwritten cache hcaching hcache
    obtain ⟨hT, _⟩ := cachedLoop_ok E _ _ sequence s _ _
      (resize_map_length by_site0 sequence.length) count bs g hloop
    obtain ⟨rates, hrates, hdot⟩ := cachedLoop_sum E cells _ sequence s _ _
      (resize_map_length by_site0 sequence.length) count bs g hloop
    have hcl := cacheSubRates_length E _ _ _ hcache
    rw [List.length_map] at hcl
    rw [← hT, Double.zero_eq, sumCountedRates_eq count cells 0 (hT.trans hcl.symm)] at hsum
    simp only [Except.ok.injEq, zero_add] at hsum
    exact ⟨rates, hrates, by rw [← hsum, hdot]⟩
  · simp only [bind_ok_iff, pure_ok_iff, Prod.mk.injEq] at h
    obtain ⟨⟨t, bs, g⟩, hloop, rfl, rfl, rfl⟩ := h
    exact (uncachedLoop_ok E sequence s _ (resize_map_length by_site0 sequence.length)
      t bs g hloop).1

/-! ## Independence from the prior output values -/

/-- A loop whose iteration `i` only stores a value in cell `i` of a buffer, and does not
read the buffer otherwise, does not depend on what the buffer held. -/
theorem forLoop_buffer_independent {α β γ : Type} (n : Nat)
    (body : Nat → α × List γ × β → Except Fatal (α × List γ × β))
    (hbody : ∀ i, i < n → ∀ (a : α) (g : β), ∃ core : Except Fatal (α × γ × β),
      ∀ b : List γ, i < b.length →
        body i (a, b, g) = core.bind (fun r => .ok (r.1, b.set i r.2.1, r.2.2)))
    (a0 : α) (g0 : β) (b1 b2 : List γ) (h1 : b1.length = n) (h2 : b2.length = n) :
    forLoop n body (a0, b1, g0) = forLoop n body (a0, b2, g0) := by
  have key : ∀ k, k ≤ n →
      (∃ e, forLoop k body (a0, b1, g0) = .error e ∧ forLoop k body (a0, b2, g0) = .error e)
      ∨ ∃ a c1 c2 g, forLoop k body (a0, b1, g0) = .ok (a, c1, g)
          ∧ forLoop k body (a0, b2, g0) = .ok (a, c2, g)
          ∧ c1.length = n ∧ c2.length = n ∧ c1.take k = c2.take k := by
    intro k
    induction k with
    | zero =>
      intro _
      exact Or.inr ⟨a0, b1, b2, g0, rfl, rfl, h1, h2, by simp⟩
    | succ k ih =>
      intro hk
      rcases ih (by omega) with ⟨e, he1, he2⟩ | ⟨a, c1, c2, g, hc1, hc2, hl1, hl2, htake⟩
      · left
        exact ⟨e, by rw [forLoop_succ, he1]; rfl, by rw [forLoop_succ, he2]; rfl⟩
      · obtain ⟨core, hcore⟩ := hbody k (by omega) a g
        have e1 : forLoop (k + 1) body (a0, b1, g0)
            = core.bind (fun r => .ok (r.1, c1.set k r.2.1, r.2.2)) := by
          rw [forLoop_succ, hc1]
          exact hcore c1 (by omega)
        have e2 : forLoop (k + 1) body (a0, b2, g0)
            = core.bind (fun r => .ok (r.1, c2.set k r.2.1, r.2.2)) := by
          rw [forLoop_succ, hc2]
          exact hcore c2 (by omega)
        cases core with
        | error e => exact Or.inl ⟨e, e1, e2⟩
        | ok r =>
          right
          refine ⟨r.1, c1.set k r.2.1, c2.set k r.2.1, r.2.2, e1, e2, by simpa using hl1,
            by simpa using hl2, ?_⟩
          rw [take_succ_set c1 k _ (by omega), take_succ_set c2 k _ (by omega), htake]
  rcases key n (le_refl n) with ⟨e, he1, he2⟩ | ⟨a, c1, c2, g, hc1, hc2, hl1, hl2, htake⟩
  · rw [he1, he2]
  · rw [hc1, hc2]
    rw [← hl1, List.take_length] at htake
    conv at htake => rhs; rw [hl1, ← hl2, List.take_length]
    rw [htake]

theorem cachedSiteStep_buffer (E : Env) (cache : List Double) (C : Int) (sequence : List Int)
    (s : Sim) (k : Nat) (count : List Int) (gaps : Int) :
    ∃ core : Except Fatal (List Int × Double × Int), ∀ b : List Double, k < b.length →
      cachedSiteStep E cache C sequence s k (count, b, gaps)
        = core.bind (fun r => .ok (r.1, b.set k r.2.1, r.2.2)) := by
  refine ⟨(do
    if (← siteIsActive E sequence s k) then do
      let model_index ← readAt "site_specific_model_index" s.site_specific_model_index k
      let rate_index ← readAt "site_specific_rate_index" s.site_specific_rate_index k
      let state ← readAt "sequence" sequence k
      let index := model_index * C * E.max_num_states + rate_index * E.max_num_states + state
      let c ← readAt "sub_rate_count" count index
      let sub_rate_count ← writeAt "sub_rate_count" count index (c + 1)
      let cached ← readAt "cache_sub_rates" cache index
      pure (sub_rate_count, cached, gaps)
    else do
      let state ← readAt "sequence" sequence k
      pure (count, 0, if state = E.STATE_UNKNOWN then gaps + 1 else gaps)), ?_⟩
  intro b hb
  unfold cachedSiteStep
  cases siteIsActive E sequence s k with
  | error e => rfl
  | ok active =>
    cases active with
    | true =>
      simp only [bind, Except.bind, if_true]
      cases readAt "site_specific_model_index" s.site_specific_model_index (k : Int) with
      | error e => rfl
      | ok m =>
        cases readAt "site_specific_rate_index" s.site_specific_rate_index (k : Int) with
        | error e => rfl
        | ok ri =>
          cases readAt "sequence" sequence (k : Int) with
          | error e => rfl
          | ok state =>
            simp only []
            cases readAt "sub_rate_count" count
                (m * C * E.max_num_states + ri * E.max_num_states + state) with
            | error e => rfl
            | ok c =>
              simp only []
              cases writeAt "sub_rate_count" count
                  (m * C * E.max_num_states + ri * E.max_num_states + state) (c + 1) with
              | error e => rfl
              | ok count2 =>
                simp only []
                cases readAt "cache_sub_rates" cache
                    (m * C * E.max_num_states + ri * E.max_num_states + state) with
                | error e => rfl
                | ok cached =>
                  simp only [writeAt_nat _ _ _ _ hb]
                  rfl
    | false =>
      simp only [bind, Except.bind, Bool.false_eq_true, if_false, writeAt_nat _ _ _ _ hb]
      cases readAt "sequence" sequence (k : Int) with
      | error e => rfl
      | ok state => rfl

theorem uncachedSiteStep_buffer (E : Env) (sequence : List Int) (s : Sim) (k : Nat)
    (total : Double) (gaps : Int) :
    ∃ core : Except Fatal (Double × Double × Int), ∀ b : List Double, k < b.length →
      uncachedSiteStep E sequence s k (total, b, gaps)
        = core.bind (fun r => .ok (r.1, b.set k r.2.1, r.2.2)) := by
  refine ⟨(do
    if (← siteIsActive E sequence s k) then do
      let model_index ← readAt "site_specific_model_index" s.site_specific_model_index k
      let state ← readAt "sequence" sequence k
      let sub_rate ← readAt "sub_rates" E.sub_rates (model_index * E.max_num_states + state)
      let rate ← readAt "site_specific_rates" s.site_specific_rates k
      pure (total + Double.value (sub_rate * rate), Double.value (sub_rate * rate), gaps)
    else do
      let state ← readAt "sequence" sequence k
      pure (total + 0, 0, if state = E.STATE_UNKNOWN then gaps + 1 else gaps)), ?_⟩
  intro b hb
  have hread : ∀ v : Double, readAt "sub_rate_by_site" (b.set k v) (k : Int) = .ok v := by
    intro v
    rw [readAt_ok_iff]
    simp [List.getElem?_set_self hb]
  unfold uncachedSiteStep
  cases siteIsActive E sequence s k with
  | error e => rfl
  | ok active =>
    cases active with
    | true =>
      simp only [bind, Except.bind, if_true]
      cases readAt "site_specific_model_index" s.site_specific_model_index (k : Int) with
      | error e => rfl
      | ok m =>
        cases readAt "sequence" sequence (k : Int) with
        | error e => rfl
        | ok state =>
          simp only []
          cases readAt "sub_rates" E.sub_rates (m * E.max_num_states + state) with
          | error e => rfl
          | ok sr =>
            simp only []
            cases readAt "site_specific_rates" s.site_specific_rates (k : Int) with
            | error e => rfl
            | ok rate =>
              simp only [writeAt_nat _ _ _ _ hb, hread]
              rfl
    | false =>
      simp only [bind, Except.bind, Bool.false_eq_true, if_false, writeAt_nat _ _ _ _ hb]
      cases readAt "sequence" sequence (k : Int) with
      | error e => rfl
      | ok state =>
        simp only [hread]
        rfl

/-- The outcome of `initVariables4RateMatrix` does not depend on the values the three
reference parameters hold before the call. -/
theorem initVariables4RateMatrix_prior (E : Env) (total1 total2 : ℚ) (gaps1 gaps2 : Int)
    (by_site1 by_site2 : List ℚ) (sequence : List Int) (s : Sim) :
    initVariables4RateMatrix E total1 gaps1 by_site1 sequence s
      = initVariables4RateMatrix E total2 gaps2 by_site2 sequence s := by
  unfold initVariables4RateMatrix
  split
  · simp only []
    cases cacheSubRates E (if E.model.isMixture = true then E.model.getNMixtures else 1)
        (if E.getRateName.isEmpty = true then 1 else E.rate.getNDiscreteRate) with
    | error e => rfl
    | ok cache =>
      simp only [bind, Except.bind]
      rw [forLoop_buffer_independent sequence.length _
        (fun i _ a g => cachedSiteStep_buffer E cache _ sequence s i a g) _ _
        ((resize by_site1 sequence.length 0).map Double.value)
        ((resize by_site2 sequence.length 0).map Double.value)
        (resize_map_length _ _) (resize_map_length _ _)]
  · simp only [bind, Except.bind]
    rw [forLoop_buffer_independent sequence.length _
      (fun i _ a g => uncachedSiteStep_buffer E sequence s i a g) _ _
      ((resize by_site1 sequence.length 0).map Double.value)
      ((resize by_site2 sequence.length 0).map Double.value)
      (resize_map_length _ _) (resize_map_length _ _)]

/-! ## Inputs in range: the bookkeeping returns -/

theorem cell_in_range (m c st M C S : Int) (hm0 : 0 ≤ m) (hm : m < M) (hc0 : 0 ≤ c)
    (hc : c < C) (hs0 : 0 ≤ st) (hs : st < S) :
    0 ≤ m * C * S + c * S + st ∧ m * C * S + c * S + st < M * C * S := by
  have hS : 0 ≤ S := by omega
  have hC : 0 ≤ C := by omega
  have h1 : (c + 1) * S ≤ C * S := Int.mul_le_mul_of_nonneg_right (by omega) hS
  have h2 : (m + 1) * (C * S) ≤ M * (C * S) :=
    Int.mul_le_mul_of_nonneg_right (by omega) (Int.mul_nonneg hC hS)
  have h3 : 0 ≤ m * C * S := Int.mul_nonneg (Int.mul_nonneg hm0 hC) hS
  have h4 : 0 ≤ c * S := Int.mul_nonneg hc0 hS
  constructor
  · omega
  · nlinarith

theorem row_in_range (m st M S : Int) (hm0 : 0 ≤ m) (hm : m < M) (hs0 : 0 ≤ st)
    (hs : st < S) : 0 ≤ m * S + st ∧ m * S + st < M * S := by
  have hS : 0 ≤ S := by omega
  have h1 : (m + 1) * S ≤ M * S := Int.mul_le_mul_of_nonneg_right (by omega) hS
  have h3 : 0 ≤ m * S := Int.mul_nonneg hm0 hS
  constructor
  · omega
  · nlinarith

theorem readAt_total {α : Type} (buffer : String) (xs : List α) (i : Int) (h0 : 0 ≤ i)
    (h : i < (xs.length : Int)) : ∃ v, readAt buffer xs i = .ok v ∧ xs[i.toNat]? = some v := by
  have hlt : i.toNat < xs.length := by omega
  exact ⟨xs.get ⟨i.toNat, hlt⟩, by rw [readAt_ok_iff]; exact ⟨h0, by simp⟩, by simp⟩

theorem writeAt_total {α : Type} (buffer : String) (xs : List α) (i : Int) (v : α)
    (h0 : 0 ≤ i) (h : i < (xs.length : Int)) :
    writeAt buffer xs i v = .ok (xs.set i.toNat v) := by
  rw [writeAt_ok_iff]
  exact ⟨h0, by omega, rfl⟩

theorem cacheSubRates_total (E : Env) (M C : Int)
    (h : M * E.max_num_states ≤ (E.sub_rates.length : Int)) :
    ∃ cache, cacheSubRates E M C = .ok cache := by
  unfold cacheSubRates
  have := forLoop_total (fun _ (xs : List Double) => xs.length = (M * C * E.max_num_states).toNat)
    M.toNat (fun model_index cache =>
      forLoop C.toNat (fun rate_category_index cache =>
          if (E.model.isMixture && E.model.isFused) && model_index != rate_category_index
          then pure cache
          else
            let rate : ℚ :=
              if E.rate.getNRate = 1 then 1 else E.rate.getRate rate_category_index
            forLoop E.max_num_states.toNat (fun state cache => do
                let sub_rate ← readAt "sub_rates" E.sub_rates
                  (model_index * E.max_num_states + state)
                writeAt "cache_sub_rates" cache
                  (model_index * C * E.max_num_states
                    + rate_category_index * E.max_num_states + state)
                  (Double.value (sub_rate * rate)))
              cache)
        cache) (List.replicate (M * C * E.max_num_states).toNat Double.indeterminate)
    (List.length_replicate _ _)
    (by
      intro m hm a ha
      refine forLoop_total
        (fun _ (xs : List Double) => xs.length = (M * C * E.max_num_states).toNat) _ _ _ ha ?_
      intro c hc a ha
      split
      · exact ⟨a, rfl, ha⟩
      · refine forLoop_total
          (fun _ (xs : List Double) => xs.length = (M * C * E.max_num_states).toNat) _ _ _ ha ?_
        intro st hst a ha
        have hr := row_in_range m st M E.max_num_states (by omega) (by omega) (by omega)
          (by omega)
        have hcell := cell_in_range m c st M C E.max_num_states (by omega) (by omega)
          (by omega) (by omega) (by omega) (by omega)
        obtain ⟨v, hv, _⟩ := readAt_total "sub_rates" E.sub_rates _ hr.1 (by omega)
        refine ⟨a.set (m * C * E.max_num_states + c * E.max_num_states + st).toNat
          (Double.value (v * if E.rate.getNRate = 1 then 1 else E.rate.getRate c)), ?_, ?_⟩
        · simp only [hv, bind, Except.bind]
          exact writeAt_total _ _ _ _ hcell.1 (by omega)
        · simpa using ha)
  obtain ⟨out, hout, _⟩ := this
  exact ⟨out, hout⟩

theorem siteIsActive_total (E : Env) (sequence : List Int) (s : Sim) (i : Nat)
    (hi : i < sequence.length) (hr : sequence.length ≤ s.site_specific_rates.length) :
    ∃ active, siteIsActive E sequence s i = .ok active := by
  unfold siteIsActive
  rw [readAt_nat _ _ _ hi]
  simp only [bind, Except.bind]
  split
  · rw [readAt_nat _ _ _ (by omega : i < s.site_specific_rates.length)]
    exact ⟨_, rfl⟩
  · exact ⟨false, rfl⟩

theorem cachedSiteStep_total (E : Env) (sequence : List Int) (s : Sim)
    (hin : RateInputsInRange E sequence s) (hcache : subRateCaching E s = true)
    (cache : List Double) (k : Nat) (hk : k < sequence.length) (count : List Int)
    (by_site : List Double) (gaps : Int)
    (hcount : count.length = (numModels E * numRateCategories E * E.max_num_states).toNat)
    (hcl : cache.length = (numModels E * numRateCategories E * E.max_num_states).toNat)
    (hb : by_site.length = sequence.length) :
    ∃ out, cachedSiteStep E cache (numRateCategories E) sequence s k (count, by_site, gaps)
        = .ok out
      ∧ out.1.length = (numModels E * numRateCategories E * E.max_num_states).toNat
      ∧ out.2.1.length = sequence.length := by
  obtain ⟨active, hact⟩ := siteIsActive_total E sequence s k hk hin.rates_cover
  have hseq := readAt_nat "sequence" sequence k hk
  unfold cachedSiteStep
  cases active with
  | true =>
    obtain ⟨state, rate, hst, hne, hrate, hr0⟩ := (siteIsActive_true_iff E sequence s k).mp hact
    have hkm : k < s.site_specific_model_index.length := by
      have := hin.models_cover; omega
    have hkc : k < s.site_specific_rate_index.length := by
      have := hin.categories_cover; omega
    have hm := readAt_nat "site_specific_model_index" s.site_specific_model_index k hkm
    have hc := readAt_nat "site_specific_rate_index" s.site_specific_rate_index k hkc
    simp only [List.get_eq_getElem] at hc
    obtain ⟨hs0, hsS, hm0, hmM, hcat⟩ := hin.site k state _ _ rate hst hne hrate hr0
      (List.getElem?_eq_getElem hkm) (List.getElem?_eq_getElem hkc)
    obtain ⟨hc0, hcC⟩ := hcat hcache
    have hstate : sequence[k] = state := by
      have := List.getElem?_eq_getElem hk
      rw [hst] at this
      exact (Option.some.inj this).symm
    simp only [List.get_eq_getElem] at hm hseq
    have hcell := cell_in_range _ _ state _ _ E.max_num_states hm0 hmM hc0 hcC hs0 hsS
    obtain ⟨c, hcr, _⟩ := readAt_total "sub_rate_count" count _ hcell.1 (by omega)
    obtain ⟨r, hrr, _⟩ := readAt_total "cache_sub_rates" cache _ hcell.1 (by omega)
    simp only [hact, hm, hc, hseq, hstate, bind, Except.bind, if_true, hcr, hrr,
      writeAt_total _ count _ _ hcell.1 (by omega : _ < (count.length : Int)),
      writeAt_nat _ by_site k _ (by omega : k < by_site.length)]
    exact ⟨_, rfl, by simpa using hcount, by simpa using hb⟩
  | false =>
    simp only [hact, hseq, bind, Except.bind, Bool.false_eq_true, if_false,
      writeAt_nat _ by_site k _ (by omega : k < by_site.length)]
    exact ⟨_, rfl, hcount, by simpa using hb⟩

theorem uncachedSiteStep_total (E : Env) (sequence : List Int) (s : Sim)
    (hin : RateInputsInRange E sequence s) (k : Nat) (hk : k < sequence.length) (total : Double)
    (by_site : List Double) (gaps : Int) (hb : by_site.length = sequence.length) :
    ∃ out, uncachedSiteStep E sequence s k (total, by_site, gaps) = .ok out
      ∧ out.2.1.length = sequence.length := by
  obtain ⟨active, hact⟩ := siteIsActive_total E sequence s k hk hin.rates_cover
  have hseq := readAt_nat "sequence" sequence k hk
  have hkb : k < by_site.length := by omega
  have hread : ∀ v : Double, readAt "sub_rate_by_site" (by_site.set k v) (k : Int) = .ok v := by
    intro v
    rw [readAt_ok_iff]
    simp [List.getElem?_set_self hkb]
  unfold uncachedSiteStep
  cases active with
  | true =>
    obtain ⟨state, rate, hst, hne, hrate, hr0⟩ := (siteIsActive_true_iff E sequence s k).mp hact
    have hkm : k < s.site_specific_model_index.length := by
      have := hin.models_cover; omega
    have hkc : k < s.site_specific_rate_index.length := by
      have := hin.categories_cover; omega
    have hkr : k < s.site_specific_rates.length := by
      have := hin.rates_cover; omega
    have hm := readAt_nat "site_specific_model_index" s.site_specific_model_index k hkm
    have hrt := readAt_nat "site_specific_rates" s.site_specific_rates k hkr
    obtain ⟨hs0, hsS, hm0, hmM, _⟩ := hin.site k state _ _ rate hst hne hrate hr0
      (List.getElem?_eq_getElem hkm) (List.getElem?_eq_getElem hkc)
    have hstate : sequence[k] = state := by
      have := List.getElem?_eq_getElem hk
      rw [hst] at this
      exact (Option.some.inj this).symm
    simp only [List.get_eq_getElem] at hm hseq
    have hrow := row_in_range _ state _ E.max_num_states hm0 hmM hs0 hsS
    obtain ⟨v, hv, _⟩ := readAt_total "sub_rates" E.sub_rates _ hrow.1
      (by have := hin.sub_rates_cover; omega)
    simp only [hact, hm, hseq, hstate, hrt, bind, Except.bind, if_true, hv,
      writeAt_nat _ by_site k _ hkb, hread]
    exact ⟨_, rfl, by simpa using hb⟩
  | false =>
    simp only [hact, hseq, bind, Except.bind, Bool.false_eq_true, if_false,
      writeAt_nat _ by_site k _ hkb, hread]
    exact ⟨_, rfl, by simpa using hb⟩

/-- For inputs in range `initVariables4RateMatrix` returns. -/
theorem initVariables4RateMatrix_total (E : Env) (total0 : ℚ) (gaps0 : Int)
    (by_site0 : List ℚ) (sequence : List Int) (s : Sim)
    (hin : RateInputsInRange E sequence s) :
    ∃ out, initVariables4RateMatrix E total0 gaps0 by_site0 sequence s = .ok out := by
  unfold initVariables4RateMatrix
  cases hcache : subRateCaching E s with
  | true =>
    obtain ⟨cache, hc⟩ := cacheSubRates_total E (numModels E) (numRateCategories E)
      hin.sub_rates_cover
    have hcl := cacheSubRates_length E _ _ cache hc
    obtain ⟨⟨count, by_site, gaps⟩, hloop, hcount, _⟩ := forLoop_total
      (fun _ (st : List Int × List Double × Int) =>
        st.1.length = (numModels E * numRateCategories E * E.max_num_states).toNat
          ∧ st.2.1.length = sequence.length) sequence.length
      (cachedSiteStep E cache (numRateCategories E) sequence s)
      (List.replicate (numModels E * numRateCategories E * E.max_num_states).toNat 0,
        (resize by_site0 sequence.length 0).map Double.value, 0)
      ⟨List.length_replicate _ _, resize_map_length _ _⟩
      (fun k hk a ha => cachedSiteStep_total E sequence s hin hcache cache k hk a.1 a.2.1 a.2.2
        ha.1 hcl ha.2)
    simp only [numModels, numRateCategories] at hc hloop hcount hcl
    simp only [if_true, hc, bind, Except.bind, hloop]
    obtain ⟨total, hsum⟩ := sumCountedRates_total _ count cache 0 (le_of_eq hcount.symm)
      (le_of_eq hcl.symm)
    simp only [hsum]
    exact ⟨_, rfl⟩
  | false =>
    obtain ⟨⟨total, by_site, gaps⟩, hloop, _⟩ := forLoop_total
      (fun _ (st : Double × List Double × Int) => st.2.1.length = sequence.length)
      sequence.length
      (uncachedSiteStep E sequence s) (0, (resize by_site0 sequence.length 0).map Double.value, 0)
      (resize_map_length _ _)
      (fun k hk a ha => uncachedSiteStep_total E sequence s hin k hk a.1 a.2.1 a.2.2 ha)
    simp only [Bool.false_eq_true, if_false, bind, Except.bind, hloop]
    exact ⟨_, rfl⟩

/-! ## Returning calls of the assignment and insertion functions -/

theorem intializeSiteSpecificModelIndex_no_mixture (E : Env) (n : Nat)
    (insertion_event : Bool) (idx0 : List Int) (s : Sim) (hmix : E.model.isMixture = false) :
    intializeSiteSpecificModelIndex E n idx0 insertion_event s
      = .ok (List.replicate n 0, s) := by
  simp only [intializeSiteSpecificModelIndex, hmix]
  rw [forLoop_fill _ (fun _ => (0 : Int)) _ n (by rw [resize_length])]
  simp [range_map_const, resize_length, List.drop_eq_nil_of_le, pure, Except.pure, bind,
    Except.bind]

theorem getSiteSpecificRates_no_heterogeneity (E : Env) (n : Nat) (insertion_event : Bool)
    (rate_index0 : List Int) (rates0 : List ℚ) (model_index : List Int) (s : Sim)
    (hrate : E.getRateName.isEmpty = true)
    (hfused : (E.model.isMixture && E.model.isFused) = false) :
    getSiteSpecificRates E rate_index0 rates0 model_index n insertion_event s
      = .ok (List.replicate n E.RATE_ONE_INDEX, List.replicate n 1, s) := by
  simp only [getSiteSpecificRates, hfused, hrate]
  have h := forLoop_fill_two "new_site_specific_rate_index" "site_specific_rates"
    (fun _ => E.RATE_ONE_INDEX) (fun _ => (1 : ℚ)) (resize rate_index0 n 0)
    (resize rates0 n 1) n (by rw [resize_length]) (by rw [resize_length])
  simp only [range_map_const] at h
  simp only [Bool.false_eq_true, if_false, if_true]
  rw [h]
  simp [resize_length, List.drop_eq_nil_of_le, pure, Except.pure, bind, Except.bind]

theorem forLoop_fill_stream_one {α : Type} (buffer : String) (f : Nat → α) (n : Nat)
    (xs : List α) (r0 : Nat) (hx : n ≤ xs.length) :
    forLoop n (fun i (st : List α × Nat) => do
        let ys ← writeAt buffer st.1 i (f st.2)
        pure (ys, st.2 + 1)) (xs, r0)
      = .ok ((List.range n).map (fun i => f (r0 + i)) ++ xs.drop n, r0 + n) := by
  induction n with
  | zero => simp [forLoop]
  | succ k ih =>
    rw [forLoop_succ, ih (by omega)]
    show (do
        let ys ← writeAt buffer _ (k : Int) (f (r0 + k))
        pure (ys, r0 + k + 1)) = _
    rw [writeAt_nat _ _ _ _ (by simp; omega),
      range_map_drop_set (fun i => f (r0 + i)) xs k (by omega)]
    rfl

theorem intializeSiteSpecificModelIndex_total (E : Env) (n : Nat) (idx0 : List Int)
    (insertion_event : Bool) (s : Sim)
    (hpm : (E.model.isMixture && E.params.alisim_posterior_mean) = false) :
    ∃ idx t, intializeSiteSpecificModelIndex E n idx0 insertion_event s = .ok (idx, t)
      ∧ t.applyPosMeanRate = s.applyPosMeanRate := by
  cases hmix : E.model.isMixture with
  | false =>
    exact ⟨_, _, intializeSiteSpecificModelIndex_no_mixture E n insertion_event idx0 s hmix,
      rfl⟩
  | true =>
    have hp : E.params.alisim_posterior_mean = false := by simpa [hmix] using hpm
    unfold intializeSiteSpecificModelIndex
    simp only [hmix, hp, if_true, Bool.false_eq_true, if_false]
    have hfill := forLoop_fill_stream_one "new_site_specific_model_index"
      (fun r => E.getRandomItemWithAccumulatedProbMatrixMaxProbFirst
        (convertProMatrixIntoAccumulatedProMatrix (mixtureWeights E).1 1
          E.model.getNMixtures.toNat) 0 E.model.getNMixtures (mixtureWeights E).2
        (E.random_double r)) n (resize idx0 n 0) s.rng (by rw [resize_length])
    simp only [] at hfill
    rw [hfill]
    cases E.params.alisim_mixture_at_sub_level <;> exact ⟨_, _, rfl, rfl⟩

theorem getSiteSpecificRates_total (E : Env) (rate_index0 : List Int) (rates0 : List ℚ)
    (model_index : List Int) (n : Nat) (insertion_event : Bool) (s : Sim)
    (hlen : n ≤ model_index.length) (happ : s.applyPosMeanRate = false) :
    ∃ out, getSiteSpecificRates E rate_index0 rates0 model_index n insertion_event s
      = .ok out := by
  cases hf : (E.model.isMixture && E.model.isFused) with
  | true =>
    simp only [Bool.and_eq_true] at hf
    exact ⟨_, getSiteSpecificRates_fused_eq E hf.1 hf.2 rate_index0 rates0 model_index n
      insertion_event s hlen⟩
  | false =>
    cases hr : E.getRateName.isEmpty with
    | true =>
      exact ⟨_, getSiteSpecificRates_no_heterogeneity E n insertion_event rate_index0 rates0
        model_index s hr hf⟩
    | false =>
      unfold getSiteSpecificRates
      simp only [hf, hr, Bool.false_eq_true, if_false, happ]
      split
      · unfold getSiteSpecificRatesContinuousGamma
        rw [forLoop_fill _ _ _ n (by rw [resize_length])]
        exact ⟨_, rfl⟩
      · exact ⟨_, getSiteSpecificRatesDiscrete_eq E _ _ n s (by rw [resize_length])
          (by rw [resize_length])⟩

/-- A run followed by a step that always returns does return when the run does. -/
theorem bind_returns {α β : Type} {run : Except Fatal α} {next : α → Except Fatal β}
    (first : ∃ r, run = Except.ok r) (rest : ∀ r, ∃ out, next r = Except.ok out) :
    ∃ out, bind run next = Except.ok out := by
  rcases first with ⟨r, hr⟩
  subst hr
  exact rest r

theorem regenerateSequenceMixtureModel_total (E : Env) (n : Nat) (model_index : List Int)
    (s : Sim) (hlen : n ≤ model_index.length) :
    ∃ out, regenerateSequenceMixtureModel E n model_index s = .ok out := by
  unfold regenerateSequenceMixtureModel
  refine bind_returns ?_ (fun a => ⟨_, rfl⟩)
  refine (forLoop_total (fun _ (st : List Int × Nat) => st.1.length = n) n
    _ _ (List.length_replicate _ _) ?_).imp (fun _ h => h.1)
  intro i hi a ha
  simp only [readAt_nat _ model_index i (by omega), bind, Except.bind,
    writeAt_nat _ a.1 i _ (by omega : i < a.1.length)]
  exact ⟨_, rfl, by simpa using ha⟩

theorem insertRange_total {α : Type} (buffer : String) (xs ys : List α) (p : Int)
    (h0 : 0 ≤ p) (h : p ≤ (xs.length : Int)) :
    insertRange buffer xs p ys = .ok (xs.take p.toNat ++ ys ++ xs.drop p.toNat) := by
  rw [insertRange_ok_iff]
  exact ⟨h0, h, rfl⟩

/-- Without posterior-mean mode an insertion at a position inside the arrays returns. -/
theorem insertNewSequenceForInsertionEvent_total (E : Env) (indel_sequence : List Int)
    (position : Int) (new_sequence : List Int) (s : Sim)
    (hpm : E.params.alisim_posterior_mean = false) (happ : s.applyPosMeanRate = false)
    (hp0 : 0 ≤ position) (hseq : position ≤ (indel_sequence.length : Int))
    (hm : position ≤ (s.site_specific_model_index.length : Int))
    (hi : position ≤ (s.site_specific_rate_index.length : Int))
    (hr : position ≤ (s.site_specific_rates.length : Int)) :
    ∃ out, insertNewSequenceForInsertionEvent E indel_sequence position new_sequence s
      = .ok out := by
  unfold insertNewSequenceForInsertionEvent
  obtain ⟨fm, s1, h1, happ1⟩ := intializeSiteSpecificModelIndex_total E new_sequence.length []
    true s (by simp [hpm])
  obtain ⟨hfm, hm1, hi1, hr1⟩ := intializeSiteSpecificModelIndex_spec E _ _ _ s fm s1 h1
  simp only [h1, bind, Except.bind, insertRange_total _ _ _ _ hp0 (hm1 ▸ hm)]
  obtain ⟨⟨fi, fr, s2⟩, h2⟩ := getSiteSpecificRates_total E [] [] fm new_sequence.length true
    { s1 with site_specific_model_index :=
        s1.site_specific_model_index.take position.toNat ++ fm
          ++ s1.site_specific_model_index.drop position.toNat }
    (by omega) (happ1.trans happ)
  obtain ⟨_, _, hm2, hi2, hr2⟩ := getSiteSpecificRates_spec E _ _ _ _ _ _ fi fr s2 h2
  simp only [] at hm2 hi2 hr2
  simp only [h2, insertRange_total _ _ _ _ hp0 (hr2 ▸ hr1 ▸ hr),
    insertRange_total _ _ _ _ hp0 (hi2 ▸ hi1 ▸ hi)]
  unfold regenerateNewSequence
  cases hmix : E.model.isMixture with
  | false =>
    simp only [Bool.false_eq_true, if_false, pure, Except.pure,
      AliSimulator.insertNewSequenceForInsertionEvent, insertRange_total _ _ _ _ hp0 hseq]
    exact ⟨_, rfl⟩
  | true =>
    simp only [hpm, Bool.false_and, Bool.false_eq_true, if_false, if_true]
    obtain ⟨⟨ns, s3⟩, h3⟩ := regenerateSequenceMixtureModel_total E new_sequence.length
      s2.site_specific_model_index
      { s2 with
        site_specific_rates := s2.site_specific_rates.take position.toNat ++ fr
          ++ s2.site_specific_rates.drop position.toNat,
        site_specific_rate_index := s2.site_specific_rate_index.take position.toNat ++ fi
          ++ s2.site_specific_rate_index.drop position.toNat }
      (by rw [hm2]; simp; omega)
    simp only [h3, AliSimulator.insertNewSequenceForInsertionEvent,
      insertRange_total _ _ _ _ hp0 hseq]
    exact ⟨_, rfl⟩

/-! ## Splices, and the two branch paths -/

theorem splice_length {α : Type} (xs ys : List α) (p : Nat) :
    (xs.take p ++ ys ++ xs.drop p).length = xs.length + ys.length := by
  simp only [List.length_append, List.length_take, List.length_drop]
  omega

theorem splice_getElem?_left {α : Type} (xs ys : List α) (p i : Nat) (hp : p ≤ xs.length)
    (hi : i < p) : (xs.take p ++ ys ++ xs.drop p)[i]? = xs[i]? := by
  rw [List.append_assoc, List.getElem?_append_left (by simp; omega),
    List.getElem?_take_of_lt hi]

theorem splice_getElem?_right {α : Type} (xs ys : List α) (p i : Nat) (hp : p ≤ xs.length)
    (hi : p ≤ i) : (xs.take p ++ ys ++ xs.drop p)[i + ys.length]? = xs[i]? := by
  have hl : (xs.take p ++ ys).length = p + ys.length := by simp; omega
  rw [List.getElem?_append_right (by omega), hl, List.getElem?_drop]
  congr 1
  omega

theorem Example.inputs_in_range :
    RateInputsInRange Example.env [0, 1, 18, 2, 3] Example.sim where
  rates_cover := by decide
  models_cover := by decide
  categories_cover := by decide
  sub_rates_cover := by decide
  site := by
    intro i state model_index rate_index rate hst hne hr hr0 hm hc
    have hi : i < 5 := by
      by_contra hcon
      rw [List.getElem?_eq_none (by simp; omega)] at hst
      cases hst
    have he : ("" : String).isEmpty = true := by decide
    interval_cases i <;>
      simp [Example.sim, Example.env, numModels, numRateCategories, Example.model, he] at * <;>
      omega

theorem simulate_uncached_ignores_lengths (E : Env) (model : ModelSubst) (n : Nat)
    (node_sequence : List Int) (it : Neighbor) (lengths other : String) (s : Sim)
    (h : transMatrixCaching E s = false) :
    simulateASequenceFromBranchAfterInitVariables E model n node_sequence it lengths s
      = simulateASequenceFromBranchAfterInitVariables E model n node_sequence it other s := by
  unfold simulateASequenceFromBranchAfterInitVariables
  simp only [h, Bool.false_eq_true, if_false]

theorem simulate_cached_length_mismatch (E : Env) (model : ModelSubst) (n : Nat)
    (node_sequence : List Int) (it : Neighbor) (lengths : String) (s : Sim)
    (hcache : transMatrixCaching E s = true) (hhet : E.rate.isHeterotachy = true)
    (hlen : lengths.length > 0) (parsed : List ℚ)
    (hparse : E.convert_double_vec_with_distributions lengths '/' = .ok parsed)
    (hne : numRateCategories E ≠ (parsed.length : Int)) :
    ∃ msg, simulateASequenceFromBranchAfterInitVariables E model n node_sequence it lengths s
      = .error (.outError msg) := by
  unfold simulateASequenceFromBranchAfterInitVariables branchLengths
  unfold numRateCategories at hne
  simp only [hcache, if_true, hhet, hlen, decide_True, Bool.and_self, hparse, bind,
    Except.bind, hne, ne_eq, not_false_eq_true, throw, throwThe, MonadExceptOf.throw]
  exact ⟨_, rfl⟩

/-! ## The posterior-mean flag and the gate in `initVariables` -/

/-- Two continuations that agree on the result of a run give the same program. -/
theorem bind_congr_ok {α β : Type} {run : Except Fatal α} {f g : α → Except Fatal β}
    (h : ∀ a, run = .ok a → f a = g a) : (run >>= f) = (run >>= g) := by
  cases run with
  | error e => rfl
  | ok a => exact h a rfl

theorem afterExtract_gate (E : Env) (len : Int) (s t : Sim)
    (h : afterExtract (extractPatternPosteriorFreqsAndModelProb E len s) = .ok t) :
    t.applyPosMeanRate = s.applyPosMeanRate := by
  unfold afterExtract extractPatternPosteriorFreqsAndModelProb at h
  cases hp : s.ptn_state_freq with
  | some f =>
    simp only [hp] at h
    cases h
    rfl
  | none =>
    simp only [hp] at h
    cases hc : E.computePatternStateFreq SiteFreqType.WSF_POSTERIOR_MEAN with
    | error e => simp only [hc] at h; cases h
    | ok cells =>
      simp only [hc] at h
      cases h
      rfl

theorem intializeSiteSpecificModelIndex_gate (E : Env) (n : Nat) (idx0 : List Int)
    (insertion_event : Bool) (s : Sim) (idx : List Int) (t : Sim)
    (h : intializeSiteSpecificModelIndex E n idx0 insertion_event s = .ok (idx, t)) :
    t.applyPosMeanRate = s.applyPosMeanRate := by
  unfold intializeSiteSpecificModelIndex at h
  cases hmix : E.model.isMixture with
  | false =>
    simp only [hmix, Bool.false_eq_true, if_false, bind_ok_iff, pure_ok_iff] at h
    obtain ⟨ys, hloop, heq⟩ := h
    cases heq
    rfl
  | true =>
    cases hpm : E.params.alisim_posterior_mean with
    | true =>
      simp only [hmix, hpm, if_true] at h
      unfold intSiteSpecificModelIndexPosteriorProb at h
      rw [bind_ok_iff] at h
      obtain ⟨s1, hs1, h⟩ := h
      have hsame := afterExtract_gate E _ s s1 hs1
      refine forLoop_preserves (fun (st : List Int × Sim) =>
        st.2.applyPosMeanRate = s.applyPosMeanRate) n _ _ hsame ?_ _ h
      intro i _ a b ha hb
      cases hm : a.2.ptn_model_dis with
      | none => simp [hm] at hb
      | some table =>
        simp only [hm, bind_ok_iff, pure_ok_iff] at hb
        obtain ⟨ys, hw, rfl⟩ := hb
        exact ha
    | false =>
      simp only [hmix, hpm, if_true, Bool.false_eq_true, if_false, bind_ok_iff] at h
      obtain ⟨⟨ys, rng⟩, hloop, h⟩ := h
      cases hsub : E.params.alisim_mixture_at_sub_level with
      | true =>
        simp only [hsub, Bool.not_true, Bool.false_eq_true, if_false, pure_ok_iff,
          Prod.mk.injEq] at h
        obtain ⟨rfl, rfl⟩ := h
        rfl
      | false =>
        simp only [hsub, Bool.not_false, if_true, pure_ok_iff, Prod.mk.injEq] at h
        obtain ⟨rfl, rfl⟩ := h
        rfl

theorem regenerateRootSequence_gate (E : Env) (regenerate_root_sequence : Bool) (s t : Sim)
    (h : regenerateRootSequence E regenerate_root_sequence s = .ok t) :
    t.applyPosMeanRate = s.applyPosMeanRate
      ∧ t.site_specific_model_index = s.site_specific_model_index := by
  unfold regenerateRootSequence at h
  split at h
  · split at h
    · simp only [bind_ok_iff, pure_ok_iff] at h
      obtain ⟨⟨sequence, u⟩, hregen, rfl⟩ := h
      have hm := (regenerateSequenceMixtureModelPosteriorMean_spec E _ _ _ _ _ hregen).2.1
      refine ⟨?_, hm⟩
      unfold regenerateSequenceMixtureModelPosteriorMean at hregen
      cases hpm : E.params.alisim_posterior_mean with
      | false =>
        simp only [hpm, Bool.not_false, if_true, bind_ok_iff] at hregen
        obtain ⟨_, habs, _⟩ := hregen
        exact absurd habs (throw_ne_ok _ _)
      | true =>
        simp only [hpm, Bool.not_true, Bool.false_eq_true, if_false, bind_ok_iff,
          pure_ok_iff] at hregen
        obtain ⟨_, _, s1, hs1, ⟨ys, v⟩, hloop, hregen⟩ := hregen
        have hsame := afterExtract_gate E _ s s1 hs1
        have hinv := forLoop_preserves (fun (st : List Int × Sim) =>
            st.2.applyPosMeanRate = s.applyPosMeanRate) E.expected_num_sites _ _ hsame
          (fun i _ a b ha hb => by
            cases hm : a.2.ptn_state_freq with
            | none => simp [hm] at hb
            | some table =>
              simp only [hm, bind_ok_iff, pure_ok_iff] at hb
              obtain ⟨zs, hw, rfl⟩ := hb
              exact ha) _ hloop
        split at hregen
        · simp only [pure_ok_iff, Prod.mk.injEq] at hregen
          obtain ⟨rfl, rfl⟩ := hregen
          exact hinv
        · simp only [pure_ok_iff, Prod.mk.injEq] at hregen
          obtain ⟨rfl, rfl⟩ := hregen
          exact hinv
    · simp only [bind_ok_iff, pure_ok_iff] at h
      obtain ⟨⟨sequence, u⟩, hregen, rfl⟩ := h
      have hm := (regenerateSequenceMixtureModel_spec E _ _ _ _ _ hregen).2.1
      refine ⟨?_, hm⟩
      unfold regenerateSequenceMixtureModel at hregen
      simp only [bind_ok_iff, pure_ok_iff] at hregen
      obtain ⟨⟨ys, rng⟩, hloop, hregen⟩ := hregen
      simp only [Prod.mk.injEq] at hregen
      obtain ⟨rfl, rfl⟩ := hregen
      rfl
  · simp only [pure_ok_iff] at h
    subst h
    exact ⟨rfl, rfl⟩

/-- With posterior-mean rates not applied, the rate assignment does not read the
posterior-mean flag. -/
theorem getSiteSpecificRates_without_posterior_mean (E : Env) (rate_index0 : List Int)
    (rates0 : List ℚ) (model_index : List Int) (n : Nat) (insertion_event : Bool) (s : Sim)
    (happ : s.applyPosMeanRate = false) :
    getSiteSpecificRates (withoutPosteriorMean E) rate_index0 rates0 model_index n
        insertion_event s
      = getSiteSpecificRates E rate_index0 rates0 model_index n insertion_event s := by
  unfold getSiteSpecificRates
  simp only [happ, Bool.false_eq_true, if_false]
  rfl

/-- With posterior-mean rates not applied, the rate assignment neither reads nor changes
the warnings, and leaves the flag `applyPosMeanRate` as it is. -/
theorem getSiteSpecificRates_warnings (E : Env) (rate_index0 : List Int)
    (rates0 : List ℚ) (model_index : List Int) (n : Nat) (insertion_event : Bool) (s : Sim)
    (w : List String) (happ : s.applyPosMeanRate = false) (out : List Int × List ℚ × Sim)
    (h : getSiteSpecificRates E rate_index0 rates0 model_index n insertion_event s = .ok out) :
    getSiteSpecificRates E rate_index0 rates0 model_index n insertion_event
          { s with warnings := w }
        = .ok (out.1, out.2.1, { out.2.2 with warnings := w })
      ∧ out.2.2.applyPosMeanRate = false := by
  unfold getSiteSpecificRates at h ⊢
  simp only [happ, Bool.false_eq_true, if_false] at h ⊢
  by_cases h1 : (E.model.isMixture && E.model.isFused) = true
  · rw [if_pos h1] at h ⊢
    simp only [bind_ok_iff, pure_ok_iff] at h
    obtain ⟨⟨ys, rs, rng⟩, hloop, rfl⟩ := h
    rw [hloop]
    simp [bind, Except.bind, pure, Except.pure, happ]
  · rw [if_neg h1] at h ⊢
    by_cases h2 : E.getRateName.isEmpty = true
    · rw [if_pos h2] at h ⊢
      simp only [bind_ok_iff, pure_ok_iff] at h
      obtain ⟨⟨ys, rs⟩, hloop, rfl⟩ := h
      rw [hloop]
      simp [bind, Except.bind, pure, Except.pure, happ]
    · rw [if_neg h2] at h ⊢
      by_cases h3 : isContinuousGamma E = true
      · rw [if_pos h3] at h ⊢
        simp only [bind_ok_iff, pure_ok_iff] at h
        obtain ⟨rs, hloop, rfl⟩ := h
        rw [hloop]
        simp [bind, Except.bind, pure, Except.pure, happ]
      · rw [if_neg h3] at h ⊢
        unfold getSiteSpecificRatesDiscrete at h ⊢
        simp only [bind_ok_iff, pure_ok_iff] at h
        obtain ⟨⟨ys, rs, rng⟩, hloop, rfl⟩ := h
        simp only [] at hloop ⊢
        rw [hloop]
        simp [bind, Except.bind, pure, Except.pure, happ]

/-- Without a mixture the root sequence is not regenerated. -/
theorem regenerateRootSequence_no_mixture (E : Env) (regenerate_root_sequence : Bool)
    (s : Sim) (hmix : E.model.isMixture = false) :
    regenerateRootSequence E regenerate_root_sequence s = .ok s := by
  unfold regenerateRootSequence
  simp [hmix, pure, Except.pure]

/-! ## The regenerated segment of an insertion -/

/-- A loop over `(buffer, stream position)` whose iteration `i` stores one value in cell
`i` and consumes one deviate. -/
theorem forLoop_fill_stream_at {α : Type} (f : Nat → Nat → α)
    (body : Nat → List α × Nat → Except Fatal (List α × Nat)) (n : Nat)
    (hbody : ∀ i, i < n → ∀ (xs : List α) (r : Nat), i < xs.length →
      body i (xs, r) = .ok (xs.set i (f i r), r + 1))
    (xs : List α) (r0 : Nat) (hx : n ≤ xs.length) :
    forLoop n body (xs, r0)
      = .ok ((List.range n).map (fun i => f i (r0 + i)) ++ xs.drop n, r0 + n) := by
  induction n with
  | zero => simp [forLoop]
  | succ k ih =>
    rw [forLoop_succ, ih (fun i hi => hbody i (Nat.lt_succ_of_lt hi)) (by omega)]
    show body k _ = _
    rw [hbody k (Nat.lt_succ_self k) _ _ (by simp; omega),
      range_map_drop_set (fun i => f i (r0 + i)) xs k (by omega)]
    rfl

/-- The regenerated sequence, site by site: site `i` is drawn from the row of the component
in entry `i` of the array the function is given. -/
theorem regenerateSequenceMixtureModel_eq (E : Env) (n : Nat) (model_index : List Int)
    (s : Sim) (hlen : n ≤ model_index.length) :
    regenerateSequenceMixtureModel E n model_index s
      = .ok ((List.range n).map (fun i => sampledState E (model_index.getD i 0) (s.rng + i)),
          { s with rng := s.rng + n }) := by
  unfold regenerateSequenceMixtureModel
  simp only []
  rw [forLoop_fill_stream_at
    (fun i r => sampledState E (model_index.getD i 0) r) _ n _ _ s.rng
    (by rw [List.length_replicate])]
  · simp [List.drop_eq_nil_of_le, pure, Except.pure, bind, Except.bind]
  · intro i hin xs r hx
    have him : i < model_index.length := by omega
    rw [readAt_nat _ _ _ him]
    simp only [bind, Except.bind, List.get_eq_getElem]
    rw [writeAt_nat _ _ _ _ hx]
    simp [sampledState, List.getD_eq_getElem?_getD, List.getElem?_eq_getElem him, pure,
      Except.pure]

/-- Under a mixture without posterior-mean mode, the segment a returning insertion
regenerates is drawn, site by site, from the components in the leading entries of the
spliced array: inserted site `j` uses entry `j`, whatever the position of the insertion. -/
theorem insertion_regenerates_from_leading_entries (E : Env) (indel_sequence : List Int)
    (position : Int) (new_sequence : List Int) (s : Sim) (indel new_seq : List Int) (t : Sim)
    (hmix : E.model.isMixture = true) (hpm : E.params.alisim_posterior_mean = false)
    (h : insertNewSequenceForInsertionEvent E indel_sequence position new_sequence s
      = .ok (indel, new_seq, t)) :
    ∃ r, new_seq = (List.range new_sequence.length).map (fun j =>
      sampledState E (t.site_specific_model_index.getD j 0) (r + j)) := by
  obtain ⟨fm, fi, fr, s1, s2, _, _, hfm, _, _, _, ht, _, _, _, hp0, hpos, _, _, _⟩ :=
    insertNewSequenceForInsertionEvent_spec E _ _ _ _ _ _ _ h
  unfold insertNewSequenceForInsertionEvent at h
  simp only [bind_ok_iff, pure_ok_iff] at h
  obtain ⟨⟨fm', s1'⟩, _, mi, _, ⟨fi', fr', s2'⟩, _, rs, _, ri, _, ⟨ns, s3⟩, hregen,
    ind, _, h⟩ := h
  simp only [Prod.mk.injEq] at h
  obtain ⟨rfl, rfl, rfl⟩ := h
  unfold regenerateNewSequence at hregen
  simp only [hmix, hpm, Bool.false_and, Bool.false_eq_true, if_false, if_true] at hregen
  have hsame := (regenerateSequenceMixtureModel_spec E _ _ _ _ _ hregen).2.1
  simp only [] at hsame
  have hlen : new_sequence.length ≤ s2'.site_specific_model_index.length := by
    rw [← hsame, ht, splice_length, hfm]
    omega
  rw [regenerateSequenceMixtureModel_eq E _ _ _ hlen] at hregen
  simp only [Except.ok.injEq, Prod.mk.injEq] at hregen
  refine ⟨s2'.rng, ?_⟩
  rw [hsame, ← hregen.1]

/-! ## The cached sampler and the zero-rate sentinel -/

/-- A returning call of the cached sampler has passed its assertion: the rate index of the
site exceeds `RATE_ZERO_INDEX`.  The call does not change the rate indices. -/
theorem estimateStateFromAccumulatedTransMatrices_asserts (E : Env) (cache : List ℚ)
    (rate : ℚ) (i : Nat) (c : Int) (dad : Int) (s t : Sim) (state : Int)
    (h : estimateStateFromAccumulatedTransMatrices E cache rate i c dad s = .ok (state, t)) :
    t.site_specific_rate_index = s.site_specific_rate_index
      ∧ ∃ category, s.site_specific_rate_index[i]? = some category
          ∧ category > E.RATE_ZERO_INDEX := by
  unfold estimateStateFromAccumulatedTransMatrices at h
  simp only [bind_ok_iff] at h
  obtain ⟨m, _, k, hk, h⟩ := h
  rw [readAt_ok_iff] at hk
  simp only [Int.toNat_ofNat] at hk
  split at h
  · simp only [bind_ok_iff] at h
    obtain ⟨_, habs, _⟩ := h
    exact absurd habs (throw_ne_ok _ _)
  · rename_i hassert
    simp only [bind_ok_iff, pure_ok_iff, Prod.mk.injEq] at h
    obtain ⟨_, _, _, rfl⟩ := h
    refine ⟨rfl, k, hk.2, ?_⟩
    simpa using hassert

/-- On the cached path a call returns only if every site that is not a gap in the parent
has a rate index above `RATE_ZERO_INDEX`: a site that is not a gap and carries the
sentinel aborts the call. -/
theorem simulate_cached_rate_indices (E : Env) (model : ModelSubst) (n : Nat)
    (node_sequence : List Int) (it : Neighbor) (lengths : String) (s : Sim)
    (child : List Int) (t : Sim) (hcached : transMatrixCaching E s = true)
    (h : simulateASequenceFromBranchAfterInitVariables E model n node_sequence it lengths s
      = .ok (child, t)) :
    ∀ i, i < n → ∀ dad, node_sequence[i]? = some dad → dad ≠ E.STATE_UNKNOWN →
      ∃ category, s.site_specific_rate_index[i]? = some category
        ∧ category > E.RATE_ZERO_INDEX := by
  unfold simulateASequenceFromBranchAfterInitVariables at h
  rw [if_pos hcached] at h
  simp only [bind_ok_iff] at h
  obtain ⟨bl, _, cache, _, h⟩ := h
  have key := forLoop_invariant
    (fun k (st : List Int × Sim) =>
      st.2.site_specific_rate_index = s.site_specific_rate_index
        ∧ ∀ i, i < k → ∀ dad, node_sequence[i]? = some dad → dad ≠ E.STATE_UNKNOWN →
          ∃ category, s.site_specific_rate_index[i]? = some category
            ∧ category > E.RATE_ZERO_INDEX)
    n _ _ ⟨rfl, fun i hi => absurd hi (Nat.not_lt_zero i)⟩ ?_ _ h
  · exact key.2
  · rintro i hi ⟨c, st⟩ b ⟨hsame, hprev⟩ hb
    simp only [bind_ok_iff] at hb
    obtain ⟨dad, hdad, hb⟩ := hb
    rw [readAt_ok_iff] at hdad
    simp only [Int.toNat_ofNat] at hdad
    split at hb
    · rename_i hgap
      simp only [bind_ok_iff, pure_ok_iff] at hb
      obtain ⟨c2, hw, rfl⟩ := hb
      refine ⟨hsame, ?_⟩
      intro j hj d hd hne
      by_cases hji : j = i
      · subst hji
        rw [hdad.2] at hd
        exact absurd ((Option.some.inj hd).symm.trans hgap) hne
      · exact hprev j (by omega) d hd hne
    · simp only [bind_ok_iff, pure_ok_iff] at hb
      obtain ⟨r, _, ⟨state, st2⟩, hest, c2, hw, rfl⟩ := hb
      obtain ⟨hkeep, category, hcat, hgt⟩ :=
        estimateStateFromAccumulatedTransMatrices_asserts E _ _ _ _ _ _ _ _ hest
      simp only [] at hsame hkeep hcat ⊢
      refine ⟨hkeep.trans hsame, ?_⟩
      intro j hj d hd hne
      by_cases hji : j = i
      · subst hji
        exact ⟨category, hsame ▸ hcat, hgt⟩
      · exact hprev j (by omega) d hd hne

/-! ## Tables filled block by block -/

/-- A loop whose iteration `t` stores `val t` in cell `base + t`: afterwards the cells
`base .. base + n - 1` hold the values and every other cell is as before. -/
theorem forLoop_fill_block {α : Type} (val : Nat → α) (base n : Nat)
    (body : Nat → List α → Except Fatal (List α))
    (hbody : ∀ t, t < n → ∀ cache : List α, base + n ≤ cache.length →
      body t cache = .ok (cache.set (base + t) (val t)))
    (cache : List α) (hlen : base + n ≤ cache.length) :
    ∃ out, forLoop n body cache = .ok out ∧ out.length = cache.length
      ∧ (∀ t, t < n → out[base + t]? = some (val t))
      ∧ ∀ idx, (idx < base ∨ base + n ≤ idx) → out[idx]? = cache[idx]? := by
  have key := forLoop_total
    (fun k (out : List α) => out.length = cache.length
      ∧ (∀ t, t < k → out[base + t]? = some (val t))
      ∧ ∀ idx, (idx < base ∨ base + k ≤ idx) → out[idx]? = cache[idx]?)
    n body cache ⟨rfl, fun t ht => absurd ht (Nat.not_lt_zero t), fun _ _ => rfl⟩ ?_
  · exact key
  · rintro k hk a ⟨hl, hpos, hframe⟩
    refine ⟨_, hbody k hk a (by omega), by simpa using hl, ?_, ?_⟩
    · intro t ht
      by_cases htk : t = k
      · subst htk
        rw [List.getElem?_set_self (by omega)]
      · rw [List.getElem?_set_ne (by omega)]
        exact hpos t (by omega)
    · intro idx hidx
      rw [List.getElem?_set_ne (by omega)]
      exact hframe idx (by omega)

/-- Cells of a block that comes earlier lie below a later block. -/
theorem block_cell_lt (x y B t : Nat) (hxy : x < y) (ht : t < B) : x * B + t < y * B := by
  have h1 : (x + 1) * B ≤ y * B := Nat.mul_le_mul_right B hxy
  have h2 : (x + 1) * B = x * B + B := by ring
  omega

/-- The number of a block, in row-major order, is below the number of blocks. -/
theorem block_number_lt (m c M C : Nat) (hm : m < M) (hc : c < C) : m * C + c < M * C := by
  have h1 : (m + 1) * C ≤ M * C := Nat.mul_le_mul_right C hm
  have h2 : (m + 1) * C = m * C + C := by ring
  omega

/-- Two nested loops over `M * C` blocks of `B` cells, in row-major order.  If the step for
block `(m, c)` stores `val m c t` in cell `t` of the block when the block is to be filled,
and changes nothing outside the block, then after the loops every block that is to be
filled holds its values. -/
theorem forLoop_fill_blocks {α : Type} (M C B : Nat) (filled : Nat → Nat → Prop)
    (val : Nat → Nat → Nat → α) (step : Nat → Nat → List α → Except Fatal (List α))
    (hstep : ∀ m c, m < M → c < C → ∀ cache : List α, cache.length = M * C * B →
      ∃ out, step m c cache = .ok out ∧ out.length = cache.length
        ∧ (filled m c → ∀ t, t < B → out[(m * C + c) * B + t]? = some (val m c t))
        ∧ ∀ idx, (idx < (m * C + c) * B ∨ (m * C + c) * B + B ≤ idx) →
            out[idx]? = cache[idx]?)
    (cache : List α) (hlen : cache.length = M * C * B) :
    ∃ out, forLoop M (fun m cache => forLoop C (fun c cache => step m c cache) cache) cache
        = .ok out
      ∧ out.length = cache.length
      ∧ ∀ m c t, m < M → c < C → filled m c → t < B →
          out[(m * C + c) * B + t]? = some (val m c t) := by
  have key := forLoop_total
    (fun k (out : List α) => out.length = M * C * B
      ∧ ∀ m c t, m < k → c < C → filled m c → t < B →
          out[(m * C + c) * B + t]? = some (val m c t))
    M (fun m cache => forLoop C (fun c cache => step m c cache) cache) cache
    ⟨hlen, fun m c t hm => absurd hm (Nat.not_lt_zero m)⟩ ?_
  · obtain ⟨out, hout, hl, hdone⟩ := key
    exact ⟨out, hout, hl.trans hlen.symm, fun m c t hm hc hf ht => hdone m c t hm hc hf ht⟩
  · rintro m hm a ⟨hl, hdone⟩
    have inner := forLoop_total
      (fun k (out : List α) => out.length = M * C * B
        ∧ ∀ m2 c2 t, (m2 < m ∨ (m2 = m ∧ c2 < k)) → c2 < C → filled m2 c2 → t < B →
            out[(m2 * C + c2) * B + t]? = some (val m2 c2 t))
      C (fun c cache => step m c cache) a
      ⟨hl, fun m2 c2 t h hc2 hf ht => by
        rcases h with h | ⟨_, h⟩
        · exact hdone m2 c2 t h hc2 hf ht
        · exact absurd h (Nat.not_lt_zero c2)⟩ ?_
    · obtain ⟨out, hout, hl2, hdone2⟩ := inner
      refine ⟨out, hout, hl2, ?_⟩
      intro m2 c2 t hm2 hc2 hf ht
      refine hdone2 m2 c2 t ?_ hc2 hf ht
      rcases Nat.lt_succ_iff_lt_or_eq.mp hm2 with h | h
      · exact Or.inl h
      · exact Or.inr ⟨h, hc2⟩
    · rintro c hc b ⟨hlb, hdoneb⟩
      obtain ⟨out, hout, hlo, hpos, hframe⟩ := hstep m c hm hc b hlb
      refine ⟨out, hout, hlo.trans hlb, ?_⟩
      intro m2 c2 t h hc2 hf ht
      by_cases hsame : m2 = m ∧ c2 = c
      · obtain ⟨rfl, rfl⟩ := hsame
        exact hpos hf t ht
      · have hbefore : m2 < m ∨ (m2 = m ∧ c2 < c) := by
          rcases h with h | ⟨h1, h2⟩
          · exact Or.inl h
          · refine Or.inr ⟨h1, ?_⟩
            rcases Nat.lt_succ_iff_lt_or_eq.mp h2 with h3 | h3
            · exact h3
            · exact absurd ⟨h1, h3⟩ hsame
        have hnum : m2 * C + c2 < m * C + c := by
          rcases hbefore with h | ⟨h1, h2⟩
          · have := block_number_lt m2 c2 m C h hc2
            omega
          · subst h1
            omega
        rw [hframe _ (Or.inl (block_cell_lt _ _ B t hnum ht))]
        exact hdoneb m2 c2 t hbefore hc2 hf ht

/-! ## Accumulated rows -/

theorem accumulate_length (acc : ℚ) (xs : List ℚ) : (accumulate acc xs).length = xs.length := by
  induction xs generalizing acc with
  | nil => rfl
  | cons x xs ih => simp [accumulate, ih]

/-- Entry `d` of an accumulated row is the sum of the entries `0..d` of the row. -/
theorem accumulate_getElem? (acc : ℚ) (xs : List ℚ) (d : Nat) (hd : d < xs.length) :
    (accumulate acc xs)[d]? = some (acc + (xs.take (d + 1)).sum) := by
  induction xs generalizing acc d with
  | nil => simp at hd
  | cons x xs ih =>
    cases d with
    | zero => simp [accumulate]
    | succ d =>
      simp only [accumulate, List.getElem?_cons_succ, List.take_succ_cons, List.sum_cons]
      rw [ih (acc + x) d (by simpa using hd), add_assoc]

/-- Entry `d` of row `r` of the accumulated matrix is the sum of the entries `0..d` of row
`r` of the matrix: the sums start afresh in every row. -/
theorem convertProMatrixIntoAccumulatedProMatrix_getElem? (matrix : List ℚ)
    (rows cols r d : Nat) (hr : r < rows) (hd : d < cols)
    (hlen : rows * cols ≤ matrix.length) :
    (convertProMatrixIntoAccumulatedProMatrix matrix rows cols)[r * cols + d]?
      = some (((matrix.drop (r * cols)).take (d + 1)).sum) := by
  induction rows generalizing matrix r with
  | zero => exact absurd hr (Nat.not_lt_zero r)
  | succ rows ih =>
    have hmul : (rows + 1) * cols = rows * cols + cols := by ring
    have hcols : cols ≤ matrix.length := by omega
    have hfirst : (accumulate 0 (matrix.take cols)).length = cols := by
      rw [accumulate_length, List.length_take]
      omega
    unfold convertProMatrixIntoAccumulatedProMatrix
    cases r with
    | zero =>
      rw [Nat.zero_mul, Nat.zero_add, List.getElem?_append_left (by omega),
        accumulate_getElem? _ _ _ (by rw [List.length_take]; omega), List.take_take,
        List.drop_zero, zero_add]
      congr 3
      omega
    | succ r =>
      have hidx : (r + 1) * cols + d = cols + (r * cols + d) := by ring
      rw [hidx, List.getElem?_append_right (by omega), hfirst, Nat.add_sub_cancel_left,
        ih (matrix.drop cols) r (by omega) (by rw [List.length_drop]; omega), List.drop_drop]
      congr 4
      ring

theorem sum_map_range (f : Nat → ℚ) (n : Nat) :
    ((List.range n).map f).sum = ∑ j in Finset.range n, f j := by
  induction n with
  | zero => simp
  | succ n ih => rw [List.range_succ, List.map_append, List.sum_append, ih,
      Finset.sum_range_succ]; simp

/-- A window of a table whose cells are known. -/
theorem drop_take_eq_map (table : List ℚ) (start n : Nat) (f : Nat → ℚ)
    (h : ∀ j, j < n → table[start + j]? = some (f j)) :
    (table.drop start).take n = (List.range n).map f := by
  apply List.ext_getElem?
  intro j
  by_cases hj : j < n
  · rw [List.getElem?_take_of_lt hj, List.getElem?_drop, h j hj]
    simp [hj]
  · rw [List.getElem?_eq_none (by simp; omega), List.getElem?_eq_none (by simp; omega)]

/-! ## The cached transition matrices -/

theorem bind_pure_of_ok {α β : Type} {run : Except Fatal α} {a : α} (F : α → β)
    (h : run = .ok a) : (run >>= fun r => pure (F r)) = .ok (F a) := by
  subst h
  rfl

/-- The branch length `intializeCachingAccumulatedTransMatrices` reads for category `c`,
when `branch_lengths` has a cell for every category (one cell without heterotachy). -/
theorem categoryBranchLength_read (E : Env) (branch_lengths : List ℚ) (C c : Nat)
    (hc : c < C)
    (hbl : if E.rate.isHeterotachy = true then C ≤ branch_lengths.length
      else 1 ≤ branch_lengths.length) :
    (E.rate.isHeterotachy = true →
        readAt "branch_lengths" branch_lengths (c : Int)
          = .ok (categoryBranchLength E branch_lengths c))
      ∧ (¬ E.rate.isHeterotachy = true →
        readAt "branch_lengths" branch_lengths 0
          = .ok (categoryBranchLength E branch_lengths c)) := by
  unfold categoryBranchLength
  constructor
  · intro hh
    rw [if_pos hh] at hbl
    rw [if_pos hh, readAt_ok_iff]
    have hlt : c < branch_lengths.length := by omega
    simp [List.getD_eq_getElem?_getD, List.getElem?_eq_getElem hlt]
  · intro hh
    rw [if_neg hh] at hbl
    rw [if_neg hh, readAt_ok_iff]
    have hlt : 0 < branch_lengths.length := by omega
    simp [List.getD_eq_getElem?_getD, List.getElem?_eq_getElem hlt]

/-- The table `intializeCachingAccumulatedTransMatrices` builds is the accumulated form of
a raw table in which block `(m, c)`, when it is filled, holds the transition matrix of
component `m` for the time of category `c`. -/
theorem intializeCachingAccumulatedTransMatrices_cells (E : Env) (model : ModelSubst)
    (cache0 : List ℚ) (M C S : Nat) (branch_lengths : List ℚ)
    (hS : E.max_num_states = (S : Int)) (hlen : cache0.length = M * C * (S * S))
    (hbl : if E.rate.isHeterotachy = true then C ≤ branch_lengths.length
      else 1 ≤ branch_lengths.length) :
    ∃ raw, intializeCachingAccumulatedTransMatrices E cache0 M C branch_lengths model
        = .ok (convertProMatrixIntoAccumulatedProMatrix raw (M * C * S) S)
      ∧ raw.length = cache0.length
      ∧ ∀ m c t, m < M → c < C → ((model.isMixture && model.isFused) = true → m = c) →
          t < S * S →
          raw[(m * C + c) * (S * S) + t]?
            = some (model.computeTransMatrix (categoryTime E branch_lengths c) m t) := by
  unfold intializeCachingAccumulatedTransMatrices
  have e1 : ((M : Int) * (C : Int) * (S : Int)).toNat = M * C * S := by
    rw [← Nat.cast_mul, ← Nat.cast_mul, Int.toNat_ofNat]
  have e2 : ((S : Int) * (S : Int)).toNat = S * S := by
    rw [← Nat.cast_mul, Int.toNat_ofNat]
  simp only [hS, e1, e2, Int.toNat_ofNat]
  refine (forLoop_fill_blocks M C (S * S)
    (fun m c => (model.isMixture && model.isFused) = true → m = c)
    (fun m c t => model.computeTransMatrix (categoryTime E branch_lengths c) m t)
    _ ?_ cache0 hlen).imp (fun raw h => ⟨bind_pure_of_ok _ h.1, h.2.1, h.2.2⟩)
  intro m c hm hc cache hl
  by_cases hskip : ((model.isMixture && model.isFused) && m != c) = true
  · rw [if_pos hskip]
    refine ⟨cache, rfl, rfl, ?_, fun _ _ => rfl⟩
    intro hf
    simp only [Bool.and_eq_true, bne_iff_ne, ne_eq] at hskip
    exact absurd (hf (by simpa using hskip.1)) hskip.2
  · rw [if_neg hskip]
    have hblock : (m * C + c) * (S * S) + S * S ≤ cache.length := by
      have h1 := block_number_lt m c M C hm hc
      have h2 : (m * C + c + 1) * (S * S) ≤ M * C * (S * S) := Nat.mul_le_mul_right _ h1
      have h3 : (m * C + c + 1) * (S * S) = (m * C + c) * (S * S) + S * S := by ring
      omega
    have hidx : ∀ t : Nat, ((m : Int) * (C : Int) * (S : Int) * (S : Int)
        + (c : Int) * (S : Int) * (S : Int) + (t : Int))
          = (((m * C + c) * (S * S) + t : Nat) : Int) := by
      intro t
      push_cast
      ring
    have hread := categoryBranchLength_read E branch_lengths C c hc hbl
    by_cases hh : E.rate.isHeterotachy = true
    · rw [if_pos hh, hread.1 hh]
      simp only [bind, Except.bind]
      refine (forLoop_fill_block
        (fun t => model.computeTransMatrix (categoryTime E branch_lengths c) m t)
        ((m * C + c) * (S * S)) (S * S) _ ?_ cache hblock).imp
        (fun out h => ⟨h.1, h.2.1, fun _ => h.2.2.1, h.2.2.2⟩)
      intro t ht cache2 hl2
      rw [hidx, writeAt_nat _ _ _ _ (by omega)]
      rfl
    · rw [if_neg hh, hread.2 hh]
      simp only [bind, Except.bind]
      refine (forLoop_fill_block
        (fun t => model.computeTransMatrix (categoryTime E branch_lengths c) m t)
        ((m * C + c) * (S * S)) (S * S) _ ?_ cache hblock).imp
        (fun out h => ⟨h.1, h.2.1, fun _ => h.2.2.1, h.2.2.2⟩)
      intro t ht cache2 hl2
      rw [hidx, writeAt_nat _ _ _ _ (by omega)]
      rfl

/-! ## The cached substitution rates -/

/-- The table `cacheSubRates` builds: block `(m, c)`, when it is filled, holds the
substitution rates of component `m` times the multiplier of category `c`. -/
theorem cacheSubRates_cells (E : Env) (M C S : Nat) (hS : E.max_num_states = (S : Int))
    (hsub : M * S ≤ E.sub_rates.length) :
    ∃ cache, cacheSubRates E M C = .ok cache
      ∧ ∀ m c st, m < M → c < C → ((E.model.isMixture && E.model.isFused) = true → m = c) →
          st < S →
          cache[(m * C + c) * S + st]?
            = some (Double.value
                (E.sub_rates.getD (m * S + st) 0 * categoryMultiplier E c)) := by
  unfold cacheSubRates
  have e1 : ((M : Int) * (C : Int) * (S : Int)).toNat = M * C * S := by
    rw [← Nat.cast_mul, ← Nat.cast_mul, Int.toNat_ofNat]
  simp only [hS, Int.toNat_ofNat]
  refine (forLoop_fill_blocks M C S
    (fun m c => (E.model.isMixture && E.model.isFused) = true → m = c)
    (fun m c st => Double.value (E.sub_rates.getD (m * S + st) 0 * categoryMultiplier E c))
    _ ?_ (List.replicate ((M : Int) * (C : Int) * (S : Int)).toNat Double.indeterminate)
    (by rw [List.length_replicate, e1])).imp (fun out h => ⟨h.1, h.2.2⟩)
  intro m c hm hc cache hl
  by_cases hskip : ((E.model.isMixture && E.model.isFused) && m != c) = true
  · rw [if_pos hskip]
    refine ⟨cache, rfl, rfl, ?_, fun _ _ => rfl⟩
    intro hf
    simp only [Bool.and_eq_true, bne_iff_ne, ne_eq] at hskip
    exact absurd (hf (by simpa using hskip.1)) hskip.2
  · rw [if_neg hskip]
    have hblock : (m * C + c) * S + S ≤ cache.length := by
      have h1 := block_number_lt m c M C hm hc
      have h2 : (m * C + c + 1) * S ≤ M * C * S := Nat.mul_le_mul_right _ h1
      have h3 : (m * C + c + 1) * S = (m * C + c) * S + S := by ring
      omega
    refine (forLoop_fill_block
      (fun st => Double.value (E.sub_rates.getD (m * S + st) 0 * categoryMultiplier E c))
      ((m * C + c) * S) S _ ?_ cache hblock).imp
      (fun out h => ⟨h.1, h.2.1, fun _ => h.2.2.1, h.2.2.2⟩)
    intro st hst cache2 hl2
    have hrow : m * S + st < E.sub_rates.length := by
      have := block_cell_lt m M S st hm hst
      omega
    have hidx : ((m : Int) * (C : Int) * (S : Int) + (c : Int) * (S : Int) + (st : Int))
        = (((m * C + c) * S + st : Nat) : Int) := by
      push_cast
      ring
    have hridx : ((m : Int) * (S : Int) + (st : Int)) = ((m * S + st : Nat) : Int) := by
      push_cast
      ring
    rw [hidx, hridx, readAt_nat _ _ _ hrow]
    simp only [bind, Except.bind]
    rw [writeAt_nat _ _ _ _ (by omega)]
    simp [categoryMultiplier, List.getD_eq_getElem?_getD, List.getElem?_eq_getElem hrow]

/-- The same for a cell given by integers inside the table. -/
theorem cacheSubRates_cell (E : Env) (M C : Int) (cache : List Double)
    (hcache : cacheSubRates E M C = .ok cache)
    (hsub : M * E.max_num_states ≤ (E.sub_rates.length : Int))
    (m c st : Int) (hm0 : 0 ≤ m) (hm : m < M) (hc0 : 0 ≤ c) (hc : c < C) (hs0 : 0 ≤ st)
    (hs : st < E.max_num_states)
    (hfilled : (E.model.isMixture && E.model.isFused) = true → m = c) :
    cache[(m * C * E.max_num_states + c * E.max_num_states + st).toNat]?
      = some (Double.value (E.sub_rates.getD (m * E.max_num_states + st).toNat 0
          * categoryMultiplier E c)) := by
  obtain ⟨M', rfl⟩ := Int.eq_ofNat_of_zero_le (by omega : 0 ≤ M)
  obtain ⟨C', rfl⟩ := Int.eq_ofNat_of_zero_le (by omega : 0 ≤ C)
  obtain ⟨S', hS⟩ := Int.eq_ofNat_of_zero_le (by omega : 0 ≤ E.max_num_states)
  obtain ⟨m', rfl⟩ := Int.eq_ofNat_of_zero_le hm0
  obtain ⟨c', rfl⟩ := Int.eq_ofNat_of_zero_le hc0
  obtain ⟨st', rfl⟩ := Int.eq_ofNat_of_zero_le hs0
  rw [hS] at hsub hs ⊢
  obtain ⟨out, hout, hcells⟩ := cacheSubRates_cells E M' C' S' hS
    (by exact_mod_cast hsub)
  rw [hcache] at hout
  cases hout
  have hidx : ((m' : Int) * (C' : Int) * (S' : Int) + (c' : Int) * (S' : Int) + (st' : Int))
      = (((m' * C' + c') * S' + st' : Nat) : Int) := by
    push_cast
    ring
  have hridx : ((m' : Int) * (S' : Int) + (st' : Int)) = ((m' * S' + st' : Nat) : Int) := by
    push_cast
    ring
  rw [hidx, hridx, Int.toNat_ofNat, Int.toNat_ofNat]
  exact hcells m' c' st' (by omega) (by omega)
    (fun hf => by exact_mod_cast hfilled hf) (by omega)

theorem siteSubRate_active (E : Env) (sequence : List Int) (s : Sim) (i : Nat)
    (state model_index : Int) (rate : ℚ) (hst : sequence[i]? = some state)
    (hne : state ≠ E.STATE_UNKNOWN) (hr : s.site_specific_rates[i]? = some rate)
    (hr0 : rate ≠ 0) (hm : s.site_specific_model_index[i]? = some model_index) :
    siteSubRate E sequence s i
      = E.sub_rates.getD (model_index * E.max_num_states + state).toNat 0 * rate := by
  simp [siteSubRate, List.getD_eq_getElem?_getD, hst, hr, hm, hne, hr0]

theorem siteSubRate_inactive (E : Env) (sequence : List Int) (s : Sim) (i : Nat)
    (h : siteIsActive E sequence s i = .ok false) : siteSubRate E sequence s i = 0 := by
  rcases siteIsActive_false_state E sequence s i h with hst | hr
  · simp [siteSubRate, List.getD_eq_getElem?_getD, hst]
  · simp [siteSubRate, List.getD_eq_getElem?_getD, hr]

/-- A loop whose iteration `k` stores `f k` in cell `k` of one component of its state:
afterwards the first `n` cells of that component hold the values. -/
theorem forLoop_values {σ α : Type} (proj : σ → List α) (f : Nat → α) (n : Nat)
    (body : Nat → σ → Except Fatal σ) (init : σ)
    (hstep : ∀ k, k < n → ∀ a b, body k a = .ok b →
      k < (proj a).length ∧ proj b = (proj a).set k (f k)) :
    ∀ out, forLoop n body init = .ok out →
      (proj out).length = (proj init).length ∧ ∀ j, j < n → (proj out)[j]? = some (f j) := by
  intro out h
  have key := forLoop_invariant
    (fun k (a : σ) => (proj a).length = (proj init).length
      ∧ ∀ j, j < k → (proj a)[j]? = some (f j))
    n body init ⟨rfl, fun j hj => absurd hj (Nat.not_lt_zero j)⟩ ?_ out h
  · exact key
  · rintro k hk a b ⟨hl, hv⟩ hb
    obtain ⟨hka, hset⟩ := hstep k hk a b hb
    rw [hset]
    refine ⟨by simpa using hl, ?_⟩
    intro j hj
    by_cases hjk : j = k
    · subst hjk
      rw [List.getElem?_set_self hka]
    · rw [List.getElem?_set_ne (Ne.symm hjk)]
      exact hv j (by omega)

theorem eq_map_range_of_getElem? {α : Type} (xs : List α) (f : Nat → α) (n : Nat)
    (hl : xs.length = n)
    (h : ∀ j, j < n → xs[j]? = some (f j)) : xs = (List.range n).map f := by
  apply List.ext_getElem?
  intro j
  by_cases hj : j < n
  · rw [h j hj]
    simp [hj]
  · rw [List.getElem?_eq_none (by omega), List.getElem?_eq_none (by simp; omega)]

/-- An iteration of the uncached loop stores the substitution rate of the site. -/
theorem uncachedSiteStep_value (E : Env) (sequence : List Int) (s : Sim) (k : Nat)
    (a b : Double × List Double × Int) (h : uncachedSiteStep E sequence s k a = .ok b) :
    k < a.2.1.length ∧ b.2.1 = a.2.1.set k (Double.value (siteSubRate E sequence s k)) := by
  obtain ⟨total, by_site, gaps⟩ := a
  obtain ⟨total2, by_site2, gaps2⟩ := b
  unfold uncachedSiteStep at h
  rw [bind_ok_iff] at h
  obtain ⟨active, hact, h⟩ := h
  cases active with
  | true =>
    obtain ⟨state, rate, hst, hne, hrate, hr0⟩ := (siteIsActive_true_iff E sequence s k).mp hact
    simp only [if_true, bind_ok_iff, readAt_ok_iff, writeAt_ok_iff, pure_ok_iff,
      Prod.mk.injEq, Int.toNat_ofNat] at h
    obtain ⟨m, ⟨_, hm⟩, state2, ⟨_, hst2⟩, sr, ⟨_, hsr⟩, rate2, ⟨_, hrate2⟩, bs, ⟨_, hk, rfl⟩,
      v, _, rfl, rfl, rfl⟩ := h
    rw [hst] at hst2
    rw [hrate] at hrate2
    cases hst2
    cases hrate2
    refine ⟨hk, ?_⟩
    rw [siteSubRate_active E sequence s k state m rate hst hne hrate hr0 hm]
    simp [List.getD_eq_getElem?_getD, hsr]
  | false =>
    simp only [Bool.false_eq_true, if_false, bind_ok_iff, readAt_ok_iff, writeAt_ok_iff,
      pure_ok_iff, Prod.mk.injEq, Int.toNat_ofNat] at h
    obtain ⟨bs, ⟨_, hk, rfl⟩, state, _, v, _, rfl, rfl, rfl⟩ := h
    exact ⟨hk, by rw [siteSubRate_inactive E sequence s k hact, Double.zero_eq]⟩

/-- An iteration of the cached loop stores the substitution rate of the site, when the
site's cell of the table was filled and its rate is the multiplier of its category. -/
theorem cachedSiteStep_value (E : Env) (sequence : List Int) (s : Sim)
    (hin : RateInputsInRange E sequence s) (hcaching : subRateCaching E s = true)
    (hsite : SitesInFilledCells E sequence s)
    (cache : List Double)
    (hcache : cacheSubRates E (numModels E) (numRateCategories E) = .ok cache)
    (k : Nat) (a b : List Int × List Double × Int)
    (h : cachedSiteStep E cache (numRateCategories E) sequence s k a = .ok b) :
    k < a.2.1.length ∧ b.2.1 = a.2.1.set k (Double.value (siteSubRate E sequence s k)) := by
  obtain ⟨count, by_site, gaps⟩ := a
  obtain ⟨count2, by_site2, gaps2⟩ := b
  unfold cachedSiteStep at h
  rw [bind_ok_iff] at h
  obtain ⟨active, hact, h⟩ := h
  cases active with
  | true =>
    obtain ⟨state, rate, hst, hne, hrate, hr0⟩ := (siteIsActive_true_iff E sequence s k).mp hact
    simp only [if_true, bind_ok_iff, readAt_ok_iff, writeAt_ok_iff, pure_ok_iff,
      Prod.mk.injEq, Int.toNat_ofNat] at h
    obtain ⟨m, ⟨_, hm⟩, ri, ⟨_, hri⟩, state2, ⟨_, hst2⟩, c, _, count3, _, r, ⟨_, hr⟩, bs,
      ⟨_, hk, rfl⟩, rfl, rfl, rfl⟩ := h
    rw [hst] at hst2
    cases hst2
    obtain ⟨hs0, hsS, hm0, hmM, hcat⟩ := hin.site k state m ri rate hst hne hrate hr0 hm hri
    obtain ⟨hc0, hcC⟩ := hcat hcaching
    obtain ⟨hfilled, hmult⟩ := hsite k state m ri rate hst hne hrate hr0 hm hri
    have hcell := cacheSubRates_cell E _ _ cache hcache hin.sub_rates_cover m ri state hm0 hmM
      hc0 hcC hs0 hsS hfilled
    rw [hr] at hcell
    refine ⟨hk, ?_⟩
    rw [siteSubRate_active E sequence s k state m rate hst hne hrate hr0 hm,
      Option.some.inj hcell, hmult]
  | false =>
    simp only [Bool.false_eq_true, if_false, bind_ok_iff, readAt_ok_iff, writeAt_ok_iff,
      pure_ok_iff, Prod.mk.injEq, Int.toNat_ofNat] at h
    obtain ⟨bs, ⟨_, hk, rfl⟩, state, _, rfl, rfl, rfl⟩ := h
    exact ⟨hk, by rw [siteSubRate_inactive E sequence s k hact, Double.zero_eq]⟩

theorem map_value_injective (xs ys : List ℚ)
    (h : xs.map Double.value = ys.map Double.value) : xs = ys := by
  refine List.map_injective_iff.mpr ?_ h
  intro x y hxy
  cases hxy
  rfl

/-- Every cell of the table is written when the model is not a fused mixture. -/
theorem cacheSubRates_written (E : Env) (M C : Int) (hM : 0 ≤ M) (hC : 0 ≤ C)
    (hS : 0 ≤ E.max_num_states) (hsub : M * E.max_num_states ≤ (E.sub_rates.length : Int))
    (hnf : (E.model.isMixture && E.model.isFused) = false)
    (cache : List Double) (hcache : cacheSubRates E M C = .ok cache) :
    ∃ cells : List ℚ, cache = cells.map Double.value := by
  obtain ⟨M', rfl⟩ := Int.eq_ofNat_of_zero_le hM
  obtain ⟨C', rfl⟩ := Int.eq_ofNat_of_zero_le hC
  obtain ⟨S', hS'⟩ := Int.eq_ofNat_of_zero_le hS
  have hlen := cacheSubRates_length E _ _ cache hcache
  rw [hS'] at hsub hlen
  have e1 : ((M' : Int) * (C' : Int) * (S' : Int)).toNat = M' * C' * S' := by
    rw [← Nat.cast_mul, ← Nat.cast_mul, Int.toNat_ofNat]
  rw [e1] at hlen
  obtain ⟨out, hout, hcells⟩ := cacheSubRates_cells E M' C' S' hS' (by exact_mod_cast hsub)
  rw [hcache] at hout
  cases hout
  refine ⟨(List.range (M' * C' * S')).map (fun idx =>
    E.sub_rates.getD (idx / S' / C' * S' + idx % S') 0
      * categoryMultiplier E ((idx / S' % C' : Nat) : Int)), ?_⟩
  rw [List.map_map]
  refine eq_map_range_of_getElem? _ _ _ hlen ?_
  intro idx hidx
  have hSpos : 0 < S' := by
    rcases Nat.eq_zero_or_pos S' with h | h
    · subst h; simp at hidx
    · exact h
  have hCpos : 0 < C' := by
    rcases Nat.eq_zero_or_pos C' with h | h
    · subst h; simp at hidx
    · exact h
  have hb : idx / S' < M' * C' := Nat.div_lt_of_lt_mul (by rw [Nat.mul_comm]; exact hidx)
  have hm : idx / S' / C' < M' := Nat.div_lt_of_lt_mul (by rw [Nat.mul_comm]; exact hb)
  have hc : idx / S' % C' < C' := Nat.mod_lt _ hCpos
  have hst : idx % S' < S' := Nat.mod_lt _ hSpos
  have hdecomp : (idx / S' / C' * C' + idx / S' % C') * S' + idx % S' = idx := by
    rw [Nat.div_add_mod' (idx / S') C', Nat.div_add_mod' idx S']
  have := hcells (idx / S' / C') (idx / S' % C') (idx % S') hm hc
    (fun hf => by rw [hnf] at hf; cases hf) hst
  rw [hdecomp] at this
  rw [this]
  rfl

/-- The result of `initVariables4RateMatrix` on its uncached path, for inputs in range. -/
theorem initVariables4RateMatrix_uncached_result (E : Env) (total0 : ℚ) (gaps0 : Int)
    (by_site0 : List ℚ) (sequence : List Int) (s : Sim)
    (hin : RateInputsInRange E sequence s) (hcaching : subRateCaching E s = false) :
    initVariables4RateMatrix E total0 gaps0 by_site0 sequence s
      = .ok (Double.value ((List.range sequence.length).map (siteSubRate E sequence s)).sum,
          (sequence.count E.STATE_UNKNOWN : Int),
          ((List.range sequence.length).map (siteSubRate E sequence s)).map Double.value) := by
  obtain ⟨⟨total, gaps, by_site⟩, hout⟩ :=
    initVariables4RateMatrix_total E total0 gaps0 by_site0 sequence s hin
  obtain ⟨hlen, hgaps, _⟩ := initVariables4RateMatrix_ok E _ _ _ _ _ _ _ _ hout
  obtain ⟨rates, hrates, htotal⟩ := initVariables4RateMatrix_sum E _ _ _ _ _ _ _ _
    (fun cache hc => by rw [hcaching] at hc; cases hc) hout
  have hvalues : by_site
      = ((List.range sequence.length).map (siteSubRate E sequence s)).map Double.value := by
    have h := hout
    unfold initVariables4RateMatrix at h
    simp only [hcaching, Bool.false_eq_true, if_false, bind_ok_iff, pure_ok_iff,
      Prod.mk.injEq] at h
    obtain ⟨⟨t, bs, g⟩, hloop, _, _, rfl⟩ := h
    have := forLoop_values (fun (st : Double × List Double × Int) => st.2.1)
      (fun k => Double.value (siteSubRate E sequence s k)) sequence.length _ _
      (fun k _ a b hb => uncachedSiteStep_value E sequence s k a b hb) _ hloop
    rw [List.map_map]
    exact eq_map_range_of_getElem? _ _ _ hlen this.2
  rw [hvalues] at hrates
  rw [hout, htotal, hgaps, List.take_length, hvalues, ← map_value_injective _ _ hrates]

/-- The result of `initVariables4RateMatrix` on its cached path, for a model that is not a
fused mixture and inputs in range whose rates are the multipliers of their categories. -/
theorem initVariables4RateMatrix_cached_result (E : Env) (total0 : ℚ) (gaps0 : Int)
    (by_site0 : List ℚ) (sequence : List Int) (s : Sim)
    (hin : RateInputsInRange E sequence s) (hcaching : subRateCaching E s = true)
    (hnf : (E.model.isMixture && E.model.isFused) = false)
    (hM : 0 ≤ numModels E) (hC : 0 ≤ numRateCategories E) (hS : 0 ≤ E.max_num_states)
    (hsite : SitesInFilledCells E sequence s) :
    initVariables4RateMatrix E total0 gaps0 by_site0 sequence s
      = .ok (Double.value ((List.range sequence.length).map (siteSubRate E sequence s)).sum,
          (sequence.count E.STATE_UNKNOWN : Int),
          ((List.range sequence.length).map (siteSubRate E sequence s)).map Double.value) := by
  obtain ⟨⟨total, gaps, by_site⟩, hout⟩ :=
    initVariables4RateMatrix_total E total0 gaps0 by_site0 sequence s hin
  obtain ⟨hlen, hgaps, _⟩ := initVariables4RateMatrix_ok E _ _ _ _ _ _ _ _ hout
  obtain ⟨rates, hrates, htotal⟩ := initVariables4RateMatrix_sum E _ _ _ _ _ _ _ _
    (fun cache _ hc => cacheSubRates_written E _ _ hM hC hS hin.sub_rates_cover hnf cache hc)
    hout
  have hvalues : by_site
      = ((List.range sequence.length).map (siteSubRate E sequence s)).map Double.value := by
    have h := hout
    unfold initVariables4RateMatrix at h
    simp only [hcaching, if_true, bind_ok_iff, pure_ok_iff, Prod.mk.injEq] at h
    obtain ⟨cache, hcache, ⟨count, bs, g⟩, hloop, t, _, _, _, rfl⟩ := h
    have := forLoop_values (fun (st : List Int × List Double × Int) => st.2.1)
      (fun k => Double.value (siteSubRate E sequence s k)) sequence.length _ _
      (fun k _ a b hb => cachedSiteStep_value E sequence s hin hcaching hsite cache hcache
        k a b hb) _ hloop
    rw [List.map_map]
    exact eq_map_range_of_getElem? _ _ _ hlen this.2
  rw [hvalues] at hrates
  rw [hout, htotal, hgaps, List.take_length, hvalues, ← map_value_injective _ _ hrates]

/-- The two paths of `initVariables4RateMatrix` agree when the model is not a fused
mixture: for inputs in range whose rates are the multipliers of their categories, the
cached path returns what the uncached path returns, whether that path is selected by the
continuous Gamma flag or by posterior-mean rates. -/
theorem initVariables4RateMatrix_paths_agree (E : Env) (total0 : ℚ) (gaps0 : Int)
    (by_site0 : List ℚ) (sequence : List Int) (s : Sim)
    (hcaching : subRateCaching E s = true) (hin : RateInputsInRange E sequence s)
    (hnf : (E.model.isMixture && E.model.isFused) = false)
    (hM : 0 ≤ numModels E) (hC : 0 ≤ numRateCategories E) (hS : 0 ≤ E.max_num_states)
    (hsite : SitesInFilledCells E sequence s) :
    initVariables4RateMatrix { E with is_continuous_gamma := true } total0 gaps0 by_site0
          sequence s
        = initVariables4RateMatrix E total0 gaps0 by_site0 sequence s
      ∧ initVariables4RateMatrix E total0 gaps0 by_site0 sequence
            { s with applyPosMeanRate := true }
          = initVariables4RateMatrix E total0 gaps0 by_site0 sequence s := by
  have hcached := initVariables4RateMatrix_cached_result E total0 gaps0 by_site0 sequence s
    hin hcaching hnf hM hC hS hsite
  have hflag : subRateCaching { E with is_continuous_gamma := true } s = false := by
    simp [subRateCaching]
  have hmean : subRateCaching E { s with applyPosMeanRate := true } = false := by
    simp [subRateCaching]
  have hinFlag : RateInputsInRange { E with is_continuous_gamma := true } sequence s :=
    { rates_cover := hin.rates_cover
      models_cover := hin.models_cover
      categories_cover := hin.categories_cover
      sub_rates_cover := hin.sub_rates_cover
      site := fun i state m ri rate h1 h2 h3 h4 h5 h6 =>
        have h := hin.site i state m ri rate h1 h2 h3 h4 h5 h6
        ⟨h.1, h.2.1, h.2.2.1, h.2.2.2.1, fun habs => by rw [hflag] at habs; cases habs⟩ }
  have hinMean : RateInputsInRange E sequence { s with applyPosMeanRate := true } :=
    { rates_cover := hin.rates_cover
      models_cover := hin.models_cover
      categories_cover := hin.categories_cover
      sub_rates_cover := hin.sub_rates_cover
      site := fun i state m ri rate h1 h2 h3 h4 h5 h6 =>
        have h := hin.site i state m ri rate h1 h2 h3 h4 h5 h6
        ⟨h.1, h.2.1, h.2.2.1, h.2.2.2.1, fun habs => by rw [hmean] at habs; cases habs⟩ }
  constructor
  · rw [hcached, initVariables4RateMatrix_uncached_result _ total0 gaps0 by_site0 sequence s
      hinFlag hflag]
    rfl
  · rw [hcached, initVariables4RateMatrix_uncached_result E total0 gaps0 by_site0 sequence _
      hinMean hmean]
    rfl

/-- For a fused mixture with at least two rate categories the first cell of the block
`(0, 1)` of the table is never written. -/
theorem cacheSubRates_unwritten (E : Env) (M C : Int)
    (hf : (E.model.isMixture && E.model.isFused) = true) (hM : 1 ≤ M) (hC : 2 ≤ C)
    (hS : 1 ≤ E.max_num_states) (cache : List Double)
    (h : cacheSubRates E M C = .ok cache) :
    cache[E.max_num_states.toNat]? = some Double.indeterminate := by
  unfold cacheSubRates at h
  have hinit : E.max_num_states.toNat < (M * C * E.max_num_states).toNat := by
    have h1 : 2 * E.max_num_states ≤ M * C * E.max_num_states := by
      have : 2 ≤ M * C := by nlinarith
      nlinarith
    omega
  refine forLoop_preserves
    (fun (xs : List Double) => xs[E.max_num_states.toNat]? = some Double.indeterminate)
    _ _ _ (by simp only []; rw [List.getElem?_replicate, if_pos hinit]) ?_ _ h
  intro m _ a b ha hb
  refine forLoop_preserves
    (fun (xs : List Double) => xs[E.max_num_states.toNat]? = some Double.indeterminate)
    _ _ _ ha ?_ _ hb
  intro c _ a b ha hb
  by_cases hskip : ((E.model.isMixture && E.model.isFused) && m != c) = true
  · rw [if_pos hskip, pure_ok_iff] at hb
    exact hb ▸ ha
  · rw [if_neg hskip] at hb
    have hmc : m = c := by
      by_contra hne
      exact hskip (by simp [hf, hne])
    subst hmc
    refine forLoop_preserves
      (fun (xs : List Double) => xs[E.max_num_states.toNat]? = some Double.indeterminate)
      _ _ _ ha ?_ _ hb
    intro st hst a b ha hb
    simp only [bind_ok_iff, writeAt_ok_iff] at hb
    obtain ⟨_, _, hidx0, _, rfl⟩ := hb
    rw [List.getElem?_set_ne, ha]
    have hst2 : (st : Int) < E.max_num_states := by omega
    rcases Nat.eq_zero_or_pos m with h0 | hpos
    · subst h0
      simp only [Nat.cast_zero, zero_mul, zero_add, Int.toNat_ofNat]
      omega
    · have h1 : (1 : Int) ≤ (m : Int) := by exact_mod_cast hpos
      have h2 : 2 * E.max_num_states ≤ (m : Int) * C * E.max_num_states := by
        have : 2 ≤ (m : Int) * C := by nlinarith
        nlinarith
      have h3 : 0 ≤ (m : Int) * E.max_num_states := by positivity
      omega

/-- Every returning call on the cached path for a fused mixture with at least two rate
categories returns a total that includes a never-written cell. -/
theorem initVariables4RateMatrix_fused_total (E : Env) (total0 : ℚ) (gaps0 : Int)
    (by_site0 : List ℚ) (sequence : List Int) (s : Sim)
    (hcaching : subRateCaching E s = true)
    (hf : (E.model.isMixture && E.model.isFused) = true)
    (hM : 1 ≤ numModels E) (hC : 2 ≤ numRateCategories E) (hS : 1 ≤ E.max_num_states)
    (total : Double) (gaps : Int) (by_site : List Double)
    (h : initVariables4RateMatrix E total0 gaps0 by_site0 sequence s
      = .ok (total, gaps, by_site)) :
    total = Double.indeterminate := by
  unfold initVariables4RateMatrix at h
  simp only [hcaching, if_true, bind_ok_iff, pure_ok_iff, Prod.mk.injEq] at h
  obtain ⟨cache, hcache, ⟨count, bs, g⟩, hloop, t, hsum, rfl, rfl, rfl⟩ := h
  obtain ⟨hT, _⟩ := cachedLoop_ok E cache _ sequence s _ _
    (resize_map_length by_site0 sequence.length) count bs g hloop
  have hcl := cacheSubRates_length E _ _ cache hcache
  have hcell := cacheSubRates_unwritten E _ _ hf hM hC hS cache hcache
  have hlt : E.max_num_states.toNat < cache.length := by
    by_contra hcon
    rw [List.getElem?_eq_none (by omega)] at hcell
    cases hcell
  rw [sumCountedRates_indeterminate _ count cache 0 (by rw [hT])
    (by rw [hcl]) E.max_num_states.toNat (by rw [← hcl]; exact hlt) hcell] at hsum
  cases hsum
  rfl

theorem Example.discrete_inputs_in_range :
    RateInputsInRange Example.discreteEnv [0, 1, 18, 2, 3] Example.discreteSim where
  rates_cover := by decide
  models_cover := by decide
  categories_cover := by decide
  sub_rates_cover := by decide
  site := by
    intro i state model_index rate_index rate hst hne hr hr0 hm hc
    have hi : i < 5 := by
      by_contra hcon
      rw [List.getElem?_eq_none (by simp; omega)] at hst
      cases hst
    have he : ("+G2" : String).isEmpty = false := by decide
    interval_cases i <;>
      simp [Example.discreteSim, Example.sim, Example.discreteEnv, Example.env, numModels,
        numRateCategories, Example.model, Example.rate, he] at * <;>
      omega

theorem Example.discrete_sites_filled :
    SitesInFilledCells Example.discreteEnv [0, 1, 18, 2, 3] Example.discreteSim := by
  intro i state model_index rate_index rate hst hne hr hr0 hm hc
  have hi : i < 5 := by
    by_contra hcon
    rw [List.getElem?_eq_none (by simp; omega)] at hst
    cases hst
  interval_cases i <;>
    simp [Example.discreteSim, Example.sim, Example.discreteEnv, Example.env,
      categoryMultiplier, Example.model, Example.rate] at * <;>
    simp [← hr, ← hc]

/-! ## The claims -/

/-- C1. Lock-step length invariant of `insertNewSequenceForInsertionEvent`: when the
sequence and the three site arrays (model index, rate index, rates) all have length `n`,
then after every call that returns, under every model configuration, all four have length
`n + k` for a new segment of `k` states; and without posterior-mean mode the call does
return for every position `0 ≤ p ≤ n`. -/
theorem insertion_keeps_arrays_in_lock_step (E : Env) (indel_sequence : List Int)
    (position : Int) (new_sequence : List Int) (s : Sim) (n : Nat)
    (hseq : indel_sequence.length = n) (hmodel : s.site_specific_model_index.length = n)
    (hindex : s.site_specific_rate_index.length = n)
    (hrates : s.site_specific_rates.length = n) :
    (∀ indel new_seq t,
      insertNewSequenceForInsertionEvent E indel_sequence position new_sequence s
        = .ok (indel, new_seq, t) →
      indel.length = n + new_sequence.length
        ∧ t.site_specific_model_index.length = n + new_sequence.length
        ∧ t.site_specific_rate_index.length = n + new_sequence.length
        ∧ t.site_specific_rates.length = n + new_sequence.length)
    ∧ (0 ≤ position → position ≤ (n : Int) → E.params.alisim_posterior_mean = false →
      s.applyPosMeanRate = false →
      ∃ out, insertNewSequenceForInsertionEvent E indel_sequence position new_sequence s
        = .ok out) := by
  constructor
  · intro indel new_seq t h
    obtain ⟨fm, fi, fr, s1, s2, _, _, hfm, hfi, hfr, hns, em, ei, er, es, _⟩ :=
      insertNewSequenceForInsertionEvent_spec E indel_sequence position new_sequence s
        indel new_seq t h
    rw [es, em, ei, er]
    simp only [splice_length, hseq, hmodel, hindex, hrates, hfm, hfi, hfr, hns, and_self]
  · intro hp0 hpn hpm happ
    exact insertNewSequenceForInsertionEvent_total E indel_sequence position new_sequence s
      hpm happ hp0 (hseq ▸ hpn) (hmodel ▸ hpn) (hindex ▸ hpn) (hrates ▸ hpn)

theorem insertion_keeps_arrays_in_lock_step_witness :
    [0, 1, 2, 3, 0].length = 5 ∧ Example.sim.site_specific_model_index.length = 5
      ∧ Example.sim.site_specific_rate_index.length = 5
      ∧ Example.sim.site_specific_rates.length = 5
      ∧ insertNewSequenceForInsertionEvent Example.env [0, 1, 2, 3, 0] 2 [1, 1, 1] Example.sim
          = .ok ([0, 1, 1, 1, 1, 2, 3, 0], [1, 1, 1],
              { Example.sim with
                site_specific_model_index := [0, 0, 0, 0, 0, 0, 0, 0],
                site_specific_rate_index := [0, 0, 0, 0, 0, 0, 0, 0],
                site_specific_rates := [1, 1, 1, 1, 1, 1, 1, 1] })
      ∧ ([0, 1, 1, 1, 1, 2, 3, 0].length = 5 + [1, 1, 1].length
        ∧ [0, 0, 0, 0, 0, 0, 0, 0].length = 5 + [1, 1, 1].length
        ∧ [0, 0, 0, 0, 0, 0, 0, 0].length = 5 + [1, 1, 1].length
        ∧ [(1 : ℚ), 1, 1, 1, 1, 1, 1, 1].length = 5 + [1, 1, 1].length)
      ∧ ∃ out, insertNewSequenceForInsertionEvent Example.env [0, 1, 2, 3, 0] 2 [1, 1, 1]
          Example.sim = .ok out :=
  ⟨rfl, rfl, rfl, rfl, rfl,
    (insertion_keeps_arrays_in_lock_step Example.env [0, 1, 2, 3, 0] 2 [1, 1, 1] Example.sim 5
      rfl rfl rfl rfl).1 _ _ _ rfl,
    (insertion_keeps_arrays_in_lock_step Example.env [0, 1, 2, 3, 0] 2 [1, 1, 1] Example.sim 5
      rfl rfl rfl rfl).2 (by decide) (by decide) rfl rfl⟩

/-- C2. Splice frame of `insertNewSequenceForInsertionEvent`: after a call that returns,
each of the model-index, rate-index and rate arrays is
`old[0..p) ++ fresh ++ old[p..n)`, where `p` is the position (inside every array) and the
fresh entries are the `k` values `intializeSiteSpecificModelIndex` and
`getSiteSpecificRates` generate for the new segment: entry `i < p` is unchanged and entry
`i ≥ p` of the old array is found at `i + k`, with the same `p` and `k` for the three
arrays. -/
theorem insertion_splices_site_arrays (E : Env) (indel_sequence : List Int)
    (position : Int) (new_sequence : List Int) (s : Sim) (indel new_seq : List Int) (t : Sim)
    (h : insertNewSequenceForInsertionEvent E indel_sequence position new_sequence s
      = .ok (indel, new_seq, t)) :
    ∃ (fresh_model fresh_rate_index : List Int) (fresh_rates : List ℚ) (s1 s2 : Sim),
      intializeSiteSpecificModelIndex E new_sequence.length [] true s = .ok (fresh_model, s1)
      ∧ getSiteSpecificRates E [] [] fresh_model new_sequence.length true
          { s1 with site_specific_model_index :=
              s.site_specific_model_index.take position.toNat ++ fresh_model
                ++ s.site_specific_model_index.drop position.toNat }
          = .ok (fresh_rate_index, fresh_rates, s2)
      ∧ fresh_model.length = new_sequence.length
      ∧ fresh_rate_index.length = new_sequence.length
      ∧ fresh_rates.length = new_sequence.length
      ∧ 0 ≤ position
      ∧ position.toNat ≤ s.site_specific_model_index.length
      ∧ position.toNat ≤ s.site_specific_rate_index.length
      ∧ position.toNat ≤ s.site_specific_rates.length
      ∧ t.site_specific_model_index
          = s.site_specific_model_index.take position.toNat ++ fresh_model
            ++ s.site_specific_model_index.drop position.toNat
      ∧ t.site_specific_rate_index
          = s.site_specific_rate_index.take position.toNat ++ fresh_rate_index
            ++ s.site_specific_rate_index.drop position.toNat
      ∧ t.site_specific_rates
          = s.site_specific_rates.take position.toNat ++ fresh_rates
            ++ s.site_specific_rates.drop position.toNat
      ∧ (∀ i, i < position.toNat →
          t.site_specific_model_index[i]? = s.site_specific_model_index[i]?
            ∧ t.site_specific_rate_index[i]? = s.site_specific_rate_index[i]?
            ∧ t.site_specific_rates[i]? = s.site_specific_rates[i]?)
      ∧ (∀ i, position.toNat ≤ i →
          t.site_specific_model_index[i + new_sequence.length]?
              = s.site_specific_model_index[i]?
            ∧ t.site_specific_rate_index[i + new_sequence.length]?
              = s.site_specific_rate_index[i]?
            ∧ t.site_specific_rates[i + new_sequence.length]? = s.site_specific_rates[i]?) := by
  obtain ⟨fm, fi, fr, s1, s2, h1, h2, hfm, hfi, hfr, _, em, ei, er, _, hp0, hpm, hpi, hpr, _⟩ :=
    insertNewSequenceForInsertionEvent_spec E indel_sequence position new_sequence s
      indel new_seq t h
  have hm : position.toNat ≤ s.site_specific_model_index.length := by omega
  have hi : position.toNat ≤ s.site_specific_rate_index.length := by omega
  have hr : position.toNat ≤ s.site_specific_rates.length := by omega
  refine ⟨fm, fi, fr, s1, s2, h1, h2, hfm, hfi, hfr, hp0, hm, hi, hr, em, ei, er, ?_, ?_⟩
  · intro i hlt
    rw [em, ei, er]
    exact ⟨splice_getElem?_left _ _ _ _ hm hlt, splice_getElem?_left _ _ _ _ hi hlt,
      splice_getElem?_left _ _ _ _ hr hlt⟩
  · intro i hle
    rw [em, ei, er]
    refine ⟨?_, ?_, ?_⟩
    · rw [← hfm]; exact splice_getElem?_right _ _ _ _ hm hle
    · rw [← hfi]; exact splice_getElem?_right _ _ _ _ hi hle
    · rw [← hfr]; exact splice_getElem?_right _ _ _ _ hr hle

theorem insertion_splices_site_arrays_witness :
    insertNewSequenceForInsertionEvent Example.discreteEnv [0, 1, 2, 3, 0] 2 [1, 1, 1]
        Example.discreteSim
      = .ok ([0, 1, 1, 1, 1, 2, 3, 0], [1, 1, 1], Example.splicedSim)
    ∧ (∀ i, i < 2 →
        Example.splicedSim.site_specific_model_index[i]?
            = Example.discreteSim.site_specific_model_index[i]?
          ∧ Example.splicedSim.site_specific_rate_index[i]?
            = Example.discreteSim.site_specific_rate_index[i]?
          ∧ Example.splicedSim.site_specific_rates[i]?
            = Example.discreteSim.site_specific_rates[i]?)
    ∧ (∀ i, 2 ≤ i →
        Example.splicedSim.site_specific_model_index[i + 3]?
            = Example.discreteSim.site_specific_model_index[i]?
          ∧ Example.splicedSim.site_specific_rate_index[i + 3]?
            = Example.discreteSim.site_specific_rate_index[i]?
          ∧ Example.splicedSim.site_specific_rates[i + 3]?
            = Example.discreteSim.site_specific_rates[i]?) := by
  have hrun : insertNewSequenceForInsertionEvent Example.discreteEnv [0, 1, 2, 3, 0] 2
      [1, 1, 1] Example.discreteSim
      = .ok ([0, 1, 1, 1, 1, 2, 3, 0], [1, 1, 1], Example.splicedSim) := rfl
  obtain ⟨_, _, _, _, _, _, _, _, _, _, _, _, _, _, _, _, _, hleft, hright⟩ :=
    insertion_splices_site_arrays Example.discreteEnv [0, 1, 2, 3, 0] 2 [1, 1, 1]
      Example.discreteSim _ _ _ hrun
  exact ⟨hrun, hleft, hright⟩

/-- C3. Gap propagation in `simulateASequenceFromBranchAfterInitVariables`: for every
parent sequence, every site `i < sequence_length` and every stream of random draws, when
the call returns and the parent state at site `i` is `STATE_UNKNOWN`, the child state at
site `i` is `STATE_UNKNOWN`, and no state sampler was invoked for site `i` during the
call; this holds on the cached path and on the uncached path alike. -/
theorem gap_propagation (E : Env) (model : ModelSubst) (sequence_length : Nat)
    (node_sequence : List Int) (it : Neighbor) (lengths : String) (s : Sim)
    (child : List Int) (t : Sim)
    (h : simulateASequenceFromBranchAfterInitVariables E model sequence_length node_sequence
      it lengths s = .ok (child, t))
    (i : Nat) (hi : i < sequence_length)
    (hgap : node_sequence[i]? = some E.STATE_UNKNOWN) :
    child.length = sequence_length ∧ child[i]? = some E.STATE_UNKNOWN
      ∧ ∃ sampled, t.sampled_sites = s.sampled_sites ++ sampled ∧ i ∉ sampled := by
  obtain ⟨hlen, hg, sampled, hs, hall⟩ :=
    simulate_gap_invariant E model sequence_length node_sequence it lengths s child t h
  exact ⟨hlen, hg i hi hgap, sampled, hs, fun hmem => hall i hmem hgap⟩

theorem gap_propagation_witness :
    (transMatrixCaching Example.env Example.sim = true
      ∧ simulateASequenceFromBranchAfterInitVariables Example.env Example.model 5
          [0, 1, 18, 2, 3] Example.branch "" Example.sim
        = .ok ([0, 1, 18, 2, 3], Example.simulatedSim)
      ∧ ([0, 1, 18, 2, 3] : List Int).length = 5
      ∧ ([0, 1, 18, 2, 3] : List Int)[2]? = some Example.env.STATE_UNKNOWN
      ∧ ∃ sampled, Example.simulatedSim.sampled_sites = Example.sim.sampled_sites ++ sampled
          ∧ 2 ∉ sampled)
    ∧ (transMatrixCaching Example.heterotachyUncachedEnv Example.sim = false
      ∧ simulateASequenceFromBranchAfterInitVariables Example.heterotachyUncachedEnv
          Example.model 5 [0, 1, 18, 2, 3] Example.branch "" Example.sim
        = .ok ([0, 0, 18, 0, 0], Example.simulatedSim)
      ∧ ([0, 0, 18, 0, 0] : List Int).length = 5
      ∧ ([0, 0, 18, 0, 0] : List Int)[2]? = some Example.heterotachyUncachedEnv.STATE_UNKNOWN
      ∧ ∃ sampled, Example.simulatedSim.sampled_sites = Example.sim.sampled_sites ++ sampled
          ∧ 2 ∉ sampled) :=
  ⟨⟨by decide, rfl,
      gap_propagation Example.env Example.model 5 [0, 1, 18, 2, 3] Example.branch ""
        Example.sim [0, 1, 18, 2, 3] Example.simulatedSim rfl 2 (by decide) rfl⟩,
    ⟨by decide, rfl,
      gap_propagation Example.heterotachyUncachedEnv Example.model 5 [0, 1, 18, 2, 3]
        Example.branch "" Example.sim [0, 0, 18, 0, 0] Example.simulatedSim rfl 2 (by decide)
        rfl⟩⟩

/-- C4 (the code at the failing input).  A fused mixture of two components and two rate
categories, cached substitution rates, and the sequence 0, 1, gap, 2, 3 whose sites have
the components and categories 0, 1, 0, 1, 1: the inputs are in range.  `cacheSubRates`
writes the blocks of the cells `(0, 0)` and `(1, 1)` only, the eight cells of the blocks
`(0, 1)` and `(1, 0)` stay as `new double[]` left them.  The site rates returned are
1, 18, 0, 21, 24, all of them read from written cells, and their sum is 64; the total
returned is the sum of source lines 646-647 over all sixteen cells, the never-written ones
included, and is not determined by the inputs. -/
theorem cached_total_reads_unwritten_cells :
    subRateCaching Example.fusedRatesEnv Example.fusedSim = true
    ∧ RateInputsInRange Example.fusedRatesEnv [0, 1, 18, 2, 3] Example.fusedSim
    ∧ cacheSubRates Example.fusedRatesEnv 2 2
        = .ok [1, 2, 3, 4,
            Double.indeterminate, Double.indeterminate, Double.indeterminate,
            Double.indeterminate, Double.indeterminate, Double.indeterminate,
            Double.indeterminate, Double.indeterminate,
            15, 18, 21, 24]
    ∧ initVariables4RateMatrix Example.fusedRatesEnv 0 0 [] [0, 1, 18, 2, 3] Example.fusedSim
        = .ok (Double.indeterminate, 1, [1, 18, 0, 21, 24])
    ∧ siteRateSum [1, 18, 0, 21, 24] = 64 := by
  refine ⟨by decide, ?_, by decide!, by decide!, by decide!⟩
  exact
    { rates_cover := by decide
      models_cover := by decide
      categories_cover := by decide
      sub_rates_cover := by decide
      site := by
        intro i state model_index rate_index rate hst hne hr hr0 hm hc
        have hi : i < 5 := by
          by_contra hcon
          rw [List.getElem?_eq_none (by simp; omega)] at hst
          cases hst
        have he : ("+R2" : String).isEmpty = false := by decide
        interval_cases i <;>
          simp [Example.fusedSim, Example.sim, Example.fusedRatesEnv, Example.fusedEnv,
            Example.env, numModels, numRateCategories, Example.fusedMixture, Example.model,
            Example.rate, he] at * <;>
          omega }

/-- C5. Gap counting and zero contributions in `initVariables4RateMatrix`: whenever the
call returns, on the cached and on the uncached path, the returned `num_gaps` is the
number of positions holding `STATE_UNKNOWN` (sites of rate 0 that are not gaps are not
counted), and `sub_rate_by_site[i]` is 0 for every site that is a gap or whose
`site_specific_rates[i]` is 0; the outcome does not depend on the values `total_sub_rate`,
`num_gaps` and `sub_rate_by_site` held before the call; and the call returns when the
inputs are in range. -/
theorem gap_count_and_zero_rates (E : Env) (total0 : ℚ) (gaps0 : Int) (by_site0 : List ℚ)
    (sequence : List Int) (s : Sim) :
    (∀ total gaps by_site,
      initVariables4RateMatrix E total0 gaps0 by_site0 sequence s
        = .ok (total, gaps, by_site) →
      gaps = (sequence.count E.STATE_UNKNOWN : Int)
        ∧ by_site.length = sequence.length
        ∧ ∀ i, i < sequence.length →
            (sequence[i]? = some E.STATE_UNKNOWN ∨ s.site_specific_rates[i]? = some 0) →
            by_site[i]? = some 0)
    ∧ (∀ total1 gaps1 by_site1,
      initVariables4RateMatrix E total1 gaps1 by_site1 sequence s
        = initVariables4RateMatrix E total0 gaps0 by_site0 sequence s)
    ∧ (RateInputsInRange E sequence s →
      ∃ out, initVariables4RateMatrix E total0 gaps0 by_site0 sequence s = .ok out) := by
  refine ⟨?_, ?_, ?_⟩
  · intro total gaps by_site h
    obtain ⟨hlen, hgaps, hzero⟩ :=
      initVariables4RateMatrix_ok E total0 gaps0 by_site0 sequence s total gaps by_site h
    rw [List.take_length] at hgaps
    exact ⟨hgaps, hlen, hzero⟩
  · intro total1 gaps1 by_site1
    exact initVariables4RateMatrix_prior E total1 total0 gaps1 gaps0 by_site1 by_site0
      sequence s
  · intro hin
    exact initVariables4RateMatrix_total E total0 gaps0 by_site0 sequence s hin

theorem gap_count_and_zero_rates_witness :
    initVariables4RateMatrix Example.env 0 0 [] [0, 18, 2, 18, 3]
        { Example.sim with site_specific_rates := [0, 1, 1, 1, 1] }
      = .ok (7, 2, [0, 0, 3, 0, 4])
    ∧ ((2 : Int) = ([0, 18, 2, 18, 3].count Example.env.STATE_UNKNOWN : Int)
      ∧ [(0 : Double), 0, 3, 0, 4].length = [0, 18, 2, 18, 3].length
      ∧ ∀ i, i < [0, 18, 2, 18, 3].length →
          (([0, 18, 2, 18, 3] : List Int)[i]? = some Example.env.STATE_UNKNOWN
            ∨ ([0, 1, 1, 1, 1] : List ℚ)[i]? = some 0) →
          ([0, 0, 3, 0, 4] : List Double)[i]? = some 0)
    ∧ RateInputsInRange Example.env [0, 1, 18, 2, 3] Example.sim
    ∧ ∃ out, initVariables4RateMatrix Example.env 0 0 [] [0, 1, 18, 2, 3] Example.sim
        = .ok out := by
  have hrun : initVariables4RateMatrix Example.env 0 0 [] [0, 18, 2, 18, 3]
      { Example.sim with site_specific_rates := [0, 1, 1, 1, 1] }
      = .ok (7, 2, [0, 0, 3, 0, 4]) := by decide!
  exact ⟨hrun,
    (gap_count_and_zero_rates Example.env 0 0 [] [0, 18, 2, 18, 3]
      { Example.sim with site_specific_rates := [0, 1, 1, 1, 1] }).1 _ _ _ hrun,
    Example.inputs_in_range,
    (gap_count_and_zero_rates Example.env 0 0 [] [0, 1, 18, 2, 3] Example.sim).2.2
      Example.inputs_in_range⟩

/-- C6 (the code at the failing input).  Two heterotachy categories and the length string
`0.1/0.2/0.3`, which parses to three lengths.  With the transition matrices cached the
call is aborted by `outError`; with the caching threshold below the number of categories
the uncached path is taken, the string is never parsed and the call returns a descendant
sequence. -/
theorem length_mismatch_not_fatal_when_uncached :
    (Example.heterotachyEnv.rate.isHeterotachy = true
      ∧ Example.heterotachyUncachedEnv.rate.isHeterotachy = true
      ∧ numRateCategories Example.heterotachyEnv = 2
      ∧ numRateCategories Example.heterotachyUncachedEnv = 2
      ∧ ∃ parsed, Example.heterotachyUncachedEnv.convert_double_vec_with_distributions
          "0.1/0.2/0.3" '/' = .ok parsed ∧ parsed.length = 3)
    ∧ (transMatrixCaching Example.heterotachyEnv Example.sim = true
      ∧ ∃ msg, simulateASequenceFromBranchAfterInitVariables Example.heterotachyEnv
          Example.model 5 [0, 1, 18, 2, 3] Example.branch "0.1/0.2/0.3" Example.sim
        = .error (.outError msg))
    ∧ (transMatrixCaching Example.heterotachyUncachedEnv Example.sim = false
      ∧ simulateASequenceFromBranchAfterInitVariables Example.heterotachyUncachedEnv
          Example.model 5 [0, 1, 18, 2, 3] Example.branch "0.1/0.2/0.3" Example.sim
        = .ok ([0, 0, 18, 0, 0], Example.simulatedSim)) :=
  ⟨⟨rfl, rfl, by decide, by decide, _, rfl, by decide⟩,
    ⟨by decide,
      simulate_cached_length_mismatch Example.heterotachyEnv Example.model 5 [0, 1, 18, 2, 3]
        Example.branch "0.1/0.2/0.3" Example.sim (by decide) rfl (by decide) _ rfl
        (by decide)⟩,
    ⟨by decide, rfl⟩⟩

/-- C7. No mixture, no rate heterogeneity: for every length `n`, either value of the
insertion flag and any prior contents of the output vectors, when the model is not a
mixture `intializeSiteSpecificModelIndex` returns exactly `n` entries all equal to 0, and
when the rate name is empty (and the model is not a fused mixture, which holds in
particular when it is not a mixture) `getSiteSpecificRates` returns exactly `n` rate values
all equal to 1 and `n` rate indices all equal to `RATE_ONE_INDEX`.  Both return the
simulator unchanged, so neither consumes a random draw. -/
theorem no_mixture_no_rate_heterogeneity (E : Env) (n : Nat) (insertion_event : Bool)
    (model_index0 rate_index0 : List Int) (rates0 : List ℚ) (s : Sim) :
    (E.model.isMixture = false →
      intializeSiteSpecificModelIndex E n model_index0 insertion_event s
        = .ok (List.replicate n 0, s)) ∧
    (E.getRateName.isEmpty = true → (E.model.isMixture && E.model.isFused) = false →
      ∀ model_index : List Int,
        getSiteSpecificRates E rate_index0 rates0 model_index n insertion_event s
          = .ok (List.replicate n E.RATE_ONE_INDEX, List.replicate n 1, s)) :=
  ⟨fun hmix => intializeSiteSpecificModelIndex_no_mixture E n insertion_event model_index0 s hmix,
    fun hrate hfused model_index => getSiteSpecificRates_no_heterogeneity E n insertion_event
      rate_index0 rates0 model_index s hrate hfused⟩

theorem no_mixture_no_rate_heterogeneity_witness :
    Example.env.model.isMixture = false ∧ Example.env.getRateName.isEmpty = true
      ∧ (Example.env.model.isMixture && Example.env.model.isFused) = false
      ∧ intializeSiteSpecificModelIndex Example.env 5 [7, 7] false Example.sim
          = .ok ([0, 0, 0, 0, 0], Example.sim)
      ∧ getSiteSpecificRates Example.env [7] [9, 9] [0, 0, 0, 0, 0] 5 true Example.sim
          = .ok ([0, 0, 0, 0, 0], [1, 1, 1, 1, 1], Example.sim) :=
  ⟨rfl, by decide, rfl,
    (no_mixture_no_rate_heterogeneity Example.env 5 false [7, 7] [7] [9, 9] Example.sim).1 rfl,
    (no_mixture_no_rate_heterogeneity Example.env 5 true [7, 7] [7] [9, 9] Example.sim).2
      (by decide) rfl [0, 0, 0, 0, 0]⟩

/-- C8. Fused mixture rate assignment: when the model is a mixture and is fused, for every
length `n` and every model-index array with at least `n` entries, `getSiteSpecificRates`
returns, and it draws exactly one uniform deviate per site (site `i` uses deviate
`rng + i` and the stream ends at `rng + n`); for each site `i` it sets rate index
`RATE_ZERO_INDEX` and rate 0 when the deviate is at most `getPInvar`, and otherwise rate
index = model index of site `i` and rate = `getRate` of that index.  Nothing is assumed
about the rate name, the continuous Gamma flag or `applyPosMeanRate`: the fused policy
comes first. -/
theorem fused_mixture_rate_assignment (E : Env) (hmix : E.model.isMixture = true)
    (hfused : E.model.isFused = true) (rate_index0 : List Int) (rates0 : List ℚ)
    (model_index : List Int) (n : Nat) (insertion_event : Bool) (s : Sim)
    (hlen : n ≤ model_index.length) :
    ∃ idx rates,
      getSiteSpecificRates E rate_index0 rates0 model_index n insertion_event s
        = .ok (idx, rates, { s with rng := s.rng + n })
      ∧ idx.length = n ∧ rates.length = n
      ∧ ∀ i, i < n →
        (E.random_double (s.rng + i) ≤ E.rate.getPInvar →
          idx[i]? = some E.RATE_ZERO_INDEX ∧ rates[i]? = some 0)
        ∧ (¬ E.random_double (s.rng + i) ≤ E.rate.getPInvar →
          idx[i]? = model_index[i]? ∧ rates[i]? = (model_index[i]?).map E.rate.getRate) := by
  refine ⟨_, _, getSiteSpecificRates_fused_eq E hmix hfused rate_index0 rates0 model_index n
    insertion_event s hlen, by simp, by simp, ?_⟩
  intro i hi
  have him : i < model_index.length := by omega
  constructor
  · intro hu
    simp [hi, hu]
  · intro hu
    simp [hi, hu, List.getD_eq_getElem?_getD, List.getElem?_eq_getElem him]

theorem fused_mixture_rate_assignment_witness :
    Example.fusedEnv.model.isMixture = true ∧ Example.fusedEnv.model.isFused = true
      ∧ 3 ≤ [1, 0, 1].length
      ∧ ∃ idx rates,
        getSiteSpecificRates Example.fusedEnv [] [] [1, 0, 1] 3 false Example.sim
          = .ok (idx, rates, { Example.sim with rng := Example.sim.rng + 3 })
        ∧ idx.length = 3 ∧ rates.length = 3
        ∧ ∀ i, i < 3 →
          (Example.fusedEnv.random_double (Example.sim.rng + i)
              ≤ Example.fusedEnv.rate.getPInvar →
            idx[i]? = some Example.fusedEnv.RATE_ZERO_INDEX ∧ rates[i]? = some 0)
          ∧ (¬ Example.fusedEnv.random_double (Example.sim.rng + i)
              ≤ Example.fusedEnv.rate.getPInvar →
            idx[i]? = [1, 0, 1][i]?
              ∧ rates[i]? = ([1, 0, 1][i]?).map Example.fusedEnv.rate.getRate) :=
  ⟨rfl, rfl, by decide,
    fused_mixture_rate_assignment Example.fusedEnv rfl rfl [] [] [1, 0, 1] 3 false Example.sim
      (by decide)⟩

/-- C9. Discrete plain rate assignment: for every length `n` (the two vectors having at
least `n` cells, as after the resize of the caller) and whatever the category sampler
returns, `getSiteSpecificRatesDiscrete` returns after one sampler call per site, and for
each site `i` it sets rate index `RATE_ZERO_INDEX` and rate 0 when the sampler returns
-1, and rate index `c` and rate `getRate(c)` when it returns a category `c`; so every
site has rate `getRate` of its rate index, or rate 0 with the zero-rate index. -/
theorem discrete_rate_assignment (E : Env) (rate_index0 : List Int) (rates0 : List ℚ)
    (n : Nat) (s : Sim) (hi : n ≤ rate_index0.length) (hr : n ≤ rates0.length) :
    ∃ idx rates,
      getSiteSpecificRatesDiscrete E rate_index0 rates0 n s
        = .ok (idx, rates, { s with rng := s.rng + n })
      ∧ ∀ i, i < n →
        (sampledRateCategory E (s.rng + i) = -1 →
          idx[i]? = some E.RATE_ZERO_INDEX ∧ rates[i]? = some 0)
        ∧ (sampledRateCategory E (s.rng + i) ≠ -1 →
          idx[i]? = some (sampledRateCategory E (s.rng + i))
            ∧ rates[i]? = some (E.rate.getRate (sampledRateCategory E (s.rng + i))))
        ∧ ∃ c r, idx[i]? = some c ∧ rates[i]? = some r
            ∧ ((c = E.RATE_ZERO_INDEX ∧ r = 0) ∨ r = E.rate.getRate c) := by
  refine ⟨_, _, getSiteSpecificRatesDiscrete_eq E rate_index0 rates0 n s hi hr, ?_⟩
  intro i hin
  rw [getElem?_range_map_append _ _ n i hin, getElem?_range_map_append _ _ n i hin]
  by_cases hc : sampledRateCategory E (s.rng + i) = -1
  · simp [hc]
  · simp [hc]

theorem discrete_rate_assignment_witness :
    3 ≤ [0, 0, 0].length ∧ 3 ≤ [(1 : ℚ), 1, 1].length
      ∧ ∃ idx rates,
        getSiteSpecificRatesDiscrete Example.discreteEnv [0, 0, 0] [1, 1, 1] 3 Example.sim
          = .ok (idx, rates, { Example.sim with rng := Example.sim.rng + 3 })
        ∧ ∀ i, i < 3 →
          (sampledRateCategory Example.discreteEnv (Example.sim.rng + i) = -1 →
            idx[i]? = some Example.discreteEnv.RATE_ZERO_INDEX ∧ rates[i]? = some 0)
          ∧ (sampledRateCategory Example.discreteEnv (Example.sim.rng + i) ≠ -1 →
            idx[i]? = some (sampledRateCategory Example.discreteEnv (Example.sim.rng + i))
              ∧ rates[i]? = some (Example.discreteEnv.rate.getRate
                  (sampledRateCategory Example.discreteEnv (Example.sim.rng + i))))
          ∧ ∃ c r, idx[i]? = some c ∧ rates[i]? = some r
              ∧ ((c = Example.discreteEnv.RATE_ZERO_INDEX ∧ r = 0)
                ∨ r = Example.discreteEnv.rate.getRate c) :=
  ⟨by decide, by decide,
    discrete_rate_assignment Example.discreteEnv [0, 0, 0] [1, 1, 1] 3 Example.sim
      (by decide) (by decide)⟩

/-- C10. Posterior-mean eligibility gate: `canApplyPosteriorMeanRate` is a total function
(it has no fatal outcome) and returns true if and only if an empirical alignment was
supplied (inference mode), the model is not a fused mixture, the rate name is not empty,
and not both `+G` occurs in the rate name and the continuous Gamma flag is set; it prints
exactly one warning when it returns false and none when it returns true. -/
theorem posterior_mean_gate (E : Env) :
    ((canApplyPosteriorMeanRate E).1 = true
      ↔ E.params.alisim_inference_mode = true
        ∧ ¬ (E.model.isMixture = true ∧ E.model.isFused = true)
        ∧ E.getRateName ≠ ""
        ∧ ¬ ("+G".toList <:+: E.getRateName.toList ∧ E.is_continuous_gamma = true))
    ∧ ((canApplyPosteriorMeanRate E).1 = false ↔ (canApplyPosteriorMeanRate E).2.length = 1)
    ∧ ((canApplyPosteriorMeanRate E).1 = true ↔ (canApplyPosteriorMeanRate E).2 = []) := by
  rw [← isContinuousGamma_iff, ← Bool.and_eq_true, Ne, ← String.isEmpty_iff]
  unfold canApplyPosteriorMeanRate
  cases E.params.alisim_inference_mode <;> cases (E.model.isMixture && E.model.isFused) <;>
    cases E.getRateName.isEmpty <;> cases isContinuousGamma E <;> simp

/-- C11, counterexample.  Posterior-mean mode is requested and `canApplyPosteriorMeanRate`
returns false in both configurations.  For the mixture without an input alignment the
model-index assignment asks the engine for the pattern posteriors and `initVariables` ends
in the fatal error of the engine.  For the fused mixture with an input alignment
`initVariables` returns, having built the pattern-posterior tables from the engine's data;
with a failing engine the same call is fatal. -/
theorem mixture_requests_pattern_posteriors :
    (Example.mixtureNoAlignmentEnv.params.alisim_posterior_mean = true
      ∧ (canApplyPosteriorMeanRate Example.mixtureNoAlignmentEnv).1 = false
      ∧ initVariables Example.mixtureNoAlignmentEnv 5 false Example.sim
          = .error (.engine "no alignment"))
    ∧ (Example.fusedPosteriorEnv.params.alisim_posterior_mean = true
      ∧ (canApplyPosteriorMeanRate Example.fusedPosteriorEnv).1 = false
      ∧ initVariables Example.fusedPosteriorEnv 5 false Example.sim
          = .ok Example.fusedPosteriorSim
      ∧ Example.sim.ptn_model_dis = none
      ∧ Example.fusedPosteriorSim.ptn_model_dis = some [1, 2]
      ∧ initVariables
            { Example.fusedPosteriorEnv with
              computePatternStateFreq := fun _ => .error (.engine "no alignment") }
            5 false Example.sim
          = .error (.engine "no alignment")) := by
  refine ⟨⟨rfl, by decide, by decide!⟩, rfl, by decide, by decide!, rfl, rfl, by decide!⟩

/-- C11, amended.  When posterior-mean mode is requested and `canApplyPosteriorMeanRate`
returns false, `initVariables` assigns the rates exactly as with posterior-mean mode off:
the call is the program that sets `applyPosMeanRate` to false and records the warning of
the gate, runs the model-index assignment and the root regeneration as configured, and
then runs `getSiteSpecificRates` with posterior-mean mode off on the state reached; a
returning call leaves `applyPosMeanRate` false.  When moreover the model is not a mixture,
`initVariables` completes without a fatal error whatever the engine does, without asking
it for pattern posteriors, and its result is the result with posterior-mean mode off and
`applyPosMeanRate` false, plus the warning of the gate. -/
theorem posterior_mean_fallback (E : Env) (n : Nat) (regenerate_root_sequence : Bool)
    (s : Sim) (hpm : E.params.alisim_posterior_mean = true)
    (hgate : (canApplyPosteriorMeanRate E).1 = false) :
    initVariables E n regenerate_root_sequence s
        = (do
          let (model_index, s1) ← intializeSiteSpecificModelIndex E n
            s.site_specific_model_index false
            { s with applyPosMeanRate := false,
                     warnings := s.warnings ++ (canApplyPosteriorMeanRate E).2 }
          let s2 ← regenerateRootSequence E regenerate_root_sequence
            { s1 with site_specific_model_index := model_index }
          let (rate_index, rates, s3) ← getSiteSpecificRates (withoutPosteriorMean E)
            s2.site_specific_rate_index s2.site_specific_rates s2.site_specific_model_index
            n false s2
          pure { s3 with site_specific_rate_index := rate_index,
                         site_specific_rates := rates })
    ∧ (∀ t, initVariables E n regenerate_root_sequence s = .ok t →
        t.applyPosMeanRate = false)
    ∧ (E.model.isMixture = false →
        ∃ u, initVariables (withoutPosteriorMean E) n regenerate_root_sequence
              { s with applyPosMeanRate := false } = .ok u
          ∧ ∀ engine : SiteFreqType → Except Fatal (Nat → ℚ),
              initVariables { E with computePatternStateFreq := engine } n
                  regenerate_root_sequence s
                = .ok { u with warnings := s.warnings ++ (canApplyPosteriorMeanRate E).2 }) := by
  refine ⟨?_, ?_, ?_⟩
  · unfold initVariables
    simp only [hpm, hgate, if_true]
    refine bind_congr_ok ?_
    rintro ⟨mi, s1⟩ h1
    simp only []
    refine bind_congr_ok ?_
    intro s2 h2
    have g1 := intializeSiteSpecificModelIndex_gate E _ _ _ _ _ _ h1
    have g2 := regenerateRootSequence_gate E _ _ _ h2
    simp only [] at g1 g2
    rw [getSiteSpecificRates_without_posterior_mean E _ _ _ _ _ s2 (g2.1.trans g1)]
  · intro t h
    unfold initVariables at h
    simp only [hpm, hgate, if_true, bind_ok_iff, pure_ok_iff] at h
    obtain ⟨⟨mi, s1⟩, hinit, s2, hroot, ⟨ri, rates, s3⟩, hrates, rfl⟩ := h
    have g1 := intializeSiteSpecificModelIndex_gate E _ _ _ _ _ _ hinit
    have g2 := regenerateRootSequence_gate E _ _ _ hroot
    simp only [] at g1 g2 hrates
    exact (getSiteSpecificRates_warnings E _ _ _ _ _ s2 [] (g2.1.trans g1) _ hrates).2
  · intro hmix
    cases s with
    | mk a1 a2 a3 a4 a5 a6 a7 a8 a9 a10 a11 a12 a13 a14 =>
    have hmix' : (withoutPosteriorMean E).model.isMixture = false := hmix
    obtain ⟨out, hout⟩ := getSiteSpecificRates_total (withoutPosteriorMean E)
      a2 a3 (List.replicate n 0) n false
      (Sim.mk (List.replicate n 0) a2 a3 false a5 a6 a7 a8 a9 a10 a11 a12 a13 a14)
      (by simp) rfl
    refine ⟨{ out.2.2 with site_specific_rate_index := out.1,
                           site_specific_rates := out.2.1 }, ?_, ?_⟩
    · unfold initVariables
      have hoff : (withoutPosteriorMean E).params.alisim_posterior_mean = false := rfl
      simp only [hoff, Bool.false_eq_true, if_false]
      rw [intializeSiteSpecificModelIndex_no_mixture _ n false _ _ hmix']
      simp only [bind, Except.bind]
      rw [regenerateRootSequence_no_mixture _ _ _ hmix']
      simp only []
      rw [hout]
      rfl
    · intro engine
      have hmixE : ({ E with computePatternStateFreq := engine } : Env).model.isMixture
          = false := hmix
      have hgateE : canApplyPosteriorMeanRate { E with computePatternStateFreq := engine }
          = canApplyPosteriorMeanRate E := rfl
      have hsame : getSiteSpecificRates E a2 a3 (List.replicate n 0) n false
            (Sim.mk (List.replicate n 0) a2 a3 false a5 a6 a7 a8 a9 a10 a11 a12 a13 a14)
          = .ok out := by
        rw [← getSiteSpecificRates_without_posterior_mean E _ _ _ _ _ _ rfl]
        exact hout
      have hw := (getSiteSpecificRates_warnings E _ _ _ _ _ _
        (a14 ++ (canApplyPosteriorMeanRate E).2) rfl _ hsame).1
      have hwE : getSiteSpecificRates { E with computePatternStateFreq := engine } a2 a3
            (List.replicate n 0) n false
            (Sim.mk (List.replicate n 0) a2 a3 false a5 a6 a7 a8 a9 a10 a11 a12 a13
              (a14 ++ (canApplyPosteriorMeanRate E).2))
          = .ok (out.1, out.2.1,
              { out.2.2 with warnings := a14 ++ (canApplyPosteriorMeanRate E).2 }) := hw
      unfold initVariables
      simp only [hpm, hgateE, hgate, if_true]
      rw [intializeSiteSpecificModelIndex_no_mixture _ n false _ _ hmixE]
      simp only [bind, Except.bind]
      rw [regenerateRootSequence_no_mixture _ _ _ hmixE]
      simp only []
      rw [hwE]
      rfl

theorem posterior_mean_fallback_witness :
    ∃ u, initVariables (withoutPosteriorMean Example.discreteNoAlignmentEnv) 5 false
          { Example.sim with applyPosMeanRate := false } = .ok u
      ∧ ∀ engine : SiteFreqType → Except Fatal (Nat → ℚ),
          initVariables { Example.discreteNoAlignmentEnv with computePatternStateFreq := engine }
              5 false Example.sim
            = .ok { u with warnings := Example.sim.warnings
                ++ (canApplyPosteriorMeanRate Example.discreteNoAlignmentEnv).2 } :=
  (posterior_mean_fallback Example.discreteNoAlignmentEnv 5 false Example.sim rfl
    (by decide)).2.2 rfl

/-- C12 (the code at the failing input).  A mixture of two components, five sites of
component 0, and an insertion of two sites at position 2 whose fresh components are both
1.  After the splice the entries 2 and 3 of `site_specific_model_index` hold the fresh
components, but the segment is regenerated from the entries 0 and 1: both inserted sites
get state 0, the only state of component 0, whereas sampling from the components of the
inserted sites gives state 3 for both. -/
theorem inserted_segment_uses_leading_components :
    insertNewSequenceForInsertionEvent Example.mixtureEnv [0, 0, 0, 0, 0] 2 [0, 0]
        Example.sim
      = .ok ([0, 0, 0, 0, 0, 0, 0], [0, 0], Example.mixtureSplicedSim)
    ∧ Example.mixtureSplicedSim.site_specific_model_index = [0, 0, 1, 1, 0, 0, 0]
    ∧ (List.range 2).map (fun j => sampledState Example.mixtureEnv
          (Example.mixtureSplicedSim.site_specific_model_index.getD j 0) (2 + j)) = [0, 0]
    ∧ (List.range 2).map (fun j => sampledState Example.mixtureEnv
          (Example.mixtureSplicedSim.site_specific_model_index.getD (2 + j) 0) (2 + j))
        = [3, 3] := by
  refine ⟨by decide!, rfl, by decide!, by decide!⟩

/-- C13 (the code at the failing input).  Discrete rates whose sampler reports site 0 as
invariant: `initVariables` stores `RATE_ZERO_INDEX` for that site, the branch is simulated
on the cached path, the parent state of site 0 is not a gap, and the cached sampler is
called for it: the run is aborted by the assertion `category_index > RATE_ZERO_INDEX`. -/
theorem zero_rate_sentinel_reaches_cached_sampler :
    initVariables Example.invariantEnv 5 false Example.sim = .ok Example.invariantSim
      ∧ Example.invariantSim.site_specific_rate_index[0]?
          = some Example.invariantEnv.RATE_ZERO_INDEX
      ∧ transMatrixCaching Example.invariantEnv Example.invariantSim = true
      ∧ simulateASequenceFromBranchAfterInitVariables Example.invariantEnv Example.model 5
          [0, 1, 2, 3, 0] Example.branch "" Example.invariantSim
        = .error (.assertion "category_index > RATE_ZERO_INDEX") := by
  refine ⟨by decide!, rfl, by decide, by decide!⟩

/-- C14, counterexample.  Two configurations on which the two selections differ.  With two
rate categories and a caching threshold of one category the substitution rates are cached
and the transition matrices are not; with an empty rate name and the continuous Gamma flag
set the transition matrices are cached and the substitution rates are not. -/
theorem caching_tests_differ :
    (Example.heterotachyUncachedEnv.rate.getNDiscreteRate = 2
      ∧ Example.heterotachyUncachedEnv.params.alisim_max_rate_categories_for_applying_caching
          = 1
      ∧ subRateCaching Example.heterotachyUncachedEnv Example.sim = true
      ∧ transMatrixCaching Example.heterotachyUncachedEnv Example.sim = false)
    ∧ (Example.continuousFlagEnv.getRateName = ""
      ∧ Example.continuousFlagEnv.is_continuous_gamma = true
      ∧ subRateCaching Example.continuousFlagEnv Example.sim = false
      ∧ transMatrixCaching Example.continuousFlagEnv Example.sim = true) := by
  decide

/-- C14, amended.  `initVariables4RateMatrix` takes its cached path exactly when the
continuous Gamma flag is off and posterior-mean rates are not applied, whatever the number
of categories; `simulateASequenceFromBranchAfterInitVariables` takes its cached path exactly
when the rate name is empty, or the flag is off, posterior-mean rates are not applied and
the number of discrete categories is at most the threshold.  The two selections agree
exactly when, for an empty rate name, the flag is off and posterior-mean rates are not
applied, and, for a non-empty rate name, the number of categories is at most the threshold
whenever the flag is off and posterior-mean rates are not applied. -/
theorem caching_selection_conditions (E : Env) (s : Sim) :
    (subRateCaching E s = true
        ↔ E.is_continuous_gamma = false ∧ s.applyPosMeanRate = false)
    ∧ (transMatrixCaching E s = true
        ↔ E.getRateName.isEmpty = true
          ∨ (E.is_continuous_gamma = false ∧ s.applyPosMeanRate = false
            ∧ E.rate.getNDiscreteRate
                ≤ E.params.alisim_max_rate_categories_for_applying_caching))
    ∧ (transMatrixCaching E s = subRateCaching E s
        ↔ if E.getRateName.isEmpty = true then
            E.is_continuous_gamma = false ∧ s.applyPosMeanRate = false
          else
            (E.is_continuous_gamma = false ∧ s.applyPosMeanRate = false →
              E.rate.getNDiscreteRate
                ≤ E.params.alisim_max_rate_categories_for_applying_caching)) := by
  unfold subRateCaching transMatrixCaching
  cases E.getRateName.isEmpty <;> cases E.is_continuous_gamma <;> cases s.applyPosMeanRate <;>
    by_cases h : E.rate.getNDiscreteRate
      ≤ E.params.alisim_max_rate_categories_for_applying_caching <;> simp [h]

/-- C15, counterexample.  The cache is not built, the option is `WSF_NONE` and the engine
fails: the operation ends in the fatal error of the engine with the option at the
posterior-mean setting, not at its prior value. -/
theorem option_not_restored_when_engine_fails :
    Example.sim.ptn_state_freq = none
      ∧ Example.sim.print_site_state_freq = SiteFreqType.WSF_NONE
      ∧ (extractPatternPosteriorFreqsAndModelProb Example.failingEngineEnv 5 Example.sim).2
          = .error (.engine "no alignment")
      ∧ (extractPatternPosteriorFreqsAndModelProb Example.failingEngineEnv 5
            Example.sim).1.print_site_state_freq
          = SiteFreqType.WSF_POSTERIOR_MEAN :=
  ⟨rfl, rfl, rfl, rfl⟩

/-- C15, amended.  Whenever `extractPatternPosteriorFreqsAndModelProb` returns, the option
`print_site_state_freq` has its prior value: either the cache was already built and the
whole state is untouched, or the engine computation succeeded.  The engine is consulted
under the posterior-mean setting only: its behaviour under any other setting has no
influence on the operation. -/
theorem option_restored_when_extraction_returns (E : Env) (input_sequence_length : Int)
    (s : Sim)
    (hret : (extractPatternPosteriorFreqsAndModelProb E input_sequence_length s).2 = .ok ()) :
    (extractPatternPosteriorFreqsAndModelProb E input_sequence_length s).1.print_site_state_freq
        = s.print_site_state_freq
      ∧ (s.ptn_state_freq ≠ none →
          (extractPatternPosteriorFreqsAndModelProb E input_sequence_length s).1 = s)
      ∧ (s.ptn_state_freq = none →
          ∃ cells, E.computePatternStateFreq SiteFreqType.WSF_POSTERIOR_MEAN = .ok cells)
      ∧ ∀ engine : SiteFreqType → Except Fatal (Nat → ℚ),
          extractPatternPosteriorFreqsAndModelProb
              { E with computePatternStateFreq := engine } input_sequence_length s
            = extractPatternPosteriorFreqsAndModelProb
              { E with computePatternStateFreq :=
                  fun _ => engine SiteFreqType.WSF_POSTERIOR_MEAN }
              input_sequence_length s := by
  refine ⟨?_, ?_, ?_, fun engine => rfl⟩
  · unfold extractPatternPosteriorFreqsAndModelProb at hret ⊢
    cases hs : s.ptn_state_freq with
    | some table => simp
    | none =>
      simp only [hs] at hret ⊢
      cases he : E.computePatternStateFreq SiteFreqType.WSF_POSTERIOR_MEAN with
      | error e => simp [he] at hret
      | ok cells => simp
  · intro hs
    unfold extractPatternPosteriorFreqsAndModelProb
    cases hs' : s.ptn_state_freq with
    | some table => simp
    | none => exact absurd hs' hs
  · intro hs
    unfold extractPatternPosteriorFreqsAndModelProb at hret
    simp only [hs] at hret
    cases he : E.computePatternStateFreq SiteFreqType.WSF_POSTERIOR_MEAN with
    | error e => simp [he] at hret
    | ok cells => exact ⟨cells, rfl⟩

theorem option_restored_when_extraction_returns_witness :
    (extractPatternPosteriorFreqsAndModelProb Example.env 5
        Example.sim).1.print_site_state_freq = Example.sim.print_site_state_freq
      ∧ (extractPatternPosteriorFreqsAndModelProb Example.env 5
        { Example.sim with ptn_state_freq := some [] }).1
          = { Example.sim with ptn_state_freq := some [] } :=
  ⟨(option_restored_when_extraction_returns Example.env 5 Example.sim rfl).1,
    (option_restored_when_extraction_returns Example.env 5
      { Example.sim with ptn_state_freq := some [] } rfl).2.1 (by decide)⟩

/-- C16, counterexample.  An alignment of three sites whose patterns are 0, 0 and 1: for
an inserted site, pattern 0 is selected by two values of the draw and pattern 1 by one. -/
theorem random_pattern_not_uniform :
    Example.unevenEnv.aln.getNSite = 3
      ∧ (List.range 3).map (fun (d : Nat) => Example.unevenEnv.aln.getPatternID d) = [0, 0, 1]
      ∧ drawsSelectingPattern Example.unevenEnv true 0 0 = 2
      ∧ drawsSelectingPattern Example.unevenEnv true 0 1 = 1 := by
  decide

/-- C16, amended.  In the posterior-based samplers a site uses its own pattern
`getPatternID(i)`, without a draw, exactly when the call does not serve an insertion and
the site lies within the input alignment; otherwise its pattern is the pattern of the site
`random_int(input_sequence_length)`, a uniformly random site of the input alignment: every
pattern is selected by as many values of the draw as there are sites of that pattern. -/
theorem random_pattern_follows_site_counts (E : Env) (insertion_event : Bool) (i rng : Nat)
    (hrandom : insertion_event = true ∨ E.aln.getNSite ≤ (i : Int)) :
    (∀ (j k : Nat), (j : Int) < E.aln.getNSite →
        sitePattern E false E.aln.getNSite j k = (E.aln.getPatternID (j : Int), k))
      ∧ sitePattern E insertion_event E.aln.getNSite i rng
          = (E.aln.getPatternID (E.random_int rng E.aln.getNSite), rng + 1)
      ∧ ∀ pattern, drawsSelectingPattern E insertion_event i pattern
          = sitesOfPattern E pattern := by
  have hcond : (insertion_event || decide ((i : Int) ≥ E.aln.getNSite)) = true := by
    rcases hrandom with h | h
    · simp [h]
    · simp [h]
  refine ⟨?_, ?_, ?_⟩
  · intro j k hj
    unfold sitePattern
    simp [hj]
  · unfold sitePattern
    rw [if_pos hcond]
  · intro pattern
    unfold drawsSelectingPattern sitesOfPattern sitePattern
    simp only [hcond, if_true]

theorem random_pattern_follows_site_counts_witness :
    sitePattern Example.unevenEnv true 3 1 7 = (0, 8)
      ∧ drawsSelectingPattern Example.unevenEnv true 1 0
          = sitesOfPattern Example.unevenEnv 0 :=
  ⟨(random_pattern_follows_site_counts Example.unevenEnv true 1 7 (Or.inl rfl)).2.1,
    (random_pattern_follows_site_counts Example.unevenEnv true 1 7 (Or.inl rfl)).2.2 0⟩

/-- C17.  Builder and sampler agree on the layout of the cached table.  For a table of
`M * C * S * S` cells and branch lengths covering the categories,
`intializeCachingAccumulatedTransMatrices` returns, and for every component `m < M` and
category `c < C` that is filled (every pair, or only `m = c` for a fused mixture), every
source state `s < S` and destination state `d < S`, the entry at offset
`m*C*S*S + c*S*S + s*S + d` is the sum over `j ≤ d` of `P[s][j]`, where `P` is the
transition matrix of component `m` for the time
`partition_rate * branch_scale * L_c * r_c` (`categoryTime`): the sums start afresh in
every row.  That row is the one the sampler reads: for a site of component `m` and
category `c` and the ancestor state `s`, `estimateStateFromAccumulatedTransMatrices` hands
the offset `m*C*S*S + c*S*S + s*S` to the base-class sampler. -/
theorem cached_table_layout (E : Env) (model : ModelSubst) (cache0 : List ℚ) (M C S : Nat)
    (branch_lengths : List ℚ) (hS : E.max_num_states = (S : Int))
    (hlen : cache0.length = M * C * S * S)
    (hbl : if E.rate.isHeterotachy = true then C ≤ branch_lengths.length
      else 1 ≤ branch_lengths.length)
    (m c s d : Nat) (hm : m < M) (hc : c < C) (hs : s < S) (hd : d < S)
    (hfilled : (model.isMixture && model.isFused) = true → m = c) :
    ∃ cache, intializeCachingAccumulatedTransMatrices E cache0 M C branch_lengths model
        = .ok cache
      ∧ cache[m * C * S * S + c * S * S + s * S + d]?
          = some (∑ j in Finset.range (d + 1),
              model.computeTransMatrix (categoryTime E branch_lengths c) m (s * S + j))
      ∧ ∀ (sim : Sim) (site : Nat) (rate : ℚ),
          sim.site_specific_model_index[site]? = some (m : Int) →
          sim.site_specific_rate_index[site]? = some (c : Int) →
          E.RATE_ZERO_INDEX < (c : Int) →
          estimateStateFromAccumulatedTransMatrices E cache rate site C s sim
            = .ok (E.getRandomItemWithAccumulatedProbMatrixMaxProbFirst cache
                  ((m * C * S * S + c * S * S + s * S : Nat) : Int) E.max_num_states s
                  (E.random_double sim.rng),
                { sim with sampled_sites := sim.sampled_sites ++ [site],
                           rng := sim.rng + 1 }) := by
  obtain ⟨raw, hraw, hrl, hcells⟩ := intializeCachingAccumulatedTransMatrices_cells E model
    cache0 M C S branch_lengths hS (by rw [hlen]; ring) hbl
  refine ⟨_, hraw, ?_, ?_⟩
  · have hrow : (m * C + c) * S + s < M * C * S :=
      block_cell_lt _ _ S s (block_number_lt m c M C hm hc) hs
    have hidx : m * C * S * S + c * S * S + s * S + d = ((m * C + c) * S + s) * S + d := by
      ring
    rw [hidx, convertProMatrixIntoAccumulatedProMatrix_getElem? raw (M * C * S) S _ d hrow hd
        (by rw [hrl, hlen]),
      drop_take_eq_map raw _ (d + 1)
        (fun j => model.computeTransMatrix (categoryTime E branch_lengths c) m (s * S + j)),
      sum_map_range]
    intro j hj
    have hcell : ((m * C + c) * S + s) * S + j = (m * C + c) * (S * S) + (s * S + j) := by
      ring
    rw [hcell]
    exact hcells m c (s * S + j) hm hc hfilled (block_cell_lt s S S j hs (by omega))
  · intro sim site rate hmi hri hzero
    have r1 : readAt "site_specific_model_index" sim.site_specific_model_index (site : Int)
        = .ok (m : Int) := by
      rw [readAt_ok_iff]
      exact ⟨by omega, by simpa using hmi⟩
    have r2 : readAt "site_specific_rate_index" sim.site_specific_rate_index (site : Int)
        = .ok (c : Int) := by
      rw [readAt_ok_iff]
      exact ⟨by omega, by simpa using hri⟩
    have hstart : (m : Int) * (C : Int) * E.max_num_states * E.max_num_states
        + (c : Int) * E.max_num_states * E.max_num_states + E.max_num_states * (s : Int)
          = ((m * C * S * S + c * S * S + s * S : Nat) : Int) := by
      rw [hS]
      push_cast
      ring
    unfold estimateStateFromAccumulatedTransMatrices
    simp only [r1, r2, bind, Except.bind, hstart, gt_iff_lt, hzero, decide_True, Bool.not_true,
      Bool.false_eq_true, if_false, pure, Except.pure]

theorem cached_table_layout_witness :
    (∃ cache, intializeCachingAccumulatedTransMatrices Example.discreteEnv
          (List.replicate 32 0) (1 : Nat) (2 : Nat) [1, 1] Example.timedModel = .ok cache
      ∧ cache[0 * 2 * 4 * 4 + 1 * 4 * 4 + 2 * 4 + 3]?
          = some (∑ j in Finset.range (3 + 1),
              Example.timedModel.computeTransMatrix
                (categoryTime Example.discreteEnv [1, 1] 1) (0 : Nat) (2 * 4 + j))
      ∧ ∀ (sim : Sim) (site : Nat) (rate : ℚ),
          sim.site_specific_model_index[site]? = some ((0 : Nat) : Int) →
          sim.site_specific_rate_index[site]? = some ((1 : Nat) : Int) →
          Example.discreteEnv.RATE_ZERO_INDEX < ((1 : Nat) : Int) →
          estimateStateFromAccumulatedTransMatrices Example.discreteEnv cache rate site
              (2 : Nat) (2 : Nat) sim
            = .ok (Example.discreteEnv.getRandomItemWithAccumulatedProbMatrixMaxProbFirst cache
                  ((0 * 2 * 4 * 4 + 1 * 4 * 4 + 2 * 4 : Nat) : Int)
                  Example.discreteEnv.max_num_states (2 : Nat)
                  (Example.discreteEnv.random_double sim.rng),
                { sim with sampled_sites := sim.sampled_sites ++ [site],
                           rng := sim.rng + 1 }))
    ∧ intializeCachingAccumulatedTransMatrices Example.discreteEnv
          (List.replicate 32 0) (1 : Nat) (2 : Nat) [1, 1] Example.timedModel
        = .ok [1, 3, 6, 10, 5, 11, 18, 26, 9, 19, 30, 42, 13, 27, 42, 58,
            3, 9, 18, 30, 15, 33, 54, 78, 27, 57, 90, 126, 39, 81, 126, 174] :=
  ⟨cached_table_layout Example.discreteEnv Example.timedModel (List.replicate 32 0) 1 2 4
      [1, 1] rfl (by decide) (by decide) 0 1 2 3 (by decide) (by decide) (by decide)
      (by decide) (by decide),
    by decide!⟩

/-- C18 (the code at the failing input).  A fused mixture of two components and two rate
categories, and the sequence 3, gap, 0, 1, 2 whose sites have the components and
categories 0, 1, 0, 1, 1 and the rates 1, 3, 1, 3, 3 of their categories: the inputs are
in range and every site lies in a cell that `cacheSubRates` fills.  The cached path and
the uncached path, whether selected by the continuous Gamma flag or by posterior-mean
rates, return the same site rates 4, 0, 1, 18, 21 and the same number of gaps 1.  The
uncached path returns their sum 44 as the total; the total of the cached path also adds
the never-written cells of the blocks `(0, 1)` and `(1, 0)`, each times its count 0, and
is not determined by the inputs. -/
theorem fused_cached_total_differs_from_uncached :
    subRateCaching Example.fusedRatesEnv Example.fusedSim = true
    ∧ RateInputsInRange Example.fusedRatesEnv [3, 18, 0, 1, 2] Example.fusedSim
    ∧ SitesInFilledCells Example.fusedRatesEnv [3, 18, 0, 1, 2] Example.fusedSim
    ∧ initVariables4RateMatrix Example.fusedRatesEnv 0 0 [] [3, 18, 0, 1, 2] Example.fusedSim
        = .ok (Double.indeterminate, 1, [4, 0, 1, 18, 21])
    ∧ initVariables4RateMatrix { Example.fusedRatesEnv with is_continuous_gamma := true } 0 0 []
          [3, 18, 0, 1, 2] Example.fusedSim
        = .ok (44, 1, [4, 0, 1, 18, 21])
    ∧ initVariables4RateMatrix Example.fusedRatesEnv 0 0 [] [3, 18, 0, 1, 2]
          { Example.fusedSim with applyPosMeanRate := true }
        = .ok (44, 1, [4, 0, 1, 18, 21]) := by
  refine ⟨by decide, ?_, ?_, by decide!, by decide!, by decide!⟩
  · exact
      { rates_cover := by decide
        models_cover := by decide
        categories_cover := by decide
        sub_rates_cover := by decide
        site := by
          intro i state model_index rate_index rate hst hne hr hr0 hm hc
          have hi : i < 5 := by
            by_contra hcon
            rw [List.getElem?_eq_none (by simp; omega)] at hst
            cases hst
          have he : ("+R2" : String).isEmpty = false := by decide
          interval_cases i <;>
            simp [Example.fusedSim, Example.sim, Example.fusedRatesEnv, Example.fusedEnv,
              Example.env, numModels, numRateCategories, Example.fusedMixture, Example.model,
              Example.rate, he] at * <;>
            omega }
  · intro i state model_index rate_index rate hst hne hr hr0 hm hc
    have hi : i < 5 := by
      by_contra hcon
      rw [List.getElem?_eq_none (by simp; omega)] at hst
      cases hst
    interval_cases i <;>
      simp [Example.fusedSim, Example.sim, Example.fusedRatesEnv, Example.fusedEnv,
        Example.env, categoryMultiplier, Example.fusedMixture, Example.model,
        Example.rate] at * <;>
      simp [← hr, ← hc, ← hm]

end AliSim
